import Mathlib

/-! # DRM manager: engine selection and session registry

A shallow embedding of `drm/drmserver/DrmManager.cpp`.  The manager is a record
of its member variables; every member function becomes a function from the
state (and its arguments) to its result and the next state.  Calls made on
engines are recorded, in order, in the `trace` field, so that statements such
as "no engine is invoked" can be made about the code.

`String8` is `String`, `int` is `Int` with 32-bit two's-complement wrap-around
on `+ 1` (`wrapInt`), pointers that may be null are `Option`.
-/

namespace DrmFramework

/-! ## Basic types and constants -/

abbrev String8 := String

abbrev status_t := Int

/-- Modelled from the spec: the status codes of `drm_framework_common.h`, a header
that is not among the sources.  Only the fact that the three codes are pairwise
distinct is used. -/
def DRM_NO_ERROR : status_t := 0

/-- Modelled from the spec: the generic failure code ("unknown session") of
`drm_framework_common.h`, a header that is not among the sources. -/
def DRM_ERROR_UNKNOWN : status_t := -2000

/-- Modelled from the spec: the "cannot handle" failure code of
`drm_framework_common.h`, a header that is not among the sources. -/
def DRM_ERROR_CANNOT_HANDLE : status_t := -2005

/-- The value of `#define DECRYPT_FILE_ERROR -1` in `DrmManager.cpp`. -/
def DECRYPT_FILE_ERROR : Int := -1

/-- Modelled from the spec: the "key not found" answer of `indexOfKey`
(`utils/Errors.h`, not among the sources); any negative number would do. -/
def NAME_NOT_FOUND : Int := -2

/-- The constant `DrmManager::EMPTY_STRING`. -/
def EMPTY_STRING : String8 := ""

/-- The largest value of a C++ `int`. -/
def INT_MAX : Int := 2147483647

/-- A mathematical integer read back as a 32-bit two's-complement `int`. -/
def wrapInt (x : Int) : Int := (x + 2147483648) % 4294967296 - 2147483648

/-- Payload of a `DrmBuffer`. -/
abbrev DrmBuffer := List Nat

/-- Modelled from the spec: a Support Descriptor, "per-engine declaration of
{set of supported MIME types, set of supported file suffixes}"
(`DrmSupportInfo`, whose code is not among the sources). -/
structure DrmSupportInfo where
  mMimeTypeVector : List String8
  mFileSuffixVector : List String8
  mDescription : String8
deriving DecidableEq, Repr

/-- Modelled from the spec: the descriptor "declares that MIME type". -/
def DrmSupportInfo.isSupportedMimeType (d : DrmSupportInfo) (mimeType : String8) : Bool :=
  decide (mimeType ∈ d.mMimeTypeVector)

/-- Modelled from the spec: the descriptor "declares that suffix". -/
def DrmSupportInfo.isSupportedFileSuffix (d : DrmSupportInfo) (fileType : String8) : Bool :=
  decide (fileType ∈ d.mFileSuffixVector)

/-- The part of a path after the last occurrence of `c`, if `c` occurs. -/
def afterLast (c : Char) : List Char → Option (List Char)
  | [] => none
  | x :: xs =>
    match afterLast c xs with
    | some r => some r
    | none => if x = c then some xs else none

/-- Modelled from the spec: "derive the file suffix from path"
(`String8::getPathExtension`, not among the sources): the text after the last
dot of the last path component, empty when there is none. -/
def getPathExtension (path : String8) : String8 :=
  match afterLast '.' ((afterLast '/' path.data).getD path.data) with
  | some e => String.mk e
  | none => ""

/-- The fields of `DecryptHandle` (declared in `drm_framework_common.h`); the
manager itself reads and writes `decryptId` only. -/
structure DecryptHandle where
  decryptId : Int
  mimeType : String8
  decryptApiType : Int
  status : Int
deriving DecidableEq, Repr

/-- The result of `new DecryptHandle()`: a value-initialised handle. -/
def DecryptHandle.fresh : DecryptHandle := ⟨0, "", 0, 0⟩

structure DrmConvertedStatus where
  statusCode : Int
  convertedData : Option DrmBuffer
  offset : Int
deriving DecidableEq, Repr

structure DrmInfoEvent where
  uniqueId : Int
  infoType : Int
  message : String8
deriving DecidableEq, Repr

/-- Payload of a `DrmConstraints` object: its key-value pairs. -/
abbrev DrmConstraints := List (String8 × String8)

structure DrmInfo where
  infoType : Int
  data : DrmBuffer
  mimeType : String8
deriving DecidableEq, Repr

/-- `DrmInfo::getMimeType()`. -/
def DrmInfo.getMimeType (drmInfo : DrmInfo) : String8 := drmInfo.mimeType

structure DrmInfoRequest where
  infoType : Int
  mimeType : String8
deriving DecidableEq, Repr

/-- `DrmInfoRequest::getMimeType()`. -/
def DrmInfoRequest.getMimeType (drmInfoRequest : DrmInfoRequest) : String8 :=
  drmInfoRequest.mimeType

structure DrmInfoStatus where
  statusCode : Int
  data : DrmBuffer
  mimeType : String8
deriving DecidableEq, Repr

structure ActionDescription where
  outputType : Int
  configuration : Int
deriving DecidableEq, Repr

/-- Modelled from the spec: the "rights invalid" sentinel `RightsStatus::RIGHTS_INVALID`
of `drm_framework_common.h`, a header that is not among the sources; its value
is not used. -/
def RIGHTS_INVALID : Int := 1

/-- Modelled from the spec: the "object type unknown" sentinel
`DrmObjectType::UNKNOWN` of `drm_framework_common.h`, a header that is not among
the sources; its value is not used. -/
def UNKNOWN : Int := 0

/-! ## Engines -/

/-- The answers of one engine (`IDrmEngine`): each operation that returns a value
is a function of its arguments.  Operations returning `void` have no field;
that they were called is visible in the manager's `trace`.
`openDecryptSession` receives the handle by pointer and may write to it, so it
returns the handle it leaves behind together with its status; so does
`closeDecryptSession`, which returns `void`: its field is the handle as the
engine leaves it, which the manager reads again after the call. -/
structure IDrmEngine where
  onInitialize : Int → status_t
  setOnInfoListener : Int → status_t
  terminate : Int → status_t
  canHandle : Int → String8 → Bool
  getSupportInfo : Int → Option DrmSupportInfo
  convertData : Int → Int → Option DrmBuffer → Option DrmConvertedStatus
  closeConvertSession : Int → Int → Option DrmConvertedStatus
  openDecryptSession : Int → DecryptHandle → Int → Int → Int → status_t × DecryptHandle
  closeDecryptSession : Int → DecryptHandle → DecryptHandle
  decrypt : Int → DecryptHandle → Int → Option DrmBuffer → Option DrmBuffer →
    status_t × Option DrmBuffer
  pread : Int → DecryptHandle → Int → Int → Int
  getConstraints : Int → Option String8 → Int → Option DrmConstraints
  processDrmInfo : Int → Option DrmInfo → Option DrmInfoStatus
  acquireDrmInfo : Int → Option DrmInfoRequest → Option DrmInfo
  getOriginalMimeType : Int → String8 → String8
  getDrmObjectType : Int → String8 → String8 → Int
  checkRightsStatus : Int → String8 → Int → Int
  validateAction : Int → String8 → Int → ActionDescription → Bool

/-- One call made by the manager on an engine, with its arguments. -/
inductive EngineCall where
  | onInitialize (uniqueId : Int)
  | setOnInfoListener (uniqueId : Int)
  | terminate (uniqueId : Int)
  | canHandle (uniqueId : Int) (path : String8)
  | getSupportInfo (uniqueId : Int)
  | consumeRights (uniqueId : Int) (decryptHandle : DecryptHandle) (action : Int)
      (reserve : Bool)
  | setPlaybackStatus (uniqueId : Int) (decryptHandle : DecryptHandle)
      (playbackStatus position : Int)
  | openConvertSession (uniqueId convertId : Int)
  | convertData (uniqueId convertId : Int) (inputData : Option DrmBuffer)
  | closeConvertSession (uniqueId convertId : Int)
  | openDecryptSession (uniqueId : Int) (decryptHandle : DecryptHandle)
      (fd offset length : Int)
  | closeDecryptSession (uniqueId : Int) (decryptHandle : DecryptHandle)
  | initializeDecryptUnit (uniqueId : Int) (decryptHandle : DecryptHandle)
      (decryptUnitId : Int) (headerInfo : Option DrmBuffer)
  | decrypt (uniqueId : Int) (decryptHandle : DecryptHandle) (decryptUnitId : Int)
      (encBuffer : Option DrmBuffer)
  | finalizeDecryptUnit (uniqueId : Int) (decryptHandle : DecryptHandle)
      (decryptUnitId : Int)
  | pread (uniqueId : Int) (decryptHandle : DecryptHandle) (numBytes offset : Int)
  | getConstraints (uniqueId : Int) (path : Option String8) (action : Int)
  | processDrmInfo (uniqueId : Int) (drmInfo : Option DrmInfo)
  | acquireDrmInfo (uniqueId : Int) (drmInfoRequest : Option DrmInfoRequest)
  | getOriginalMimeType (uniqueId : Int) (path : String8)
  | getDrmObjectType (uniqueId : Int) (path mimeType : String8)
  | checkRightsStatus (uniqueId : Int) (path : String8) (action : Int)
  | validateAction (uniqueId : Int) (path : String8) (action : Int)
      (description : ActionDescription)
deriving DecidableEq, Repr

/-- A loaded engine instance together with the identifier it is registered
under; this is what an `IDrmEngine*` held by a session map points to. -/
structure PlugIn where
  plugInId : String8
  engine : IDrmEngine

/-! ## Containers -/

/-- Modelled from the spec: the keyed container `KeyedVector` (`utils/KeyedVector.h`,
not among the sources), the one class behind the listener registry, the two
session maps and the Capability Index, on all of which the manager calls the
same `add`.  It "maps" keys to values, so a key is bound at most once; `add`
on a bound key "replaces any existing binding", which §4.5 says of the
listener registry and which is taken here for every instance of the class;
entries are scanned in the order in which their keys were first added, which
"must be preserved (insertion-ordered)" (§4.3).  For the Capability Index this
means that an engine reporting a descriptor equal to one already indexed takes
over that entry; statements about the index that are to hold whatever the
container does with equal keys are phrased over its entries in scan order. -/
structure KeyedVector (K V : Type) where
  mVector : List (K × V)

namespace KeyedVector

variable {K V : Type}

def empty : KeyedVector K V := ⟨[]⟩

def size (m : KeyedVector K V) : Nat := m.mVector.length

def isEmpty (m : KeyedVector K V) : Bool := m.mVector.isEmpty

def clear (_m : KeyedVector K V) : KeyedVector K V := ⟨[]⟩

/-- The keys `keyAt(0)`, ..., `keyAt(size() - 1)`, in scan order. -/
def keys (m : KeyedVector K V) : List K := m.mVector.map Prod.fst

/-- The value bound to a key in a list of entries, if any. -/
def findEntry [DecidableEq K] (k : K) : List (K × V) → Option V
  | [] => none
  | (k1, v1) :: rest => if k1 = k then some v1 else findEntry k rest

/-- Position of a key in a list of entries, counted from `i`. -/
def findIndex [DecidableEq K] (k : K) : List (K × V) → Nat → Option Nat
  | [], _ => none
  | (k1, _) :: rest, i => if k1 = k then some i else findIndex k rest (i + 1)

/-- The value bound to `k`, if `k` is a key. -/
def lookup [DecidableEq K] (m : KeyedVector K V) (k : K) : Option V :=
  findEntry k m.mVector

/-- The index of `k`, or `NAME_NOT_FOUND`. -/
def indexOfKey [DecidableEq K] (m : KeyedVector K V) (k : K) : Int :=
  match findIndex k m.mVector 0 with
  | some i => (i : Int)
  | none => NAME_NOT_FOUND

/-- The value bound to `k`; the C++ code only calls it on a key that is
present, `dflt` stands for the undefined answer otherwise. -/
def valueFor [DecidableEq K] (m : KeyedVector K V) (k : K) (dflt : V) : V :=
  (m.lookup k).getD dflt

/-- Bind `k` in a list of entries: replace the value of the entry with key `k`,
or append a new entry when there is none. -/
def insertEntry [DecidableEq K] (k : K) (v : V) : List (K × V) → List (K × V)
  | [] => [(k, v)]
  | (k1, v1) :: rest =>
    if k1 = k then (k, v) :: rest else (k1, v1) :: insertEntry k v rest

def add [DecidableEq K] (m : KeyedVector K V) (k : K) (v : V) : KeyedVector K V :=
  ⟨insertEntry k v m.mVector⟩

/-- Remove the entries with key `k` from a list of entries. -/
def eraseEntry [DecidableEq K] (k : K) : List (K × V) → List (K × V)
  | [] => []
  | (k1, v1) :: rest =>
    if k1 = k then eraseEntry k rest else (k1, v1) :: eraseEntry k rest

def removeItem [DecidableEq K] (m : KeyedVector K V) (k : K) : KeyedVector K V :=
  ⟨eraseEntry k m.mVector⟩

end KeyedVector

/-- Modelled from the spec: the Engine Registry (`TPlugInManager`, not among the
sources): the loaded engines with their identifiers, in load order. -/
structure PlugInManager where
  plugIns : List PlugIn

namespace PlugInManager

/-- The identifiers of the loaded engines, in load order. -/
def getPlugInIdList (pm : PlugInManager) : List String8 :=
  pm.plugIns.map PlugIn.plugInId

/-- The engine registered under an identifier.  The C++ returns a reference and
is only called with identifiers that are loaded; `none` stands for the
undefined case of an identifier that is not, in which the embedding of the
caller makes no call on an engine. -/
def getPlugIn (pm : PlugInManager) (plugInId : String8) : Option PlugIn :=
  pm.plugIns.find? (fun p => decide (p.plugInId = plugInId))

/-- Modelled from the spec: `register(engine)` "adds engine under its identifier;
fails if the identifier is already registered". -/
def loadPlugIn (pm : PlugInManager) (p : PlugIn) : PlugInManager :=
  if p.plugInId ∈ pm.getPlugInIdList then pm else ⟨pm.plugIns ++ [p]⟩

/-- Load the engines found in a directory; which engines a directory holds is
the business of the engine loading collaborator and is an argument here. -/
def loadPlugIns (pm : PlugInManager) (found : List PlugIn) : PlugInManager :=
  found.foldl loadPlugIn pm

def unloadPlugIns (_pm : PlugInManager) : PlugInManager := ⟨[]⟩

end PlugInManager

/-! ## The manager -/

/-- The member variables of `DrmManager`, and the record of engine calls and
listener notifications made so far. -/
structure DrmManager where
  mDecryptSessionId : Int
  mConvertId : Int
  mPlugInManager : PlugInManager
  mSupportInfoToPlugInIdMap : KeyedVector DrmSupportInfo String8
  mConvertSessionMap : KeyedVector Int PlugIn
  mDecryptSessionMap : KeyedVector Int PlugIn
  mServiceListeners : KeyedVector Int Nat
  trace : List (String8 × EngineCall)
  notified : List (Nat × DrmInfoEvent)

namespace DrmManager

/-- The constructor `DrmManager::DrmManager()`. -/
def init : DrmManager :=
  { mDecryptSessionId := 0
    mConvertId := 0
    mPlugInManager := ⟨[]⟩
    mSupportInfoToPlugInIdMap := KeyedVector.empty
    mConvertSessionMap := KeyedVector.empty
    mDecryptSessionMap := KeyedVector.empty
    mServiceListeners := KeyedVector.empty
    trace := []
    notified := [] }

/-- Record one call on the engine registered as `plugInId`. -/
def logCall (s : DrmManager) (plugInId : String8) (c : EngineCall) : DrmManager :=
  { s with trace := s.trace ++ [(plugInId, c)] }

/-! ### Engine selection -/

/-- The loop of `DrmManager::populate` over the identifiers still to visit. -/
def populateLoop (uniqueId : Int) : List String8 → DrmManager → DrmManager
  | [], s => s
  | plugInPath :: rest, s =>
    match s.mPlugInManager.getPlugIn plugInPath with
    | none => populateLoop uniqueId rest s
    | some p =>
      let s1 := s.logCall plugInPath (EngineCall.getSupportInfo uniqueId)
      match p.engine.getSupportInfo uniqueId with
      | some info =>
        populateLoop uniqueId rest
          { s1 with mSupportInfoToPlugInIdMap := s1.mSupportInfoToPlugInIdMap.add info plugInPath }
      | none => populateLoop uniqueId rest s1

/-- `DrmManager::populate(int uniqueId)`. -/
def populate (s : DrmManager) (uniqueId : Int) : DrmManager :=
  populateLoop uniqueId s.mPlugInManager.getPlugInIdList s

/-- The loop of `getSupportedPlugInId(mimeType)` over the keys still to visit;
`plugInId` starts as the empty string and is returned when no key matches. -/
def mimeScan (m : KeyedVector DrmSupportInfo String8) (mimeType : String8) :
    List DrmSupportInfo → String8
  | [] => ""
  | drmSupportInfo :: rest =>
    if drmSupportInfo.isSupportedMimeType mimeType then m.valueFor drmSupportInfo ""
    else mimeScan m mimeType rest

/-- `DrmManager::getSupportedPlugInId(const String8& mimeType)`. -/
def getSupportedPlugInId (s : DrmManager) (mimeType : String8) : String8 :=
  if EMPTY_STRING ≠ mimeType then
    mimeScan s.mSupportInfoToPlugInIdMap mimeType s.mSupportInfoToPlugInIdMap.keys
  else ""

/-- The loop of `getSupportedPlugInIdFromPath` over the keys still to visit. -/
def pathScan (uniqueId : Int) (path fileSuffix : String8) :
    List DrmSupportInfo → DrmManager → String8 × DrmManager
  | [], s => ("", s)
  | drmSupportInfo :: rest, s =>
    if drmSupportInfo.isSupportedFileSuffix fileSuffix then
      let key := s.mSupportInfoToPlugInIdMap.valueFor drmSupportInfo ""
      match s.mPlugInManager.getPlugIn key with
      | none => pathScan uniqueId path fileSuffix rest s
      | some drmEngine =>
        let s1 := s.logCall key (EngineCall.canHandle uniqueId path)
        if drmEngine.engine.canHandle uniqueId path then (key, s1)
        else pathScan uniqueId path fileSuffix rest s1
    else pathScan uniqueId path fileSuffix rest s

/-- `DrmManager::getSupportedPlugInIdFromPath(int uniqueId, const String8& path)`. -/
def getSupportedPlugInIdFromPath (s : DrmManager) (uniqueId : Int) (path : String8) :
    String8 × DrmManager :=
  pathScan uniqueId path (getPathExtension path) s.mSupportInfoToPlugInIdMap.keys s

/-- The loop of the one-argument `canHandle` over the identifiers still to visit. -/
def canHandleLoop (uniqueId : Int) (path : String8) :
    List String8 → DrmManager → Bool × DrmManager
  | [], s => (false, s)
  | plugInPath :: rest, s =>
    match s.mPlugInManager.getPlugIn plugInPath with
    | none => canHandleLoop uniqueId path rest s
    | some rDrmEngine =>
      let s1 := s.logCall plugInPath (EngineCall.canHandle uniqueId path)
      if rDrmEngine.engine.canHandle uniqueId path then (true, s1)
      else canHandleLoop uniqueId path rest s1

/-- `DrmManager::canHandle(int uniqueId, const String8& path)`. -/
def canHandle (s : DrmManager) (uniqueId : Int) (path : String8) : Bool × DrmManager :=
  canHandleLoop uniqueId path s.mPlugInManager.getPlugInIdList s

/-! ### Decrypt sessions -/

/-- The probing loop of `openDecryptSession`: `handle` and `result` are the local
variables of the function, the list holds the identifiers still to visit. -/
def openDecryptLoop (uniqueId fd offset length : Int) :
    List String8 → DecryptHandle → status_t → DrmManager →
      status_t × DecryptHandle × DrmManager
  | [], handle, result, s => (result, handle, s)
  | plugInId :: rest, handle, result, s =>
    match s.mPlugInManager.getPlugIn plugInId with
    | none => openDecryptLoop uniqueId fd offset length rest handle result s
    | some rDrmEngine =>
      let r := rDrmEngine.engine.openDecryptSession uniqueId handle fd offset length
      let s1 := s.logCall plugInId
        (EngineCall.openDecryptSession uniqueId handle fd offset length)
      if DRM_NO_ERROR = r.1 then
        let s2 := { s1 with mDecryptSessionId := wrapInt (s1.mDecryptSessionId + 1) }
        (r.1, r.2,
          { s2 with mDecryptSessionMap := s2.mDecryptSessionMap.add s2.mDecryptSessionId rDrmEngine })
      else openDecryptLoop uniqueId fd offset length rest r.2 r.1 s1

/-- The handle `openDecryptSession` allocates before it probes the engines. -/
def newDecryptHandle (s : DrmManager) : DecryptHandle :=
  { DecryptHandle.fresh with decryptId := wrapInt (s.mDecryptSessionId + 1) }

/-- The part of `openDecryptSession` under the decrypt lock: the final value of
`result`, the handle and the next state. -/
def openDecryptProbe (s : DrmManager) (uniqueId fd offset length : Int) :
    status_t × DecryptHandle × DrmManager :=
  openDecryptLoop uniqueId fd offset length s.mPlugInManager.getPlugInIdList
    (newDecryptHandle s) DRM_ERROR_CANNOT_HANDLE s

/-- `DrmManager::openDecryptSession(int uniqueId, int fd, int offset, int length)`;
`none` is the null handle. -/
def openDecryptSession (s : DrmManager) (uniqueId fd offset length : Int) :
    Option DecryptHandle × DrmManager :=
  let r := openDecryptProbe s uniqueId fd offset length
  if DRM_ERROR_CANNOT_HANDLE = r.1 then (none, r.2.2) else (some r.2.1, r.2.2)

/-- `DrmManager::closeDecryptSession`.  The engine is handed the pointer
`decryptHandle`, and `removeItem` reads `decryptHandle->decryptId` after the
engine's call: the key removed is the id of the handle as the engine left it. -/
def closeDecryptSession (s : DrmManager) (uniqueId : Int) (decryptHandle : DecryptHandle) :
    DrmManager :=
  if s.mDecryptSessionMap.indexOfKey decryptHandle.decryptId ≠ NAME_NOT_FOUND then
    match s.mDecryptSessionMap.lookup decryptHandle.decryptId with
    | none => s
    | some drmEngine =>
      let s1 := s.logCall drmEngine.plugInId
        (EngineCall.closeDecryptSession uniqueId decryptHandle)
      let handle := drmEngine.engine.closeDecryptSession uniqueId decryptHandle
      { s1 with mDecryptSessionMap := s1.mDecryptSessionMap.removeItem handle.decryptId }
  else s

/-- `DrmManager::initializeDecryptUnit`. -/
def initializeDecryptUnit (s : DrmManager) (uniqueId : Int) (decryptHandle : DecryptHandle)
    (decryptUnitId : Int) (headerInfo : Option DrmBuffer) : DrmManager :=
  if s.mDecryptSessionMap.indexOfKey decryptHandle.decryptId ≠ NAME_NOT_FOUND then
    match s.mDecryptSessionMap.lookup decryptHandle.decryptId with
    | none => s
    | some drmEngine =>
      s.logCall drmEngine.plugInId
        (EngineCall.initializeDecryptUnit uniqueId decryptHandle decryptUnitId headerInfo)
  else s

/-- `DrmManager::decrypt`; the second component is what `*decBuffer` holds afterwards. -/
def decrypt (s : DrmManager) (uniqueId : Int) (decryptHandle : DecryptHandle)
    (decryptUnitId : Int) (encBuffer decBuffer : Option DrmBuffer) :
    (status_t × Option DrmBuffer) × DrmManager :=
  if s.mDecryptSessionMap.indexOfKey decryptHandle.decryptId ≠ NAME_NOT_FOUND then
    match s.mDecryptSessionMap.lookup decryptHandle.decryptId with
    | none => ((DRM_ERROR_UNKNOWN, decBuffer), s)
    | some drmEngine =>
      (drmEngine.engine.decrypt uniqueId decryptHandle decryptUnitId encBuffer decBuffer,
        s.logCall drmEngine.plugInId
          (EngineCall.decrypt uniqueId decryptHandle decryptUnitId encBuffer))
  else ((DRM_ERROR_UNKNOWN, decBuffer), s)

/-- `DrmManager::finalizeDecryptUnit`. -/
def finalizeDecryptUnit (s : DrmManager) (uniqueId : Int) (decryptHandle : DecryptHandle)
    (decryptUnitId : Int) : DrmManager :=
  if s.mDecryptSessionMap.indexOfKey decryptHandle.decryptId ≠ NAME_NOT_FOUND then
    match s.mDecryptSessionMap.lookup decryptHandle.decryptId with
    | none => s
    | some drmEngine =>
      s.logCall drmEngine.plugInId
        (EngineCall.finalizeDecryptUnit uniqueId decryptHandle decryptUnitId)
  else s

/-- `DrmManager::pread`. -/
def pread (s : DrmManager) (uniqueId : Int) (decryptHandle : DecryptHandle)
    (numBytes offset : Int) : Int × DrmManager :=
  if s.mDecryptSessionMap.indexOfKey decryptHandle.decryptId ≠ NAME_NOT_FOUND then
    match s.mDecryptSessionMap.lookup decryptHandle.decryptId with
    | none => (DECRYPT_FILE_ERROR, s)
    | some drmEngine =>
      (drmEngine.engine.pread uniqueId decryptHandle numBytes offset,
        s.logCall drmEngine.plugInId
          (EngineCall.pread uniqueId decryptHandle numBytes offset))
  else (DECRYPT_FILE_ERROR, s)

/-- `DrmManager::consumeRights`. -/
def consumeRights (s : DrmManager) (uniqueId : Int) (decryptHandle : DecryptHandle)
    (action : Int) (reserve : Bool) : DrmManager :=
  if s.mDecryptSessionMap.indexOfKey decryptHandle.decryptId ≠ NAME_NOT_FOUND then
    match s.mDecryptSessionMap.lookup decryptHandle.decryptId with
    | none => s
    | some drmEngine =>
      s.logCall drmEngine.plugInId
        (EngineCall.consumeRights uniqueId decryptHandle action reserve)
  else s

/-- `DrmManager::setPlaybackStatus`. -/
def setPlaybackStatus (s : DrmManager) (uniqueId : Int) (decryptHandle : DecryptHandle)
    (playbackStatus position : Int) : DrmManager :=
  if s.mDecryptSessionMap.indexOfKey decryptHandle.decryptId ≠ NAME_NOT_FOUND then
    match s.mDecryptSessionMap.lookup decryptHandle.decryptId with
    | none => s
    | some drmEngine =>
      s.logCall drmEngine.plugInId
        (EngineCall.setPlaybackStatus uniqueId decryptHandle playbackStatus position)
  else s

/-! ### Convert sessions -/

/-- `DrmManager::openConvertSession(int uniqueId, const String8& mimeType)`. -/
def openConvertSession (s : DrmManager) (uniqueId : Int) (mimeType : String8) :
    Int × DrmManager :=
  let plugInId := s.getSupportedPlugInId mimeType
  if EMPTY_STRING ≠ plugInId then
    match s.mPlugInManager.getPlugIn plugInId with
    | none => (-1, s)
    | some rDrmEngine =>
      let s1 := { s with mConvertId := wrapInt (s.mConvertId + 1) }
      let s2 := { s1 with mConvertSessionMap := s1.mConvertSessionMap.add s1.mConvertId rDrmEngine }
      (s1.mConvertId, s2.logCall plugInId (EngineCall.openConvertSession uniqueId s2.mConvertId))
  else (-1, s)

/-- `DrmManager::convertData`. -/
def convertData (s : DrmManager) (uniqueId convertId : Int) (inputData : Option DrmBuffer) :
    Option DrmConvertedStatus × DrmManager :=
  if s.mConvertSessionMap.indexOfKey convertId ≠ NAME_NOT_FOUND then
    match s.mConvertSessionMap.lookup convertId with
    | none => (none, s)
    | some drmEngine =>
      (drmEngine.engine.convertData uniqueId convertId inputData,
        s.logCall drmEngine.plugInId (EngineCall.convertData uniqueId convertId inputData))
  else (none, s)

/-- `DrmManager::closeConvertSession`. -/
def closeConvertSession (s : DrmManager) (uniqueId convertId : Int) :
    Option DrmConvertedStatus × DrmManager :=
  if s.mConvertSessionMap.indexOfKey convertId ≠ NAME_NOT_FOUND then
    match s.mConvertSessionMap.lookup convertId with
    | none => (none, s)
    | some drmEngine =>
      let s1 := s.logCall drmEngine.plugInId (EngineCall.closeConvertSession uniqueId convertId)
      (drmEngine.engine.closeConvertSession uniqueId convertId,
        { s1 with mConvertSessionMap := s1.mConvertSessionMap.removeItem convertId })
  else (none, s)

/-! ### Loading and unloading -/

/-- The loop of `DrmManager::initializePlugIns`. -/
def initializePlugInsLoop (uniqueId : Int) : List String8 → DrmManager → DrmManager
  | [], s => s
  | plugInId :: rest, s =>
    match s.mPlugInManager.getPlugIn plugInId with
    | none => initializePlugInsLoop uniqueId rest s
    | some _ =>
      initializePlugInsLoop uniqueId rest
        ((s.logCall plugInId (EngineCall.onInitialize uniqueId)).logCall plugInId
          (EngineCall.setOnInfoListener uniqueId))

/-- `DrmManager::initializePlugIns(int uniqueId)`. -/
def initializePlugIns (s : DrmManager) (uniqueId : Int) : DrmManager :=
  initializePlugInsLoop uniqueId s.mPlugInManager.getPlugInIdList s

/-- `DrmManager::loadPlugIns(int uniqueId, const String8& plugInDirPath)`; `found`
is what the engine loader finds in the directory. -/
def loadPlugIns (s : DrmManager) (uniqueId : Int) (found : List PlugIn) :
    status_t × DrmManager :=
  if s.mSupportInfoToPlugInIdMap.isEmpty then
    let s1 := { s with mPlugInManager := s.mPlugInManager.loadPlugIns found }
    (DRM_NO_ERROR, (s1.initializePlugIns uniqueId).populate uniqueId)
  else (DRM_NO_ERROR, s.initializePlugIns uniqueId)

/-- The loop of `DrmManager::unloadPlugIns`. -/
def terminateLoop (uniqueId : Int) : List String8 → DrmManager → DrmManager
  | [], s => s
  | plugInId :: rest, s =>
    match s.mPlugInManager.getPlugIn plugInId with
    | none => terminateLoop uniqueId rest s
    | some _ => terminateLoop uniqueId rest (s.logCall plugInId (EngineCall.terminate uniqueId))

/-- `DrmManager::unloadPlugIns(int uniqueId)`. -/
def unloadPlugIns (s : DrmManager) (uniqueId : Int) : status_t × DrmManager :=
  let s1 := terminateLoop uniqueId s.mPlugInManager.getPlugInIdList s
  (DRM_NO_ERROR,
    { s1 with
      mConvertSessionMap := s1.mConvertSessionMap.clear
      mDecryptSessionMap := s1.mDecryptSessionMap.clear
      mSupportInfoToPlugInIdMap := s1.mSupportInfoToPlugInIdMap.clear
      mPlugInManager := s1.mPlugInManager.unloadPlugIns })

/-! ### Operations dispatched after resolution -/

/-- `DrmManager::getSupportedPlugInId(int uniqueId, const String8& path,
const String8& mimeType)`, the overload with three arguments. -/
def getSupportedPlugInId3 (s : DrmManager) (uniqueId : Int) (path mimeType : String8) :
    String8 × DrmManager :=
  if EMPTY_STRING ≠ mimeType then (s.getSupportedPlugInId mimeType, s)
  else s.getSupportedPlugInIdFromPath uniqueId path

/-- `DrmManager::getConstraints`; the C++ dereferences `path` without a test, the
argument here is the string it points to. -/
def getConstraints (s : DrmManager) (uniqueId : Int) (path : String8) (action : Int) :
    Option DrmConstraints × DrmManager :=
  let r := s.getSupportedPlugInIdFromPath uniqueId path
  if EMPTY_STRING ≠ r.1 then
    match r.2.mPlugInManager.getPlugIn r.1 with
    | none => (none, r.2)
    | some rDrmEngine =>
      (rDrmEngine.engine.getConstraints uniqueId (some path) action,
        r.2.logCall r.1 (EngineCall.getConstraints uniqueId (some path) action))
  else (none, r.2)

/-- `DrmManager::processDrmInfo`; the C++ dereferences `drmInfo` without a test,
the argument here is the object it points to. -/
def processDrmInfo (s : DrmManager) (uniqueId : Int) (drmInfo : DrmInfo) :
    Option DrmInfoStatus × DrmManager :=
  let plugInId := s.getSupportedPlugInId drmInfo.getMimeType
  if EMPTY_STRING ≠ plugInId then
    match s.mPlugInManager.getPlugIn plugInId with
    | none => (none, s)
    | some rDrmEngine =>
      (rDrmEngine.engine.processDrmInfo uniqueId (some drmInfo),
        s.logCall plugInId (EngineCall.processDrmInfo uniqueId (some drmInfo)))
  else (none, s)

/-- `DrmManager::acquireDrmInfo`; the C++ dereferences `drmInfoRequest` without a
test, the argument here is the object it points to. -/
def acquireDrmInfo (s : DrmManager) (uniqueId : Int) (drmInfoRequest : DrmInfoRequest) :
    Option DrmInfo × DrmManager :=
  let plugInId := s.getSupportedPlugInId drmInfoRequest.getMimeType
  if EMPTY_STRING ≠ plugInId then
    match s.mPlugInManager.getPlugIn plugInId with
    | none => (none, s)
    | some rDrmEngine =>
      (rDrmEngine.engine.acquireDrmInfo uniqueId (some drmInfoRequest),
        s.logCall plugInId (EngineCall.acquireDrmInfo uniqueId (some drmInfoRequest)))
  else (none, s)

/-- `DrmManager::getOriginalMimeType`. -/
def getOriginalMimeType (s : DrmManager) (uniqueId : Int) (path : String8) :
    String8 × DrmManager :=
  let r := s.getSupportedPlugInIdFromPath uniqueId path
  if EMPTY_STRING ≠ r.1 then
    match r.2.mPlugInManager.getPlugIn r.1 with
    | none => (EMPTY_STRING, r.2)
    | some rDrmEngine =>
      (rDrmEngine.engine.getOriginalMimeType uniqueId path,
        r.2.logCall r.1 (EngineCall.getOriginalMimeType uniqueId path))
  else (EMPTY_STRING, r.2)

/-- `DrmManager::getDrmObjectType`. -/
def getDrmObjectType (s : DrmManager) (uniqueId : Int) (path mimeType : String8) :
    Int × DrmManager :=
  let r := s.getSupportedPlugInId3 uniqueId path mimeType
  if EMPTY_STRING ≠ r.1 then
    match r.2.mPlugInManager.getPlugIn r.1 with
    | none => (UNKNOWN, r.2)
    | some rDrmEngine =>
      (rDrmEngine.engine.getDrmObjectType uniqueId path mimeType,
        r.2.logCall r.1 (EngineCall.getDrmObjectType uniqueId path mimeType))
  else (UNKNOWN, r.2)

/-- `DrmManager::checkRightsStatus`. -/
def checkRightsStatus (s : DrmManager) (uniqueId : Int) (path : String8) (action : Int) :
    Int × DrmManager :=
  let r := s.getSupportedPlugInIdFromPath uniqueId path
  if EMPTY_STRING ≠ r.1 then
    match r.2.mPlugInManager.getPlugIn r.1 with
    | none => (RIGHTS_INVALID, r.2)
    | some rDrmEngine =>
      (rDrmEngine.engine.checkRightsStatus uniqueId path action,
        r.2.logCall r.1 (EngineCall.checkRightsStatus uniqueId path action))
  else (RIGHTS_INVALID, r.2)

/-- `DrmManager::validateAction`. -/
def validateAction (s : DrmManager) (uniqueId : Int) (path : String8) (action : Int)
    (description : ActionDescription) : Bool × DrmManager :=
  let r := s.getSupportedPlugInIdFromPath uniqueId path
  if EMPTY_STRING ≠ r.1 then
    match r.2.mPlugInManager.getPlugIn r.1 with
    | none => (false, r.2)
    | some rDrmEngine =>
      (rDrmEngine.engine.validateAction uniqueId path action description,
        r.2.logCall r.1 (EngineCall.validateAction uniqueId path action description))
  else (false, r.2)

/-! ### Listeners -/

/-- `DrmManager::setDrmServiceListener`; a listener is named by a number. -/
def setDrmServiceListener (s : DrmManager) (uniqueId : Int) (drmServiceListener : Nat) :
    status_t × DrmManager :=
  (DRM_NO_ERROR, { s with mServiceListeners := s.mServiceListeners.add uniqueId drmServiceListener })

/-- Record that `serviceListener->notify(event)` was called. -/
def logNotify (s : DrmManager) (serviceListener : Nat) (event : DrmInfoEvent) : DrmManager :=
  { s with notified := s.notified ++ [(serviceListener, event)] }

/-- The loop of `DrmManager::onInfo` over the keys still to visit. -/
def onInfoLoop (event : DrmInfoEvent) : List Int → DrmManager → DrmManager
  | [], s => s
  | uniqueId :: rest, s =>
    if uniqueId = event.uniqueId then
      match s.mServiceListeners.lookup uniqueId with
      | none => onInfoLoop event rest s
      | some serviceListener => onInfoLoop event rest (s.logNotify serviceListener event)
    else onInfoLoop event rest s

/-- `DrmManager::onInfo(const DrmInfoEvent& event)`. -/
def onInfo (s : DrmManager) (event : DrmInfoEvent) : DrmManager :=
  onInfoLoop event s.mServiceListeners.keys s

/-! ### Installing one engine -/

/-- `DrmManager::installDrmEngine(int uniqueId, const String8& absolutePath)`;
`found` is the engine the loader finds at the path, if the file is an engine.
The result is `none` where the C++ dereferences what is not there: the
reference `getPlugIn` returns for a path that is not loaded, or the null
descriptor of an engine that reports none. -/
def installDrmEngine (s : DrmManager) (uniqueId : Int) (absolutePath : String8)
    (found : Option IDrmEngine) : Option (status_t × DrmManager) :=
  let s1 : DrmManager :=
    match found with
    | some engine =>
      { s with mPlugInManager := s.mPlugInManager.loadPlugIn ⟨absolutePath, engine⟩ }
    | none => s
  match s1.mPlugInManager.getPlugIn absolutePath with
  | none => none
  | some rDrmEngine =>
    let s2 := (s1.logCall absolutePath (EngineCall.onInitialize uniqueId)).logCall absolutePath
      (EngineCall.setOnInfoListener uniqueId)
    let s3 := s2.logCall absolutePath (EngineCall.getSupportInfo uniqueId)
    match rDrmEngine.engine.getSupportInfo uniqueId with
    | none => none
    | some info =>
      some (DRM_NO_ERROR,
        { s3 with mSupportInfoToPlugInIdMap := s3.mSupportInfoToPlugInIdMap.add info absolutePath })

/-! ### The two-hint `canHandle` -/

/-- `DrmManager::canHandle(int uniqueId, const String8& path, const String8& mimeType)`.
The test `NULL != path` is applied to a reference to a string: it compares the
address of the string's characters with null and holds for every string, so
the block under it always runs. -/
def canHandle3 (s : DrmManager) (uniqueId : Int) (path mimeType : String8) :
    Bool × DrmManager :=
  let plugInId := s.getSupportedPlugInId mimeType
  let result : Bool := if EMPTY_STRING ≠ plugInId then true else false
  if result then
    match s.mPlugInManager.getPlugIn plugInId with
    | none => (result, s)
    | some rDrmEngine =>
      (rDrmEngine.engine.canHandle uniqueId path,
        s.logCall plugInId (EngineCall.canHandle uniqueId path))
  else s.canHandle uniqueId path

end DrmManager

/-! ## Statements about engine selection -/

/-- The entries `populate` adds for the engines `ps`, in registration order: one
per engine whose `getSupportInfo` is not null. -/
def supportEntries (uniqueId : Int) (ps : List PlugIn) : List (DrmSupportInfo × String8) :=
  ps.filterMap (fun p => (p.engine.getSupportInfo uniqueId).map (fun d => (d, p.plugInId)))

/-- The support descriptor the engine reports declares the MIME type. -/
def declaresMime (uniqueId : Int) (mimeType : String8) (p : PlugIn) : Bool :=
  match p.engine.getSupportInfo uniqueId with
  | some info => info.isSupportedMimeType mimeType
  | none => false

/-- The identifier of the earliest-registered engine whose support descriptor
declares the MIME type, the empty identifier when there is none. -/
def firstDeclaringMime (uniqueId : Int) (mimeType : String8) (ps : List PlugIn) : String8 :=
  match ps.find? (declaresMime uniqueId mimeType) with
  | some p => p.plugInId
  | none => ""

/-- The manager with the engines `ps` registered in this order, after `populate`
on the empty Capability Index. -/
def populated (uniqueId : Int) (ps : List PlugIn) : DrmManager :=
  ({ DrmManager.init with mPlugInManager := ⟨ps⟩ }).populate uniqueId

/-- An engine that reports the support descriptor `info`, answers `accepts` to
`canHandle` and `openStatus` to `openDecryptSession` (leaving the handle as it
is), and fails every other request. -/
def exampleEngine (info : Option DrmSupportInfo) (accepts : Bool) (openStatus : status_t) :
    IDrmEngine :=
  { onInitialize := fun _ => DRM_NO_ERROR
    setOnInfoListener := fun _ => DRM_NO_ERROR
    terminate := fun _ => DRM_NO_ERROR
    canHandle := fun _ _ => accepts
    getSupportInfo := fun _ => info
    convertData := fun _ _ _ => none
    closeConvertSession := fun _ _ => none
    openDecryptSession := fun _ h _ _ _ => (openStatus, h)
    closeDecryptSession := fun _ h => h
    decrypt := fun _ _ _ _ d => (DRM_ERROR_UNKNOWN, d)
    pread := fun _ _ _ _ => -1
    getConstraints := fun _ _ _ => none
    processDrmInfo := fun _ _ => none
    acquireDrmInfo := fun _ _ => none
    getOriginalMimeType := fun _ _ => ""
    getDrmObjectType := fun _ _ _ => UNKNOWN
    checkRightsStatus := fun _ _ _ => RIGHTS_INVALID
    validateAction := fun _ _ _ _ => false }

/-- A descriptor that declares suffix "abc" and MIME type "application/x-a". -/
def infoA : DrmSupportInfo := ⟨["application/x-a"], ["abc"], "A"⟩

/-- A descriptor that declares suffix "xyz" and MIME type "application/x-b". -/
def infoB : DrmSupportInfo := ⟨["application/x-b"], ["xyz"], "B"⟩

/-- The smallest value of a C++ `int`. -/
def INT_MIN : Int := -2147483648

/-- The handle after the engines `ps` were probed in turn, starting from `h`:
every engine receives the handle as the engine before it left it. -/
def handleAfter (uniqueId fd offset length : Int) : List PlugIn → DecryptHandle → DecryptHandle
  | [], h => h
  | p :: rest, h =>
    handleAfter uniqueId fd offset length rest
      (p.engine.openDecryptSession uniqueId h fd offset length).2

/-- None of the engines `ps`, probed in turn starting from handle `h`, returns
success (`DRM_NO_ERROR`) from `openDecryptSession`. -/
def allFail (uniqueId fd offset length : Int) : List PlugIn → DecryptHandle → Bool
  | [], _ => true
  | p :: rest, h =>
    decide ((p.engine.openDecryptSession uniqueId h fd offset length).1 ≠ DRM_NO_ERROR) &&
      allFail uniqueId fd offset length rest
        (p.engine.openDecryptSession uniqueId h fd offset length).2

/-- The status the last of the engines `ps` returns when they are probed in
turn starting from handle `h`; `r0` when there is no engine. -/
def lastStatus (uniqueId fd offset length : Int) : List PlugIn → DecryptHandle → status_t →
    status_t
  | [], _, r0 => r0
  | p :: rest, h, _ =>
    lastStatus uniqueId fd offset length rest
      (p.engine.openDecryptSession uniqueId h fd offset length).2
      (p.engine.openDecryptSession uniqueId h fd offset length).1

/-- The `openDecryptSession` calls made when the engines `ps` are probed in turn
starting from handle `h`. -/
def probeCalls (uniqueId fd offset length : Int) : List PlugIn → DecryptHandle →
    List (String8 × EngineCall)
  | [], _ => []
  | p :: rest, h =>
    (p.plugInId, EngineCall.openDecryptSession uniqueId h fd offset length) ::
      probeCalls uniqueId fd offset length rest
        (p.engine.openDecryptSession uniqueId h fd offset length).2

/-- A manager with the engines `ps` registered in this order, an empty
Capability Index, no session, and both counters at `n`. -/
def managerWith (n : Int) (ps : List PlugIn) : DrmManager :=
  { DrmManager.init with mPlugInManager := ⟨ps⟩, mDecryptSessionId := n, mConvertId := n }

/-- An engine that cannot handle the content. -/
def engineRefusing : PlugIn := ⟨"refusing", exampleEngine none false DRM_ERROR_CANNOT_HANDLE⟩

/-- An engine whose `openDecryptSession` fails with `DRM_ERROR_UNKNOWN`. -/
def engineBroken : PlugIn := ⟨"broken", exampleEngine none false DRM_ERROR_UNKNOWN⟩

/-- An engine whose `openDecryptSession` succeeds. -/
def engineAccepting : PlugIn := ⟨"accepting", exampleEngine none true DRM_NO_ERROR⟩

/-- A second engine whose `openDecryptSession` succeeds. -/
def engineSpare : PlugIn := ⟨"spare", exampleEngine none true DRM_NO_ERROR⟩

/-! ## Statements about convert sessions -/

/-- A manager with engines A (MIME type "application/x-a") and B (MIME type
"application/x-b") indexed, convert counter 4 and decrypt counter 4. -/
def managerAB : DrmManager :=
  { populated 0
      [⟨"A", exampleEngine (some infoA) true DRM_ERROR_CANNOT_HANDLE⟩,
       ⟨"B", exampleEngine (some infoB) false DRM_NO_ERROR⟩] with
    mConvertId := 4, mDecryptSessionId := 4 }

/-! ## Sequences of manager operations -/

/-- One call of a manager operation, with its arguments. -/
inductive Op where
  | openDecryptSession (uniqueId fd offset length : Int)
  | closeDecryptSession (uniqueId : Int) (decryptHandle : DecryptHandle)
  | initializeDecryptUnit (uniqueId : Int) (decryptHandle : DecryptHandle)
      (decryptUnitId : Int) (headerInfo : Option DrmBuffer)
  | decrypt (uniqueId : Int) (decryptHandle : DecryptHandle) (decryptUnitId : Int)
      (encBuffer decBuffer : Option DrmBuffer)
  | finalizeDecryptUnit (uniqueId : Int) (decryptHandle : DecryptHandle)
      (decryptUnitId : Int)
  | pread (uniqueId : Int) (decryptHandle : DecryptHandle) (numBytes offset : Int)
  | consumeRights (uniqueId : Int) (decryptHandle : DecryptHandle) (action : Int)
      (reserve : Bool)
  | setPlaybackStatus (uniqueId : Int) (decryptHandle : DecryptHandle)
      (playbackStatus position : Int)
  | openConvertSession (uniqueId : Int) (mimeType : String8)
  | convertData (uniqueId convertId : Int) (inputData : Option DrmBuffer)
  | closeConvertSession (uniqueId convertId : Int)
  | canHandle (uniqueId : Int) (path : String8)
  | loadPlugIns (uniqueId : Int) (found : List PlugIn)
  | unloadPlugIns (uniqueId : Int)

/-- The manager after one operation. -/
def step (s : DrmManager) : Op → DrmManager
  | Op.openDecryptSession uniqueId fd offset length =>
    (s.openDecryptSession uniqueId fd offset length).2
  | Op.closeDecryptSession uniqueId decryptHandle =>
    s.closeDecryptSession uniqueId decryptHandle
  | Op.initializeDecryptUnit uniqueId decryptHandle decryptUnitId headerInfo =>
    s.initializeDecryptUnit uniqueId decryptHandle decryptUnitId headerInfo
  | Op.decrypt uniqueId decryptHandle decryptUnitId encBuffer decBuffer =>
    (s.decrypt uniqueId decryptHandle decryptUnitId encBuffer decBuffer).2
  | Op.finalizeDecryptUnit uniqueId decryptHandle decryptUnitId =>
    s.finalizeDecryptUnit uniqueId decryptHandle decryptUnitId
  | Op.pread uniqueId decryptHandle numBytes offset =>
    (s.pread uniqueId decryptHandle numBytes offset).2
  | Op.consumeRights uniqueId decryptHandle action reserve =>
    s.consumeRights uniqueId decryptHandle action reserve
  | Op.setPlaybackStatus uniqueId decryptHandle playbackStatus position =>
    s.setPlaybackStatus uniqueId decryptHandle playbackStatus position
  | Op.openConvertSession uniqueId mimeType => (s.openConvertSession uniqueId mimeType).2
  | Op.convertData uniqueId convertId inputData =>
    (s.convertData uniqueId convertId inputData).2
  | Op.closeConvertSession uniqueId convertId => (s.closeConvertSession uniqueId convertId).2
  | Op.canHandle uniqueId path => (s.canHandle uniqueId path).2
  | Op.loadPlugIns uniqueId found => (s.loadPlugIns uniqueId found).2
  | Op.unloadPlugIns uniqueId => (s.unloadPlugIns uniqueId).2

/-- The manager after a sequence of operations. -/
def run : DrmManager → List Op → DrmManager
  | s, [] => s
  | s, op :: rest => run (step s op) rest

/-- The id of the handle an operation returns when it is an
`openDecryptSession` that bound a session (one in which an engine returned
`DRM_NO_ERROR`).  The handle that `openDecryptSession` returns when the last
engine probed failed with a status other than `DRM_ERROR_CANNOT_HANDLE` is not
counted here; `decryptReturned` counts it. -/
def decryptOpened (s : DrmManager) : Op → Option Int
  | Op.openDecryptSession uniqueId fd offset length =>
    if (s.openDecryptProbe uniqueId fd offset length).1 = DRM_NO_ERROR then
      (s.openDecryptSession uniqueId fd offset length).1.map DecryptHandle.decryptId
    else none
  | _ => none

/-- The decrypt handles returned by the opens of a sequence of operations that
bound a session, in the order of the calls. -/
def decryptHandles : DrmManager → List Op → List Int
  | _, [] => []
  | s, op :: rest => (decryptOpened s op).toList ++ decryptHandles (step s op) rest

/-- The engine does not overwrite the id of the handle it is given. -/
def KeepsDecryptId (p : PlugIn) : Prop :=
  ∀ (uniqueId : Int) (h : DecryptHandle) (fd offset length : Int),
    (p.engine.openDecryptSession uniqueId h fd offset length).2.decryptId = h.decryptId

/-- The second state has the counters, the session maps and the engine registry
of the first: it differs at most in the Capability Index, the listeners and
the record of calls. -/
def SameRegistry (s t : DrmManager) : Prop :=
  t.mDecryptSessionId = s.mDecryptSessionId ∧ t.mConvertId = s.mConvertId ∧
  t.mDecryptSessionMap = s.mDecryptSessionMap ∧ t.mConvertSessionMap = s.mConvertSessionMap ∧
  t.mPlugInManager = s.mPlugInManager

/-- A manager with one engine loaded and two decrypt sessions open, with
handles 1 and 2. -/
def managerTwoSessions : DrmManager :=
  run DrmManager.init
    [Op.loadPlugIns 7 [⟨"A", exampleEngine (some infoA) true DRM_NO_ERROR⟩],
     Op.openDecryptSession 7 3 0 10,
     Op.openDecryptSession 7 4 0 10]

/-- The second state has the Capability Index of the first. -/
def SameIndex (s t : DrmManager) : Prop :=
  t.mSupportInfoToPlugInIdMap = s.mSupportInfoToPlugInIdMap

/-- What holds in every state the manager reaches: engine identifiers are
pairwise distinct, and so are the keys of the Capability Index. -/
def WellFormed (s : DrmManager) : Prop :=
  (s.mPlugInManager.plugIns.map PlugIn.plugInId).Nodup ∧
  s.mSupportInfoToPlugInIdMap.keys.Nodup

/-! ## Statements about the two handle spaces -/

/-- In state `t`, convert handle 1 is bound to engine `ce` and decrypt handle 1 is
bound to engine `de` at the same time, and closing one leaves the other bound:
`closeDecryptSession` with a handle of id 1 leaves convert handle 1 bound to
`ce`, and unbinds decrypt handle 1 when `de` leaves the id of the handle as it
is; `closeConvertSession(1)` unbinds convert handle 1 and leaves decrypt handle
1 bound to `de`. -/
def BothBoundAtOne (t : DrmManager) (ce de : PlugIn) : Prop :=
  t.mConvertSessionMap.lookup 1 = some ce ∧
  t.mDecryptSessionMap.lookup 1 = some de ∧
  (∀ (uniqueId : Int) (h : DecryptHandle), h.decryptId = 1 →
    (t.closeDecryptSession uniqueId h).mConvertSessionMap.lookup 1 = some ce ∧
    ((de.engine.closeDecryptSession uniqueId h).decryptId = 1 →
      (t.closeDecryptSession uniqueId h).mDecryptSessionMap.lookup 1 = none)) ∧
  (∀ uniqueId : Int,
    (t.closeConvertSession uniqueId 1).2.mConvertSessionMap.lookup 1 = none ∧
    (t.closeConvertSession uniqueId 1).2.mDecryptSessionMap.lookup 1 = some de)

/-- The initial manager after loading one engine that declares MIME type
"application/x-a" and accepts every decrypt session. -/
def managerLoaded : DrmManager :=
  (DrmManager.init.loadPlugIns 7 [⟨"A", exampleEngine (some infoA) true DRM_NO_ERROR⟩]).2

/-- A manager with one engine loaded, decrypt session 1 open and convert
session 1 open. -/
def managerOneOfEach : DrmManager :=
  ((managerLoaded.openDecryptSession 7 3 0 10).2.openConvertSession 7 "application/x-a").2

/-! ## Statements about listeners -/

/-- The listener most recently bound for `uniqueId` in a sequence of
`setDrmServiceListener(uniqueId, listener)` calls, if there is one. -/
def lastBound (uniqueId : Int) : List (Int × Nat) → Option Nat
  | [] => none
  | b :: rest =>
    match lastBound uniqueId rest with
    | some l => some l
    | none => if b.1 = uniqueId then some b.2 else none

/-- The manager after a sequence of `setDrmServiceListener` calls. -/
def bindAll : DrmManager → List (Int × Nat) → DrmManager
  | s, [] => s
  | s, b :: rest => bindAll (s.setDrmServiceListener b.1 b.2).2 rest

/-- An engine whose `terminate` fails with `DRM_ERROR_UNKNOWN`. -/
def engineFailingTerminate : PlugIn :=
  ⟨"stubborn",
    { exampleEngine (some infoB) false DRM_NO_ERROR with terminate := fun _ => DRM_ERROR_UNKNOWN }⟩

/-- A manager with two engines loaded, the first of which fails `terminate`, and
a decrypt session open. -/
def managerToUnload : DrmManager :=
  run DrmManager.init
    [Op.loadPlugIns 7
      [engineFailingTerminate, ⟨"A", exampleEngine (some infoA) true DRM_NO_ERROR⟩],
     Op.openDecryptSession 7 3 0 10]

/-! ## Statements about dispatched operations -/

/-- An operation dispatched after resolution: `r` is the outcome of the
resolution (the identifier and the manager after it), `out` the outcome of the
operation.  When resolution is unresolved the operation returns `sentinel` and
leaves the manager as resolution left it; when resolution yields the identifier
of a loaded engine `e` it returns `result e` and records the one call `call` on
that engine. -/
def DispatchedAfter {α : Type} (r : String8 × DrmManager) (sentinel : α)
    (result : PlugIn → α) (call : EngineCall) (out : α × DrmManager) : Prop :=
  (r.1 = "" → out = (sentinel, r.2)) ∧
  (∀ e : PlugIn, r.1 ≠ "" → r.2.mPlugInManager.getPlugIn r.1 = some e →
    out = (result e, r.2.logCall r.1 call))

/-- An engine that declares suffix "xyz" and MIME type "application/x-b", accepts
every path, and answers 2 to `checkRightsStatus` and 1 to `getDrmObjectType`. -/
def engineAnswering : PlugIn :=
  ⟨"B",
    { exampleEngine (some infoB) true DRM_NO_ERROR with
      checkRightsStatus := fun _ _ _ => 2
      getDrmObjectType := fun _ _ _ => 1 }⟩

/-- A manager with the engine "B" above loaded and indexed. -/
def managerAnswering : DrmManager := populated 0 [engineAnswering]

/-! ## The client proxy (`DrmManagerClientImpl`) -/

/-- `INVALID_VALUE` of `DrmManagerClientImpl.cpp`. -/
def INVALID_VALUE : Int := -1

/-- The remote manager service (`IDrmManagerService`) as the client sees it:
what each operation answers.  A pointer argument is an `Option`; the
`DrmBuffer**` of `decrypt` is an `Option (Option DrmBuffer)`, the outer level
for the pointer itself and the inner for the buffer it points to. -/
structure IDrmManagerService where
  getConstraints : Int → Option String8 → Int → Option DrmConstraints
  canHandle : Int → String8 → String8 → Bool
  getOriginalMimeType : Int → String8 → String8
  getDrmObjectType : Int → String8 → String8 → Int
  checkRightsStatus : Int → String8 → Int → Int
  validateAction : Int → String8 → Int → ActionDescription → Bool
  openConvertSession : Int → String8 → Int
  convertData : Int → Int → Option DrmBuffer → Option DrmConvertedStatus
  decrypt : Int → Option DecryptHandle → Int → Option DrmBuffer → Option (Option DrmBuffer) →
    status_t
  pread : Int → Option DecryptHandle → Option DrmBuffer → Int → Int → Int

/-- A call made on the remote service through `getDrmManagerService()`. -/
inductive ServiceCall where
  | getConstraints (uniqueId : Int) (path : Option String8) (action : Int)
  | canHandle (uniqueId : Int) (path mimeType : String8)
  | getOriginalMimeType (uniqueId : Int) (path : String8)
  | getDrmObjectType (uniqueId : Int) (path mimeType : String8)
  | checkRightsStatus (uniqueId : Int) (path : String8) (action : Int)
  | validateAction (uniqueId : Int) (path : String8) (action : Int)
      (description : ActionDescription)
  | openConvertSession (uniqueId : Int) (mimeType : String8)
  | convertData (uniqueId convertId : Int) (inputData : Option DrmBuffer)
  | decrypt (uniqueId : Int) (decryptHandle : Option DecryptHandle) (decryptUnitId : Int)
      (encBuffer : Option DrmBuffer) (decBuffer : Option (Option DrmBuffer))
  | pread (uniqueId : Int) (decryptHandle : Option DecryptHandle) (buffer : Option DrmBuffer)
      (numBytes offset : Int)
deriving DecidableEq, Repr

/-- The client proxy: the remote service it talks to and the calls it has made
on it so far, oldest first. -/
structure DrmManagerClientImpl where
  mDrmManagerService : IDrmManagerService
  remoteCalls : List ServiceCall

namespace DrmManagerClientImpl

/-- Record one call on the remote service. -/
def logRemote (c : DrmManagerClientImpl) (call : ServiceCall) : DrmManagerClientImpl :=
  { c with remoteCalls := c.remoteCalls ++ [call] }

/-- `DrmManagerClientImpl::getConstraints`. -/
def getConstraints (c : DrmManagerClientImpl) (uniqueId : Int) (path : Option String8)
    (action : Int) : Option DrmConstraints × DrmManagerClientImpl :=
  match path with
  | none => (none, c)
  | some p =>
    if EMPTY_STRING ≠ p then
      (c.mDrmManagerService.getConstraints uniqueId path action,
        c.logRemote (ServiceCall.getConstraints uniqueId path action))
    else (none, c)

/-- `DrmManagerClientImpl::canHandle`. -/
def canHandle (c : DrmManagerClientImpl) (uniqueId : Int) (path mimeType : String8) :
    Bool × DrmManagerClientImpl :=
  if EMPTY_STRING ≠ path ∨ EMPTY_STRING ≠ mimeType then
    (c.mDrmManagerService.canHandle uniqueId path mimeType,
      c.logRemote (ServiceCall.canHandle uniqueId path mimeType))
  else (false, c)

/-- `DrmManagerClientImpl::getOriginalMimeType`. -/
def getOriginalMimeType (c : DrmManagerClientImpl) (uniqueId : Int) (path : String8) :
    String8 × DrmManagerClientImpl :=
  if EMPTY_STRING ≠ path then
    (c.mDrmManagerService.getOriginalMimeType uniqueId path,
      c.logRemote (ServiceCall.getOriginalMimeType uniqueId path))
  else (EMPTY_STRING, c)

/-- `DrmManagerClientImpl::getDrmObjectType`. -/
def getDrmObjectType (c : DrmManagerClientImpl) (uniqueId : Int) (path mimeType : String8) :
    Int × DrmManagerClientImpl :=
  if EMPTY_STRING ≠ path ∨ EMPTY_STRING ≠ mimeType then
    (c.mDrmManagerService.getDrmObjectType uniqueId path mimeType,
      c.logRemote (ServiceCall.getDrmObjectType uniqueId path mimeType))
  else (UNKNOWN, c)

/-- `DrmManagerClientImpl::checkRightsStatus`. -/
def checkRightsStatus (c : DrmManagerClientImpl) (uniqueId : Int) (path : String8)
    (action : Int) : Int × DrmManagerClientImpl :=
  if EMPTY_STRING ≠ path then
    (c.mDrmManagerService.checkRightsStatus uniqueId path action,
      c.logRemote (ServiceCall.checkRightsStatus uniqueId path action))
  else (RIGHTS_INVALID, c)

/-- `DrmManagerClientImpl::validateAction`. -/
def validateAction (c : DrmManagerClientImpl) (uniqueId : Int) (path : String8) (action : Int)
    (description : ActionDescription) : Bool × DrmManagerClientImpl :=
  if EMPTY_STRING ≠ path then
    (c.mDrmManagerService.validateAction uniqueId path action description,
      c.logRemote (ServiceCall.validateAction uniqueId path action description))
  else (false, c)

/-- `DrmManagerClientImpl::openConvertSession`. -/
def openConvertSession (c : DrmManagerClientImpl) (uniqueId : Int) (mimeType : String8) :
    Int × DrmManagerClientImpl :=
  if EMPTY_STRING ≠ mimeType then
    (c.mDrmManagerService.openConvertSession uniqueId mimeType,
      c.logRemote (ServiceCall.openConvertSession uniqueId mimeType))
  else (INVALID_VALUE, c)

/-- `DrmManagerClientImpl::convertData`. -/
def convertData (c : DrmManagerClientImpl) (uniqueId convertId : Int)
    (inputData : Option DrmBuffer) : Option DrmConvertedStatus × DrmManagerClientImpl :=
  if inputData ≠ none then
    (c.mDrmManagerService.convertData uniqueId convertId inputData,
      c.logRemote (ServiceCall.convertData uniqueId convertId inputData))
  else (none, c)

/-- `DrmManagerClientImpl::decrypt`; the result is the status. -/
def decrypt (c : DrmManagerClientImpl) (uniqueId : Int) (decryptHandle : Option DecryptHandle)
    (decryptUnitId : Int) (encBuffer : Option DrmBuffer) (decBuffer : Option (Option DrmBuffer)) :
    status_t × DrmManagerClientImpl :=
  if decryptHandle ≠ none ∧ encBuffer ≠ none ∧ decBuffer ≠ none ∧ decBuffer ≠ some none then
    (c.mDrmManagerService.decrypt uniqueId decryptHandle decryptUnitId encBuffer decBuffer,
      c.logRemote (ServiceCall.decrypt uniqueId decryptHandle decryptUnitId encBuffer decBuffer))
  else (DRM_ERROR_UNKNOWN, c)

/-- `DrmManagerClientImpl::pread`. -/
def pread (c : DrmManagerClientImpl) (uniqueId : Int) (decryptHandle : Option DecryptHandle)
    (buffer : Option DrmBuffer) (numBytes offset : Int) : Int × DrmManagerClientImpl :=
  if decryptHandle ≠ none ∧ buffer ≠ none ∧ 0 < numBytes then
    (c.mDrmManagerService.pread uniqueId decryptHandle buffer numBytes offset,
      c.logRemote (ServiceCall.pread uniqueId decryptHandle buffer numBytes offset))
  else (INVALID_VALUE, c)

/-! ### Caller identities -/

/-- The reject-and-retry loop of `create`: `draws` are the successive values of
`rand()`.  The result is the first `rand() % 100` that is not in use, or `none`
when every draw of the list is rejected (the loop is then still running). -/
def findUniqueId (mUniqueIdVector : List Int) : List Nat → Option Int
  | [] => none
  | r :: rest =>
    let uniqueId : Int := ((r % 100 : Nat) : Int)
    if uniqueId ∈ mUniqueIdVector then findUniqueId mUniqueIdVector rest else some uniqueId

/-- The values `rand()` returns in `n` successive calls, from call number `i`
of a stream of draws on. -/
def drawsFrom (stream : Nat → Nat) : Nat → Nat → List Nat
  | _, 0 => []
  | i, n + 1 => stream i :: drawsFrom stream (i + 1) n

/-- `DrmManagerClientImpl::create(int* pUniqueId)` on the in-use list
`mUniqueIdVector`: the result is the value left in `*pUniqueId` and the new
list. -/
def create (mUniqueIdVector : List Int) (pUniqueId : Int) (draws : List Nat) :
    Option (Int × List Int) :=
  if 0 = pUniqueId then
    match findUniqueId mUniqueIdVector draws with
    | none => none
    | some uniqueId => some (uniqueId, mUniqueIdVector ++ [uniqueId])
  else some (pUniqueId, mUniqueIdVector ++ [pUniqueId])

/-- `DrmManagerClientImpl::remove(int uniqueId)`: the first occurrence goes. -/
def remove (uniqueId : Int) : List Int → List Int
  | [] => []
  | x :: rest => if uniqueId = x then rest else x :: remove uniqueId rest

/-- A call of `create` (with the requested id and the draws of `rand()` during
the call) or of `remove`. -/
inductive IdOp where
  | create (pUniqueId : Int) (draws : List Nat)
  | remove (uniqueId : Int)
deriving DecidableEq, Repr

/-- The in-use list after one call; `none` when `create` does not return. -/
def stepIds (v : List Int) : IdOp → Option (List Int)
  | IdOp.create pUniqueId draws => (create v pUniqueId draws).map Prod.snd
  | IdOp.remove uniqueId => some (remove uniqueId v)

/-- The in-use list after a sequence of calls. -/
def runIds : List Int → List IdOp → Option (List Int)
  | v, [] => some v
  | v, op :: rest =>
    match stepIds v op with
    | none => none
    | some v2 => runIds v2 rest

/-- Every `create` of the sequence is called with requested id 0 or with an id
that is not in use at the moment of the call. -/
def requestsFresh : List Int → List IdOp → Bool
  | _, [] => true
  | v, op :: rest =>
    (match op with
      | IdOp.create pUniqueId _ => decide (pUniqueId = 0 ∨ pUniqueId ∉ v)
      | IdOp.remove _ => true) &&
    (match stepIds v op with
      | none => true
      | some v2 => requestsFresh v2 rest)

end DrmManagerClientImpl

/-- A remote service that accepts everything: it answers true, 3, 4 and the
like, whatever the arguments. -/
def serviceAnswering : IDrmManagerService where
  getConstraints := fun _ _ _ => some [("license", "ok")]
  canHandle := fun _ _ _ => true
  getOriginalMimeType := fun _ _ => "video/mp4"
  getDrmObjectType := fun _ _ _ => 2
  checkRightsStatus := fun _ _ _ => 0
  validateAction := fun _ _ _ _ => true
  openConvertSession := fun _ _ => 4
  convertData := fun _ _ _ => some ⟨1, none, 0⟩
  decrypt := fun _ _ _ _ _ => DRM_NO_ERROR
  pread := fun _ _ _ numBytes _ => numBytes

/-- A client of the service above that has made no call yet. -/
def clientAnswering : DrmManagerClientImpl := ⟨serviceAnswering, []⟩

/-! ## The engine base (`DrmEngineBase`) -/

/-- Payload of a `DrmRights` object. -/
structure DrmRights where
  data : DrmBuffer
  mimeType : String8
  accountId : String8
  subscriptionId : String8
deriving DecidableEq, Repr

/-- An invocation of one of the `on*` handlers of an engine, one constructor per
handler. -/
inductive HandlerCall where
  | onGetConstraints (uniqueId : Int) (path : Option String8) (action : Int)
  | onInitialize (uniqueId : Int)
  | onSetOnInfoListener (uniqueId : Int) (infoListener : Option Nat)
  | onTerminate (uniqueId : Int)
  | onCanHandle (uniqueId : Int) (path : String8)
  | onProcessDrmInfo (uniqueId : Int) (drmInfo : Option DrmInfo)
  | onSaveRights (uniqueId : Int) (drmRights : DrmRights) (rightsPath contentPath : String8)
  | onAcquireDrmInfo (uniqueId : Int) (drmInfoRequest : Option DrmInfoRequest)
  | onGetOriginalMimeType (uniqueId : Int) (path : String8)
  | onGetDrmObjectType (uniqueId : Int) (path mimeType : String8)
  | onCheckRightsStatus (uniqueId : Int) (path : String8) (action : Int)
  | onConsumeRights (uniqueId : Int) (decryptHandle : Option DecryptHandle) (action : Int)
      (reserve : Bool)
  | onSetPlaybackStatus (uniqueId : Int) (decryptHandle : Option DecryptHandle)
      (playbackStatus position : Int)
  | onValidateAction (uniqueId : Int) (path : String8) (action : Int)
      (description : ActionDescription)
  | onRemoveRights (uniqueId : Int) (path : String8)
  | onRemoveAllRights (uniqueId : Int)
  | onOpenConvertSession (uniqueId convertId : Int)
  | onConvertData (uniqueId convertId : Int) (inputData : Option DrmBuffer)
  | onCloseConvertSession (uniqueId convertId : Int)
  | onGetSupportInfo (uniqueId : Int)
  | onOpenDecryptSession (uniqueId : Int) (decryptHandle : Option DecryptHandle)
      (fd offset length : Int)
  | onCloseDecryptSession (uniqueId : Int) (decryptHandle : Option DecryptHandle)
  | onInitializeDecryptUnit (uniqueId : Int) (decryptHandle : Option DecryptHandle)
      (decryptUnitId : Int) (headerInfo : Option DrmBuffer)
  | onDecrypt (uniqueId : Int) (decryptHandle : Option DecryptHandle) (decryptUnitId : Int)
      (encBuffer : Option DrmBuffer) (decBuffer : Option (Option DrmBuffer))
  | onFinalizeDecryptUnit (uniqueId : Int) (decryptHandle : Option DecryptHandle)
      (decryptUnitId : Int)
  | onPread (uniqueId : Int) (decryptHandle : Option DecryptHandle) (buffer : Option DrmBuffer)
      (numBytes offset : Int)
deriving DecidableEq, Repr

/-- An engine built on `DrmEngineBase`: what its `on*` handlers answer (they are
pure virtual in the base) and the handler invocations so far, oldest first.
A handler that returns `void` has no field; that it was invoked is visible in
`handled`.  Pointer arguments are `Option`s, a listener is the number that
names it. -/
structure DrmEngineBase where
  onGetConstraints : Int → Option String8 → Int → Option DrmConstraints
  onInitialize : Int → status_t
  onSetOnInfoListener : Int → Option Nat → status_t
  onTerminate : Int → status_t
  onCanHandle : Int → String8 → Bool
  onProcessDrmInfo : Int → Option DrmInfo → Option DrmInfoStatus
  onAcquireDrmInfo : Int → Option DrmInfoRequest → Option DrmInfo
  onGetOriginalMimeType : Int → String8 → String8
  onGetDrmObjectType : Int → String8 → String8 → Int
  onCheckRightsStatus : Int → String8 → Int → Int
  onValidateAction : Int → String8 → Int → ActionDescription → Bool
  onConvertData : Int → Int → Option DrmBuffer → Option DrmConvertedStatus
  onCloseConvertSession : Int → Int → Option DrmConvertedStatus
  onGetSupportInfo : Int → Option DrmSupportInfo
  onOpenDecryptSession : Int → Option DecryptHandle → Int → Int → Int → status_t
  onDecrypt : Int → Option DecryptHandle → Int → Option DrmBuffer → Option (Option DrmBuffer) →
    status_t
  onPread : Int → Option DecryptHandle → Option DrmBuffer → Int → Int → Int
  handled : List HandlerCall

namespace DrmEngineBase

/-- Record one handler invocation. -/
def logHandler (b : DrmEngineBase) (call : HandlerCall) : DrmEngineBase :=
  { b with handled := b.handled ++ [call] }

/-- `DrmEngineBase::getConstraints`. -/
def getConstraints (b : DrmEngineBase) (uniqueId : Int) (path : Option String8) (action : Int) :
    Option DrmConstraints × DrmEngineBase :=
  (b.onGetConstraints uniqueId path action,
    b.logHandler (HandlerCall.onGetConstraints uniqueId path action))

/-- `DrmEngineBase::initialize` (the name is reserved in Lean). -/
def initializeEngine (b : DrmEngineBase) (uniqueId : Int) : status_t × DrmEngineBase :=
  (b.onInitialize uniqueId, b.logHandler (HandlerCall.onInitialize uniqueId))

/-- `DrmEngineBase::setOnInfoListener`. -/
def setOnInfoListener (b : DrmEngineBase) (uniqueId : Int) (infoListener : Option Nat) :
    status_t × DrmEngineBase :=
  (b.onSetOnInfoListener uniqueId infoListener,
    b.logHandler (HandlerCall.onSetOnInfoListener uniqueId infoListener))

/-- `DrmEngineBase::terminate`. -/
def terminate (b : DrmEngineBase) (uniqueId : Int) : status_t × DrmEngineBase :=
  (b.onTerminate uniqueId, b.logHandler (HandlerCall.onTerminate uniqueId))

/-- `DrmEngineBase::canHandle`. -/
def canHandle (b : DrmEngineBase) (uniqueId : Int) (path : String8) : Bool × DrmEngineBase :=
  (b.onCanHandle uniqueId path, b.logHandler (HandlerCall.onCanHandle uniqueId path))

/-- `DrmEngineBase::processDrmInfo`. -/
def processDrmInfo (b : DrmEngineBase) (uniqueId : Int) (drmInfo : Option DrmInfo) :
    Option DrmInfoStatus × DrmEngineBase :=
  (b.onProcessDrmInfo uniqueId drmInfo,
    b.logHandler (HandlerCall.onProcessDrmInfo uniqueId drmInfo))

/-- `DrmEngineBase::saveRights`. -/
def saveRights (b : DrmEngineBase) (uniqueId : Int) (drmRights : DrmRights)
    (rightsPath contentPath : String8) : DrmEngineBase :=
  b.logHandler (HandlerCall.onSaveRights uniqueId drmRights rightsPath contentPath)

/-- `DrmEngineBase::acquireDrmInfo`. -/
def acquireDrmInfo (b : DrmEngineBase) (uniqueId : Int)
    (drmInfoRequest : Option DrmInfoRequest) : Option DrmInfo × DrmEngineBase :=
  (b.onAcquireDrmInfo uniqueId drmInfoRequest,
    b.logHandler (HandlerCall.onAcquireDrmInfo uniqueId drmInfoRequest))

/-- `DrmEngineBase::getOriginalMimeType`. -/
def getOriginalMimeType (b : DrmEngineBase) (uniqueId : Int) (path : String8) :
    String8 × DrmEngineBase :=
  (b.onGetOriginalMimeType uniqueId path,
    b.logHandler (HandlerCall.onGetOriginalMimeType uniqueId path))

/-- `DrmEngineBase::getDrmObjectType`. -/
def getDrmObjectType (b : DrmEngineBase) (uniqueId : Int) (path mimeType : String8) :
    Int × DrmEngineBase :=
  (b.onGetDrmObjectType uniqueId path mimeType,
    b.logHandler (HandlerCall.onGetDrmObjectType uniqueId path mimeType))

/-- `DrmEngineBase::checkRightsStatus`. -/
def checkRightsStatus (b : DrmEngineBase) (uniqueId : Int) (path : String8) (action : Int) :
    Int × DrmEngineBase :=
  (b.onCheckRightsStatus uniqueId path action,
    b.logHandler (HandlerCall.onCheckRightsStatus uniqueId path action))

/-- `DrmEngineBase::consumeRights`. -/
def consumeRights (b : DrmEngineBase) (uniqueId : Int) (decryptHandle : Option DecryptHandle)
    (action : Int) (reserve : Bool) : DrmEngineBase :=
  b.logHandler (HandlerCall.onConsumeRights uniqueId decryptHandle action reserve)

/-- `DrmEngineBase::setPlaybackStatus`. -/
def setPlaybackStatus (b : DrmEngineBase) (uniqueId : Int)
    (decryptHandle : Option DecryptHandle) (playbackStatus position : Int) : DrmEngineBase :=
  b.logHandler (HandlerCall.onSetPlaybackStatus uniqueId decryptHandle playbackStatus position)

/-- `DrmEngineBase::validateAction`. -/
def validateAction (b : DrmEngineBase) (uniqueId : Int) (path : String8) (action : Int)
    (description : ActionDescription) : Bool × DrmEngineBase :=
  (b.onValidateAction uniqueId path action description,
    b.logHandler (HandlerCall.onValidateAction uniqueId path action description))

/-- `DrmEngineBase::removeRights`. -/
def removeRights (b : DrmEngineBase) (uniqueId : Int) (path : String8) : DrmEngineBase :=
  b.logHandler (HandlerCall.onRemoveRights uniqueId path)

/-- `DrmEngineBase::removeAllRights`. -/
def removeAllRights (b : DrmEngineBase) (uniqueId : Int) : DrmEngineBase :=
  b.logHandler (HandlerCall.onRemoveAllRights uniqueId)

/-- `DrmEngineBase::openConvertSession`. -/
def openConvertSession (b : DrmEngineBase) (uniqueId convertId : Int) : DrmEngineBase :=
  b.logHandler (HandlerCall.onOpenConvertSession uniqueId convertId)

/-- `DrmEngineBase::convertData`. -/
def convertData (b : DrmEngineBase) (uniqueId convertId : Int) (inputData : Option DrmBuffer) :
    Option DrmConvertedStatus × DrmEngineBase :=
  (b.onConvertData uniqueId convertId inputData,
    b.logHandler (HandlerCall.onConvertData uniqueId convertId inputData))

/-- `DrmEngineBase::closeConvertSession`. -/
def closeConvertSession (b : DrmEngineBase) (uniqueId convertId : Int) :
    Option DrmConvertedStatus × DrmEngineBase :=
  (b.onCloseConvertSession uniqueId convertId,
    b.logHandler (HandlerCall.onCloseConvertSession uniqueId convertId))

/-- `DrmEngineBase::getSupportInfo`. -/
def getSupportInfo (b : DrmEngineBase) (uniqueId : Int) :
    Option DrmSupportInfo × DrmEngineBase :=
  (b.onGetSupportInfo uniqueId, b.logHandler (HandlerCall.onGetSupportInfo uniqueId))

/-- `DrmEngineBase::openDecryptSession`; the result is the status. -/
def openDecryptSession (b : DrmEngineBase) (uniqueId : Int)
    (decryptHandle : Option DecryptHandle) (fd offset length : Int) :
    status_t × DrmEngineBase :=
  (b.onOpenDecryptSession uniqueId decryptHandle fd offset length,
    b.logHandler (HandlerCall.onOpenDecryptSession uniqueId decryptHandle fd offset length))

/-- `DrmEngineBase::closeDecryptSession`. -/
def closeDecryptSession (b : DrmEngineBase) (uniqueId : Int)
    (decryptHandle : Option DecryptHandle) : DrmEngineBase :=
  b.logHandler (HandlerCall.onCloseDecryptSession uniqueId decryptHandle)

/-- `DrmEngineBase::initializeDecryptUnit`. -/
def initializeDecryptUnit (b : DrmEngineBase) (uniqueId : Int)
    (decryptHandle : Option DecryptHandle) (decryptUnitId : Int)
    (headerInfo : Option DrmBuffer) : DrmEngineBase :=
  b.logHandler
    (HandlerCall.onInitializeDecryptUnit uniqueId decryptHandle decryptUnitId headerInfo)

/-- `DrmEngineBase::decrypt`; the result is the status. -/
def decrypt (b : DrmEngineBase) (uniqueId : Int) (decryptHandle : Option DecryptHandle)
    (decryptUnitId : Int) (encBuffer : Option DrmBuffer) (decBuffer : Option (Option DrmBuffer)) :
    status_t × DrmEngineBase :=
  (b.onDecrypt uniqueId decryptHandle decryptUnitId encBuffer decBuffer,
    b.logHandler (HandlerCall.onDecrypt uniqueId decryptHandle decryptUnitId encBuffer decBuffer))

/-- `DrmEngineBase::finalizeDecryptUnit`. -/
def finalizeDecryptUnit (b : DrmEngineBase) (uniqueId : Int)
    (decryptHandle : Option DecryptHandle) (decryptUnitId : Int) : DrmEngineBase :=
  b.logHandler (HandlerCall.onFinalizeDecryptUnit uniqueId decryptHandle decryptUnitId)

/-- `DrmEngineBase::pread`. -/
def pread (b : DrmEngineBase) (uniqueId : Int) (decryptHandle : Option DecryptHandle)
    (buffer : Option DrmBuffer) (numBytes offset : Int) : Int × DrmEngineBase :=
  (b.onPread uniqueId decryptHandle buffer numBytes offset,
    b.logHandler (HandlerCall.onPread uniqueId decryptHandle buffer numBytes offset))

end DrmEngineBase

/-- An engine whose handlers answer whatever they are given, a null argument
included: constraints with one pair, status 0 and the like. -/
def baseAnswering : DrmEngineBase where
  onGetConstraints := fun _ _ _ => some [("license", "ok")]
  onInitialize := fun _ => DRM_NO_ERROR
  onSetOnInfoListener := fun _ _ => DRM_NO_ERROR
  onTerminate := fun _ => DRM_NO_ERROR
  onCanHandle := fun _ _ => true
  onProcessDrmInfo := fun _ _ => some ⟨1, [], ""⟩
  onAcquireDrmInfo := fun _ _ => none
  onGetOriginalMimeType := fun _ _ => "video/mp4"
  onGetDrmObjectType := fun _ _ _ => 1
  onCheckRightsStatus := fun _ _ _ => 0
  onValidateAction := fun _ _ _ _ => true
  onConvertData := fun _ _ _ => none
  onCloseConvertSession := fun _ _ => none
  onGetSupportInfo := fun _ => some infoA
  onOpenDecryptSession := fun _ _ _ _ _ => DRM_NO_ERROR
  onDecrypt := fun _ _ _ _ _ => DRM_NO_ERROR
  onPread := fun _ _ _ numBytes _ => numBytes
  handled := []

/-! ## Statements about engines without a support descriptor -/

/-- Engine A declares suffix "abc" and rejects every path; the second engine
reports no support descriptor, accepts every path and opens every decrypt
session.  Registered in this order, with the Capability Index built. -/
def managerWithMute : DrmManager :=
  populated 7 [⟨"A", exampleEngine (some infoA) false DRM_ERROR_CANNOT_HANDLE⟩, engineAccepting]

/-! ## Statements about reloading -/

/-- The calls `initializePlugIns` makes on the engines with the identifiers
`ids`: `initialize` and `setOnInfoListener` on each, in turn. -/
def initializeCalls (uniqueId : Int) : List String8 → List (String8 × EngineCall)
  | [] => []
  | plugInId :: rest =>
    (plugInId, EngineCall.onInitialize uniqueId) ::
      (plugInId, EngineCall.setOnInfoListener uniqueId) :: initializeCalls uniqueId rest

/-- An engine whose descriptor depends on the caller it is asked by: suffix
"abc" and MIME type "application/x-a" for caller 0, suffix "xyz" and MIME type
"application/x-b" for every other caller. -/
def engineShifting : PlugIn :=
  ⟨"shifting",
    { exampleEngine none true DRM_NO_ERROR with
      getSupportInfo := fun uniqueId => if uniqueId = 0 then some infoA else some infoB }⟩

/-- The initial manager after `loadPlugIns` by caller 0 found the engine above. -/
def managerShifted : DrmManager := (DrmManager.init.loadPlugIns 0 [engineShifting]).2

/-- An engine that reports the descriptor `info` and accepts exactly the paths
whose file suffix the descriptor declares. -/
def engineBySuffix (plugInId : String8) (info : DrmSupportInfo) : PlugIn :=
  ⟨plugInId,
    { exampleEngine (some info) false DRM_ERROR_CANNOT_HANDLE with
      canHandle := fun _ path => info.isSupportedFileSuffix (getPathExtension path) }⟩

/-- The initial manager after `loadPlugIns` found engine A (suffix "abc", MIME
type "application/x-a") and then engine B (suffix "xyz", MIME type
"application/x-b"), each accepting the paths with its suffix. -/
def managerScenario : DrmManager :=
  (DrmManager.init.loadPlugIns 7 [engineBySuffix "A" infoA, engineBySuffix "B" infoB]).2

/-- The initial manager after `loadPlugIns` by caller `uniqueId` found engine `a`
and then engine `b`. -/
def registeredInOrder (uniqueId : Int) (a b : PlugIn) : DrmManager :=
  (DrmManager.init.loadPlugIns uniqueId [a, b]).2

/-- Engines A and B of the scenario, registered in this order, where B rejects
every path. -/
def managerRejectingB : DrmManager :=
  registeredInOrder 7 ⟨"A", exampleEngine (some infoA) true DRM_ERROR_CANNOT_HANDLE⟩
    ⟨"B", exampleEngine (some infoB) false DRM_ERROR_CANNOT_HANDLE⟩

/-! ## Threads and the decrypt lock -/

/-- A call a thread makes on the manager. -/
inductive ThreadCall where
  | openDecryptSession (uniqueId fd offset length : Int)
  | closeDecryptSession (uniqueId : Int) (decryptHandle : DecryptHandle)
  | closeConvertSession (uniqueId convertId : Int)
deriving DecidableEq, Repr

/-- Where a thread stands: between two calls, or inside
`DrmManager::openDecryptSession`, `DrmManager::closeDecryptSession` or
`DrmManager::closeConvertSession` before the statement named in each case, with
the values of the local variables. -/
inductive Pc where
  /-- Between two calls. -/
  | idle
  /-- In `openDecryptSession`, `plugInIdList` read and the handle allocated,
  before `Mutex::Autolock _l(mDecryptLock)`. -/
  | openWaiting (uniqueId fd offset length : Int) (plugInIdList : List String8)
      (handle : DecryptHandle)
  /-- The lock taken, before `handle->decryptId = mDecryptSessionId + 1`. -/
  | openLocked (uniqueId fd offset length : Int) (plugInIdList : List String8)
      (handle : DecryptHandle)
  /-- At the head of the probing loop, `rest` being the identifiers still to
  visit and `result` the status of the last probe. -/
  | openProbing (uniqueId fd offset length : Int) (rest : List String8)
      (handle : DecryptHandle) (result : status_t)
  /-- An engine returned `DRM_NO_ERROR`, before `++mDecryptSessionId`. -/
  | openSelected (handle : DecryptHandle) (rDrmEngine : PlugIn)
  /-- The counter incremented, before `mDecryptSessionMap.add`. -/
  | openCounted (handle : DecryptHandle) (rDrmEngine : PlugIn)
  /-- The session bound, before `break` and the end of the locked block. -/
  | openBound (handle : DecryptHandle)
  /-- In `closeDecryptSession`, before the `indexOfKey` test. -/
  | closeEntered (uniqueId : Int) (decryptHandle : DecryptHandle)
  /-- The key found, before `valueFor` and the call on the engine. -/
  | closeFound (uniqueId : Int) (decryptHandle : DecryptHandle)
  /-- The engine called, before `removeItem`; `decryptHandle` is the object the
  caller passed, as the engine left it. -/
  | closeCalled (uniqueId : Int) (decryptHandle : DecryptHandle)
  /-- In `closeConvertSession`, before the `indexOfKey` test. -/
  | convertEntered (uniqueId convertId : Int)
  /-- The key found, before `valueFor` and the call on the engine. -/
  | convertFound (uniqueId convertId : Int)
  /-- The engine called and its result in `drmConvertedStatus`, before
  `removeItem`. -/
  | convertCalled (uniqueId convertId : Int) (drmConvertedStatus : Option DrmConvertedStatus)

/-- A thread: where it stands, the calls it has still to make, what its
`openDecryptSession` calls returned so far, each with the final value of
`result`, and what its `closeConvertSession` calls returned so far (oldest
first). -/
structure Thread where
  pc : Pc
  todo : List ThreadCall
  opened : List (status_t × Option DecryptHandle)
  closed : List (Option DrmConvertedStatus)

/-- The thread is inside the block of `openDecryptSession` that
`Mutex::Autolock _l(mDecryptLock)` guards: its next step is the assignment of
the handle id, a probe of an engine, the increment of the counter, the
insertion into the session map, or the release of the lock. -/
def holdsLock : Pc → Bool
  | Pc.openLocked _ _ _ _ _ _ => true
  | Pc.openProbing _ _ _ _ _ _ _ => true
  | Pc.openSelected _ _ => true
  | Pc.openCounted _ _ => true
  | Pc.openBound _ => true
  | _ => false

/-- What `openDecryptSession` returns given the final value of `result`: the
statements after the locked block, which touch local variables only. -/
def openResult (handle : DecryptHandle) (result : status_t) : status_t × Option DecryptHandle :=
  (result, if DRM_ERROR_CANNOT_HANDLE = result then none else some handle)

/-- One step of thread `t`: the next statement of the call it is in, on the
manager `shared` and the holder `lock` of `mDecryptLock`.  A thread that waits
for the lock, or has nothing left to do, stays where it is.  The result is the
manager, the holder of the lock and the thread afterwards.  `Mutex` is not
among the sources: `Mutex::Autolock` is taken to block until no thread holds
the lock, to take it, and to release it at the end of the enclosing block.  The
statements after the locked block of `openDecryptSession` touch local variables
only and are taken together with the release. -/
def localStep (t : Nat) (shared : DrmManager) (lock : Option Nat) (th : Thread) :
    DrmManager × Option Nat × Thread :=
  match th.pc with
  | Pc.idle =>
    match th.todo with
    | [] => (shared, lock, th)
    | ThreadCall.openDecryptSession uniqueId fd offset length :: rest =>
      (shared, lock,
        { th with
          pc := Pc.openWaiting uniqueId fd offset length shared.mPlugInManager.getPlugInIdList
            DecryptHandle.fresh
          todo := rest })
    | ThreadCall.closeDecryptSession uniqueId decryptHandle :: rest =>
      (shared, lock, { th with pc := Pc.closeEntered uniqueId decryptHandle, todo := rest })
    | ThreadCall.closeConvertSession uniqueId convertId :: rest =>
      (shared, lock, { th with pc := Pc.convertEntered uniqueId convertId, todo := rest })
  | Pc.openWaiting uniqueId fd offset length plugInIdList handle =>
    match lock with
    | some _ => (shared, lock, th)
    | none =>
      (shared, some t,
        { th with pc := Pc.openLocked uniqueId fd offset length plugInIdList handle })
  | Pc.openLocked uniqueId fd offset length plugInIdList handle =>
    (shared, lock,
      { th with
        pc := Pc.openProbing uniqueId fd offset length plugInIdList
          { handle with decryptId := wrapInt (shared.mDecryptSessionId + 1) }
          DRM_ERROR_CANNOT_HANDLE })
  | Pc.openProbing _ _ _ _ [] handle result =>
    (shared, none, { th with pc := Pc.idle, opened := th.opened ++ [openResult handle result] })
  | Pc.openProbing uniqueId fd offset length (plugInId :: rest) handle result =>
    match shared.mPlugInManager.getPlugIn plugInId with
    | none =>
      (shared, lock, { th with pc := Pc.openProbing uniqueId fd offset length rest handle result })
    | some rDrmEngine =>
      let r := rDrmEngine.engine.openDecryptSession uniqueId handle fd offset length
      let s1 := shared.logCall plugInId
        (EngineCall.openDecryptSession uniqueId handle fd offset length)
      if DRM_NO_ERROR = r.1 then (s1, lock, { th with pc := Pc.openSelected r.2 rDrmEngine })
      else (s1, lock, { th with pc := Pc.openProbing uniqueId fd offset length rest r.2 r.1 })
  | Pc.openSelected handle rDrmEngine =>
    ({ shared with mDecryptSessionId := wrapInt (shared.mDecryptSessionId + 1) }, lock,
      { th with pc := Pc.openCounted handle rDrmEngine })
  | Pc.openCounted handle rDrmEngine =>
    ({ shared with
        mDecryptSessionMap := shared.mDecryptSessionMap.add shared.mDecryptSessionId rDrmEngine },
      lock, { th with pc := Pc.openBound handle })
  | Pc.openBound handle =>
    (shared, none,
      { th with pc := Pc.idle, opened := th.opened ++ [openResult handle DRM_NO_ERROR] })
  | Pc.closeEntered uniqueId decryptHandle =>
    if shared.mDecryptSessionMap.indexOfKey decryptHandle.decryptId ≠ NAME_NOT_FOUND then
      (shared, lock, { th with pc := Pc.closeFound uniqueId decryptHandle })
    else (shared, lock, { th with pc := Pc.idle })
  | Pc.closeFound uniqueId decryptHandle =>
    match shared.mDecryptSessionMap.lookup decryptHandle.decryptId with
    | none => (shared, lock, { th with pc := Pc.idle })
    | some drmEngine =>
      (shared.logCall drmEngine.plugInId (EngineCall.closeDecryptSession uniqueId decryptHandle),
        lock,
        { th with
          pc := Pc.closeCalled uniqueId
            (drmEngine.engine.closeDecryptSession uniqueId decryptHandle) })
  | Pc.closeCalled _ decryptHandle =>
    ({ shared with
        mDecryptSessionMap := shared.mDecryptSessionMap.removeItem decryptHandle.decryptId },
      lock, { th with pc := Pc.idle })
  | Pc.convertEntered uniqueId convertId =>
    if shared.mConvertSessionMap.indexOfKey convertId ≠ NAME_NOT_FOUND then
      (shared, lock, { th with pc := Pc.convertFound uniqueId convertId })
    else (shared, lock, { th with pc := Pc.idle, closed := th.closed ++ [none] })
  | Pc.convertFound uniqueId convertId =>
    match shared.mConvertSessionMap.lookup convertId with
    | none => (shared, lock, { th with pc := Pc.idle, closed := th.closed ++ [none] })
    | some drmEngine =>
      (shared.logCall drmEngine.plugInId (EngineCall.closeConvertSession uniqueId convertId),
        lock,
        { th with
          pc := Pc.convertCalled uniqueId convertId
            (drmEngine.engine.closeConvertSession uniqueId convertId) })
  | Pc.convertCalled _ convertId drmConvertedStatus =>
    ({ shared with mConvertSessionMap := shared.mConvertSessionMap.removeItem convertId },
      lock, { th with pc := Pc.idle, closed := th.closed ++ [drmConvertedStatus] })

/-- The manager, the holder of `mDecryptLock` (if it is held) and the threads. -/
structure Config where
  shared : DrmManager
  mDecryptLock : Option Nat
  threads : Nat → Thread

/-- The configuration in which no call has started: thread `t` has the calls
`programs t` to make. -/
def Config.start (s : DrmManager) (programs : Nat → List ThreadCall) : Config :=
  { shared := s, mDecryptLock := none, threads := fun t => ⟨Pc.idle, programs t, [], []⟩ }

/-- The configuration after thread `t` takes its next step. -/
def stepThread (c : Config) (t : Nat) : Config :=
  { shared := (localStep t c.shared c.mDecryptLock (c.threads t)).1
    mDecryptLock := (localStep t c.shared c.mDecryptLock (c.threads t)).2.1
    threads := fun u =>
      if u = t then (localStep t c.shared c.mDecryptLock (c.threads t)).2.2 else c.threads u }

/-- The configuration after the threads take steps in the order of `schedule`. -/
def runSchedule : Config → List Nat → Config
  | c, [] => c
  | c, t :: rest => runSchedule (stepThread c t) rest

/-- The ids of the handles returned by the opens that bound a session (those
whose final `result` is `DRM_NO_ERROR`). -/
def successIds : List (status_t × Option DecryptHandle) → List Int
  | [] => []
  | (status, some handle) :: rest =>
    if status = DRM_NO_ERROR then handle.decryptId :: successIds rest else successIds rest
  | (_, none) :: rest => successIds rest

/-- The id of the handle of an open that has incremented the counter and has
not returned yet. -/
def pendingId : Pc → List Int
  | Pc.openCounted handle _ => [handle.decryptId]
  | Pc.openBound handle => [handle.decryptId]
  | _ => []

/-- The handle ids a thread has obtained: those returned and the pending one. -/
def obtainedIds (th : Thread) : List Int := successIds th.opened ++ pendingId th.pc

/-- The handle of a thread inside the locked block carries the id the counter
will have, or has, for it; and the probing loop goes on only after a failure. -/
def HandleOk (counter : Int) : Pc → Prop
  | Pc.openProbing _ _ _ _ _ handle result =>
    handle.decryptId = counter + 1 ∧ result ≠ DRM_NO_ERROR
  | Pc.openSelected handle _ => handle.decryptId = counter + 1
  | Pc.openCounted handle _ => handle.decryptId = counter
  | Pc.openBound handle => handle.decryptId = counter
  | _ => True

/-- What holds in every configuration the threads reach from a manager whose
engine registry is `pm`. -/
structure Serialized (c : Config) (pm : PlugInManager) : Prop where
  registry : c.shared.mPlugInManager = pm
  lock : ∀ t, holdsLock (c.threads t).pc = true ↔ c.mDecryptLock = some t
  low : INT_MIN ≤ c.shared.mDecryptSessionId
  handle : ∀ t, HandleOk c.shared.mDecryptSessionId (c.threads t).pc
  bound : ∀ t, ∀ id ∈ obtainedIds (c.threads t), id ≤ c.shared.mDecryptSessionId
  nodup : ∀ t, (obtainedIds (c.threads t)).Nodup
  disjoint : ∀ t u, t ≠ u → ∀ id ∈ obtainedIds (c.threads t), id ∉ obtainedIds (c.threads u)

/-- The thread is between two calls. -/
def isIdle : Pc → Bool
  | Pc.idle => true
  | _ => false

/-- The thread is at the `removeItem` of `closeDecryptSession`. -/
def atRemoveItem : Pc → Bool
  | Pc.closeCalled _ _ => true
  | _ => false

/-- Thread 0 opens a decrypt session, thread 1 closes the session with handle 1. -/
def racingPrograms : Nat → List ThreadCall
  | 0 => [ThreadCall.openDecryptSession 7 3 0 10]
  | 1 => [ThreadCall.closeDecryptSession 7 ⟨1, "", 0, 0⟩]
  | _ => []

/-- Threads 0 and 1 each open a decrypt session. -/
def twoOpeners : Nat → List ThreadCall
  | 0 => [ThreadCall.openDecryptSession 7 3 0 10]
  | 1 => [ThreadCall.openDecryptSession 7 4 0 10]
  | _ => []

/-- Thread `t` takes `n` steps in a row, no other thread in between: the
manager, the holder of the lock and the thread afterwards. -/
def runAlone (t : Nat) :
    Nat → DrmManager × Option Nat × Thread → DrmManager × Option Nat × Thread
  | 0, x => x
  | n + 1, x => runAlone t n (localStep t x.1 x.2.1 x.2.2)

/-! ## Engines that write to the decrypt handle -/

/-- An engine whose `closeDecryptSession` resets the id of the handle it is
given to 0, and whose `decrypt` succeeds. -/
def engineForgetful : PlugIn :=
  ⟨"forgetful",
    { exampleEngine (some infoA) true DRM_NO_ERROR with
      closeDecryptSession := fun _ h => { h with decryptId := 0 }
      decrypt := fun _ _ _ _ d => (DRM_NO_ERROR, d) }⟩

/-- A manager with the engine above loaded and decrypt session 1 open. -/
def managerForgetful : DrmManager :=
  run DrmManager.init [Op.loadPlugIns 7 [engineForgetful], Op.openDecryptSession 7 3 0 10]

/-- An engine whose `closeDecryptSession` sets the id of the handle it is given
to 2. -/
def engineCrossing : PlugIn :=
  ⟨"crossing",
    { exampleEngine (some infoA) true DRM_NO_ERROR with
      closeDecryptSession := fun _ h => { h with decryptId := 2 } }⟩

/-- A manager with the engine above loaded and decrypt sessions 1 and 2 open. -/
def managerCrossing : DrmManager :=
  run DrmManager.init
    [Op.loadPlugIns 7 [engineCrossing], Op.openDecryptSession 7 3 0 10,
     Op.openDecryptSession 7 4 0 10]

/-- An engine whose `openDecryptSession` succeeds and sets the id of the handle
it is given to 9. -/
def engineScribbling : PlugIn :=
  ⟨"scribbling",
    { exampleEngine (some infoA) true DRM_NO_ERROR with
      openDecryptSession := fun _ h _ _ _ => (DRM_NO_ERROR, { h with decryptId := 9 }) }⟩

/-- The initial manager after `loadPlugIns` found the engine above. -/
def managerScribbling : DrmManager := (DrmManager.init.loadPlugIns 7 [engineScribbling]).2

namespace KeyedVector

variable {K V : Type} [DecidableEq K]

theorem findEntry_insertEntry (k : K) (v : V) (k2 : K) (l : List (K × V)) :
    findEntry k2 (insertEntry k v l) = if k2 = k then some v else findEntry k2 l := by
  induction l with
  | nil =>
    by_cases h : k2 = k
    · simp [insertEntry, findEntry, h]
    · have h2 : ¬ k = k2 := fun e => h e.symm
      simp [insertEntry, findEntry, h, h2]
  | cons e rest ih =>
    obtain ⟨k1, v1⟩ := e
    by_cases h1 : k1 = k
    · subst h1
      by_cases h : k2 = k1
      · subst h
        simp [insertEntry, findEntry]
      · have h2 : ¬ k1 = k2 := fun e => h e.symm
        simp [insertEntry, findEntry, h, h2]
    · by_cases h : k1 = k2
      · subst h
        simp [insertEntry, findEntry, h1]
      · simp [insertEntry, findEntry, h1, h, ih]

theorem lookup_add (m : KeyedVector K V) (k : K) (v : V) (k2 : K) :
    (m.add k v).lookup k2 = if k2 = k then some v else m.lookup k2 := by
  simp [lookup, add, findEntry_insertEntry]

theorem findEntry_eraseEntry (k k2 : K) (l : List (K × V)) :
    findEntry k2 (eraseEntry k l) = if k2 = k then none else findEntry k2 l := by
  induction l with
  | nil => simp [findEntry, eraseEntry]
  | cons e rest ih =>
    obtain ⟨k1, v1⟩ := e
    by_cases h1 : k1 = k
    · subst h1
      by_cases h : k2 = k1
      · subst h
        simp [eraseEntry, findEntry, ih]
      · have h2 : ¬ k1 = k2 := fun e => h e.symm
        simp [eraseEntry, findEntry, ih, h, h2]
    · by_cases h : k1 = k2
      · subst h
        have h3 : ¬ k1 = k := h1
        simp [eraseEntry, findEntry, h3]
      · simp [eraseEntry, findEntry, h1, h, ih]

theorem lookup_removeItem (m : KeyedVector K V) (k k2 : K) :
    (m.removeItem k).lookup k2 = if k2 = k then none else m.lookup k2 := by
  simp [lookup, removeItem, findEntry_eraseEntry]

theorem lookup_clear (m : KeyedVector K V) (k : K) : m.clear.lookup k = none := rfl

theorem lookup_empty (k : K) : (empty : KeyedVector K V).lookup k = none := rfl

theorem findIndex_ge (k : K) (l : List (K × V)) (i j : Nat)
    (h : findIndex k l i = some j) : i ≤ j := by
  induction l generalizing i with
  | nil => simp [findIndex] at h
  | cons e rest ih =>
    obtain ⟨k1, v1⟩ := e
    by_cases h1 : k1 = k
    · simp [findIndex, h1] at h
      omega
    · simp [findIndex, h1] at h
      have := ih (i + 1) h
      omega

theorem findIndex_eq_none (k : K) (l : List (K × V)) (i : Nat) :
    findIndex k l i = none ↔ findEntry k l = none := by
  induction l generalizing i with
  | nil => simp [findIndex, findEntry]
  | cons e rest ih =>
    obtain ⟨k1, v1⟩ := e
    by_cases h1 : k1 = k
    · simp [findIndex, findEntry, h1]
    · simp [findIndex, findEntry, h1, ih]

/-- A key has an index exactly when a value is bound to it. -/
theorem indexOfKey_eq_notFound (m : KeyedVector K V) (k : K) :
    m.indexOfKey k = NAME_NOT_FOUND ↔ m.lookup k = none := by
  unfold indexOfKey lookup
  cases h : findIndex k m.mVector 0 with
  | none =>
    simp [(findIndex_eq_none k m.mVector 0).mp h]
  | some j =>
    have hne : findEntry k m.mVector ≠ none := by
      intro hc
      rw [(findIndex_eq_none k m.mVector 0).mpr hc] at h
      cases h
    have hj : (j : Int) ≠ NAME_NOT_FOUND := by
      unfold NAME_NOT_FOUND
      omega
    simp [hj, hne]

/-- In a list of entries with pairwise distinct keys every entry is found
under its own key. -/
theorem findEntry_of_mem (l : List (K × V)) (hnd : (l.map Prod.fst).Nodup)
    (e : K × V) (he : e ∈ l) : findEntry e.1 l = some e.2 := by
  induction l with
  | nil => cases he
  | cons a rest ih =>
    obtain ⟨k1, v1⟩ := a
    rw [List.map_cons, List.nodup_cons] at hnd
    rcases List.mem_cons.mp he with h | h
    · rw [h]
      simp [findEntry]
    · have hk : k1 ≠ e.1 := by
        intro hc
        apply hnd.1
        show k1 ∈ List.map Prod.fst rest
        rw [hc]
        exact List.mem_map_of_mem Prod.fst h
      simp [findEntry, hk, ih hnd.2 h]

theorem insertEntry_of_not_mem (k : K) (v : V) (l : List (K × V))
    (h : k ∉ l.map Prod.fst) : insertEntry k v l = l ++ [(k, v)] := by
  induction l with
  | nil => rfl
  | cons a rest ih =>
    obtain ⟨k1, v1⟩ := a
    simp only [List.map_cons, List.mem_cons, not_or] at h
    have hk : ¬ k1 = k := fun e => h.1 e.symm
    simp [insertEntry, hk, ih h.2]

end KeyedVector

namespace PlugInManager

/-- Every listed identifier has an engine, registered under that identifier. -/
theorem getPlugIn_of_mem (pm : PlugInManager) (plugInId : String8)
    (h : plugInId ∈ pm.getPlugInIdList) :
    ∃ p, pm.getPlugIn plugInId = some p ∧ p.plugInId = plugInId ∧ p ∈ pm.plugIns := by
  unfold getPlugInIdList at h
  obtain ⟨q, hq, hqid⟩ := List.mem_map.mp h
  unfold getPlugIn
  cases hf : pm.plugIns.find? (fun p => decide (p.plugInId = plugInId)) with
  | none =>
    have := List.find?_eq_none.mp hf q hq
    simp [hqid] at this
  | some p =>
    refine ⟨p, rfl, ?_, List.mem_of_find?_eq_some hf⟩
    have := List.find?_some hf
    simpa using this

theorem getPlugIn_plugInId (pm : PlugInManager) (plugInId : String8) (p : PlugIn)
    (h : pm.getPlugIn plugInId = some p) : p.plugInId = plugInId := by
  have := List.find?_some h
  simpa using this

theorem getPlugIn_mem (pm : PlugInManager) (plugInId : String8) (p : PlugIn)
    (h : pm.getPlugIn plugInId = some p) : p ∈ pm.plugIns :=
  List.mem_of_find?_eq_some h

/-- When identifiers are pairwise distinct, every loaded engine is the one
found under its identifier. -/
theorem getPlugIn_of_nodup (ps : List PlugIn) (hnd : (ps.map PlugIn.plugInId).Nodup)
    (p : PlugIn) (hp : p ∈ ps) : (PlugInManager.mk ps).getPlugIn p.plugInId = some p := by
  induction ps with
  | nil => cases hp
  | cons a rest ih =>
    rw [List.map_cons, List.nodup_cons] at hnd
    rcases List.mem_cons.mp hp with h | h
    · subst h
      simp [getPlugIn]
    · have hk : a.plugInId ≠ p.plugInId := by
        intro hc
        apply hnd.1
        rw [hc]
        exact List.mem_map_of_mem PlugIn.plugInId h
      have := ih hnd.2 h
      simp only [getPlugIn] at this ⊢
      simp [List.find?, hk, this]

end PlugInManager

namespace DrmManager

/-! ## The generic probe `canHandle(uniqueId, path)` -/

@[simp] theorem logCall_mPlugInManager (s : DrmManager) (i : String8) (c : EngineCall) :
    (s.logCall i c).mPlugInManager = s.mPlugInManager := rfl

@[simp] theorem logCall_mSupportInfoToPlugInIdMap (s : DrmManager) (i : String8)
    (c : EngineCall) :
    (s.logCall i c).mSupportInfoToPlugInIdMap = s.mSupportInfoToPlugInIdMap := rfl

@[simp] theorem logCall_mDecryptSessionMap (s : DrmManager) (i : String8) (c : EngineCall) :
    (s.logCall i c).mDecryptSessionMap = s.mDecryptSessionMap := rfl

@[simp] theorem logCall_mConvertSessionMap (s : DrmManager) (i : String8) (c : EngineCall) :
    (s.logCall i c).mConvertSessionMap = s.mConvertSessionMap := rfl

@[simp] theorem logCall_mDecryptSessionId (s : DrmManager) (i : String8) (c : EngineCall) :
    (s.logCall i c).mDecryptSessionId = s.mDecryptSessionId := rfl

@[simp] theorem logCall_mConvertId (s : DrmManager) (i : String8) (c : EngineCall) :
    (s.logCall i c).mConvertId = s.mConvertId := rfl

@[simp] theorem logCall_trace (s : DrmManager) (i : String8) (c : EngineCall) :
    (s.logCall i c).trace = s.trace ++ [(i, c)] := rfl

/-- The probing loop answers true exactly when one of the identifiers it
visits has an engine that accepts the path. -/
theorem canHandleLoop_true_iff (uniqueId : Int) (path : String8) (ids : List String8)
    (s : DrmManager) :
    (canHandleLoop uniqueId path ids s).1 = true ↔
      ∃ plugInId ∈ ids, ∃ p, s.mPlugInManager.getPlugIn plugInId = some p ∧
        p.engine.canHandle uniqueId path = true := by
  induction ids generalizing s with
  | nil => simp [canHandleLoop]
  | cons i rest ih =>
    unfold canHandleLoop
    cases hg : s.mPlugInManager.getPlugIn i with
    | none =>
      simp only [ih, List.mem_cons, exists_eq_or_imp, hg]
      simp
    | some e =>
      by_cases hc : e.engine.canHandle uniqueId path = true
      · simp only [hc, if_true, true_iff]
        exact ⟨i, List.mem_cons_self i rest, e, hg, hc⟩
      · simp only [hc, Bool.false_eq_true, if_false, ih, logCall_mPlugInManager, List.mem_cons,
          exists_eq_or_imp, hg, Option.some.injEq, exists_eq_left]
        simp [hc]

/-- C3: the one-argument `canHandle(uniqueId, path)` returns true if and only if
some registered engine's `canHandle(uniqueId, path)` returns true; with no
registered engine it returns false; the Capability Index (MIME and suffix
declarations) and every other part of the state play no part in the result.
The last part restates the equivalence over the list of loaded engines, whose
identifiers are pairwise distinct. -/
theorem canHandle_iff_some_engine_accepts (s : DrmManager) (uniqueId : Int)
    (path : String8) :
    ((s.canHandle uniqueId path).1 = true ↔
      ∃ plugInId ∈ s.mPlugInManager.getPlugInIdList, ∃ p,
        s.mPlugInManager.getPlugIn plugInId = some p ∧
          p.engine.canHandle uniqueId path = true) ∧
    (s.mPlugInManager.plugIns = [] → (s.canHandle uniqueId path).1 = false) ∧
    (∀ s2 : DrmManager, s2.mPlugInManager = s.mPlugInManager →
      (s2.canHandle uniqueId path).1 = (s.canHandle uniqueId path).1) ∧
    ((s.mPlugInManager.plugIns.map PlugIn.plugInId).Nodup →
      ((s.canHandle uniqueId path).1 = true ↔
        ∃ p ∈ s.mPlugInManager.plugIns, p.engine.canHandle uniqueId path = true)) := by
  have key := canHandleLoop_true_iff uniqueId path s.mPlugInManager.getPlugInIdList s
  refine ⟨key, ?_, ?_, ?_⟩
  · intro hnil
    simp [canHandle, PlugInManager.getPlugInIdList, hnil, canHandleLoop]
  · intro s2 h2
    have key2 := canHandleLoop_true_iff uniqueId path s2.mPlugInManager.getPlugInIdList s2
    have : (s2.canHandle uniqueId path).1 = true ↔ (s.canHandle uniqueId path).1 = true := by
      refine Iff.trans key2 ?_
      rw [h2]
      exact key.symm
    exact Bool.eq_iff_iff.mpr this
  · intro hnd
    refine key.trans ⟨?_, ?_⟩
    · rintro ⟨i, _, p, hg, hc⟩
      exact ⟨p, PlugInManager.getPlugIn_mem _ _ _ hg, hc⟩
    · rintro ⟨p, hp, hc⟩
      refine ⟨p.plugInId, List.mem_map_of_mem PlugIn.plugInId hp, p, ?_, hc⟩
      exact PlugInManager.getPlugIn_of_nodup s.mPlugInManager.plugIns hnd p hp

end DrmManager

/-! ## Resolution by MIME type -/

namespace KeyedVector

/-- Binding fresh keys one after the other appends the entries in order. -/
theorem foldl_insertEntry_of_nodup {K V : Type} [DecidableEq K] (es l : List (K × V))
    (hnd : ((l ++ es).map Prod.fst).Nodup) :
    es.foldl (fun acc e => insertEntry e.1 e.2 acc) l = l ++ es := by
  induction es generalizing l with
  | nil => simp
  | cons e rest ih =>
    have hnot : e.1 ∉ l.map Prod.fst := by
      intro hmem
      rw [List.map_append, List.nodup_append] at hnd
      exact hnd.2.2 hmem (by simp)
    rw [List.foldl_cons, insertEntry_of_not_mem e.1 e.2 l hnot, ih]
    · simp
    · simpa using hnd

end KeyedVector

namespace DrmManager

/-- The scan of `getSupportedPlugInId` over the keys of a stretch `es` of the
index returns the value of the first entry of `es` whose key declares the MIME
type, when the keys of the index are pairwise distinct. -/
theorem mimeScan_eq_find (l : List (DrmSupportInfo × String8))
    (hnd : (l.map Prod.fst).Nodup) (mimeType : String8)
    (es : List (DrmSupportInfo × String8)) (hsub : ∀ e ∈ es, e ∈ l) :
    mimeScan ⟨l⟩ mimeType (es.map Prod.fst) =
      match es.find? (fun e => e.1.isSupportedMimeType mimeType) with
      | some e => e.2
      | none => "" := by
  induction es with
  | nil => simp [mimeScan]
  | cons e rest ih =>
    have hrest : ∀ x ∈ rest, x ∈ l := fun x hx => hsub x (List.mem_cons_of_mem e hx)
    by_cases hd : e.1.isSupportedMimeType mimeType = true
    · have hv := KeyedVector.findEntry_of_mem l hnd e (hsub e (List.mem_cons_self e rest))
      simp [mimeScan, hd, KeyedVector.valueFor, KeyedVector.lookup, hv]
    · simp only [List.map_cons, mimeScan, hd, Bool.false_eq_true, if_false, ih hrest]
      simp [List.find?, hd]

/-- What `getSupportedPlugInId(mimeType)` returns, read off the Capability
Index: the value of the first entry whose key declares the MIME type. -/
theorem getSupportedPlugInId_eq_find (s : DrmManager)
    (hnd : s.mSupportInfoToPlugInIdMap.keys.Nodup) (mimeType : String8)
    (hm : mimeType ≠ "") :
    s.getSupportedPlugInId mimeType =
      match s.mSupportInfoToPlugInIdMap.mVector.find?
          (fun e => e.1.isSupportedMimeType mimeType) with
      | some e => e.2
      | none => "" := by
  have hne : EMPTY_STRING ≠ mimeType := fun h => hm h.symm
  unfold getSupportedPlugInId
  rw [if_pos hne]
  exact mimeScan_eq_find s.mSupportInfoToPlugInIdMap.mVector hnd mimeType
    s.mSupportInfoToPlugInIdMap.mVector (fun e he => he)

theorem getSupportedPlugInId_empty (s : DrmManager) : s.getSupportedPlugInId "" = "" := by
  simp [getSupportedPlugInId, EMPTY_STRING]

/-- The loop of `populate` binds, in order, the descriptors of the engines it
visits, and leaves the engine registry as it is. -/
theorem populateLoop_index (uniqueId : Int) (qs : List PlugIn) (s : DrmManager)
    (hq : ∀ q ∈ qs, s.mPlugInManager.getPlugIn q.plugInId = some q) :
    (populateLoop uniqueId (qs.map PlugIn.plugInId) s).mSupportInfoToPlugInIdMap =
      ⟨(supportEntries uniqueId qs).foldl (fun acc e => KeyedVector.insertEntry e.1 e.2 acc)
        s.mSupportInfoToPlugInIdMap.mVector⟩ ∧
    (populateLoop uniqueId (qs.map PlugIn.plugInId) s).mPlugInManager = s.mPlugInManager := by
  induction qs generalizing s with
  | nil => exact ⟨rfl, rfl⟩
  | cons q rest ih =>
    have hq0 := hq q (List.mem_cons_self q rest)
    have hrest : ∀ s2 : DrmManager, s2.mPlugInManager = s.mPlugInManager →
        ∀ x ∈ rest, s2.mPlugInManager.getPlugIn x.plugInId = some x := by
      intro s2 h2 x hx
      rw [h2]
      exact hq x (List.mem_cons_of_mem q hx)
    simp only [List.map_cons, populateLoop, hq0]
    cases hinfo : q.engine.getSupportInfo uniqueId with
    | none =>
      have := ih (s.logCall q.plugInId (EngineCall.getSupportInfo uniqueId)) (hrest _ rfl)
      simpa [supportEntries, hinfo] using this
    | some info =>
      have := ih
        { s.logCall q.plugInId (EngineCall.getSupportInfo uniqueId) with
          mSupportInfoToPlugInIdMap :=
            (s.logCall q.plugInId
              (EngineCall.getSupportInfo uniqueId)).mSupportInfoToPlugInIdMap.add info
                q.plugInId } (hrest _ rfl)
      simpa [supportEntries, hinfo, KeyedVector.add] using this

/-- The Capability Index after `populate` on an empty index, for engines with
pairwise distinct identifiers and pairwise distinct descriptors: one entry per
engine that reports a descriptor, in registration order. -/
theorem populated_index (uniqueId : Int) (ps : List PlugIn)
    (hids : (ps.map PlugIn.plugInId).Nodup)
    (hdesc : (ps.filterMap (fun p => p.engine.getSupportInfo uniqueId)).Nodup) :
    (populated uniqueId ps).mSupportInfoToPlugInIdMap = ⟨supportEntries uniqueId ps⟩ := by
  have h := (populateLoop_index uniqueId ps { DrmManager.init with mPlugInManager := ⟨ps⟩ }
    (fun q hq => PlugInManager.getPlugIn_of_nodup ps hids q hq)).1
  have hkeys : (supportEntries uniqueId ps).map Prod.fst =
      ps.filterMap (fun p => p.engine.getSupportInfo uniqueId) := by
    unfold supportEntries
    rw [List.map_filterMap]
    congr 1
    funext p
    cases p.engine.getSupportInfo uniqueId <;> rfl
  have hfold := KeyedVector.foldl_insertEntry_of_nodup (supportEntries uniqueId ps) []
    (by simpa [hkeys] using hdesc)
  unfold populated populate
  rw [show (PlugInManager.getPlugInIdList
      ({ DrmManager.init with mPlugInManager := ⟨ps⟩ } : DrmManager).mPlugInManager) =
      ps.map PlugIn.plugInId from rfl, h]
  simpa [DrmManager.init, KeyedVector.empty] using hfold

/-- The first entry `populate` adds whose key declares the MIME type belongs to
the earliest-registered engine whose descriptor declares it. -/
theorem find_supportEntries (uniqueId : Int) (mimeType : String8) (ps : List PlugIn) :
    (match (supportEntries uniqueId ps).find? (fun e => e.1.isSupportedMimeType mimeType) with
      | some e => e.2
      | none => "") = firstDeclaringMime uniqueId mimeType ps := by
  induction ps with
  | nil => rfl
  | cons p rest ih =>
    unfold firstDeclaringMime at ih ⊢
    cases hinfo : p.engine.getSupportInfo uniqueId with
    | none =>
      have hd : declaresMime uniqueId mimeType p = false := by simp [declaresMime, hinfo]
      have he : supportEntries uniqueId (p :: rest) = supportEntries uniqueId rest := by
        simp [supportEntries, hinfo]
      rw [he, ih]
      simp [List.find?, hd]
    | some info =>
      have he : supportEntries uniqueId (p :: rest) =
          (info, p.plugInId) :: supportEntries uniqueId rest := by
        simp [supportEntries, hinfo]
      by_cases hs : info.isSupportedMimeType mimeType = true
      · have hd : declaresMime uniqueId mimeType p = true := by simp [declaresMime, hinfo, hs]
        rw [he]
        simp [List.find?, hd, hs]
      · have hd : declaresMime uniqueId mimeType p = false := by
          simp [declaresMime, hinfo, hs]
        rw [he]
        simp only [List.find?, hs, hd]
        exact ih

end DrmManager

/-! ## Resolution by path -/

namespace DrmManager

end DrmManager

/-! ## Decrypt-session open -/

namespace DrmManager

theorem wrapInt_succ (n : Int) (hmin : INT_MIN ≤ n) (hmax : n < INT_MAX) :
    wrapInt (n + 1) = n + 1 := by
  unfold INT_MIN at hmin
  unfold INT_MAX at hmax
  unfold wrapInt
  omega

/-- While the engines at the head of the list fail, the probing loop of
`openDecryptSession` only passes the handle on and records its calls. -/
theorem openDecryptLoop_append (uniqueId fd offset length : Int) (pre : List PlugIn)
    (ids : List String8) (h : DecryptHandle) (r0 : status_t) (s : DrmManager)
    (hget : ∀ q ∈ pre, s.mPlugInManager.getPlugIn q.plugInId = some q)
    (hfail : allFail uniqueId fd offset length pre h = true) :
    openDecryptLoop uniqueId fd offset length (pre.map PlugIn.plugInId ++ ids) h r0 s =
      openDecryptLoop uniqueId fd offset length ids
        (handleAfter uniqueId fd offset length pre h)
        (lastStatus uniqueId fd offset length pre h r0)
        { s with trace := s.trace ++ probeCalls uniqueId fd offset length pre h } := by
  induction pre generalizing h r0 s with
  | nil => simp [handleAfter, lastStatus, probeCalls]
  | cons p rest ih =>
    have hp := hget p (List.mem_cons_self p rest)
    simp only [allFail, Bool.and_eq_true, decide_eq_true_eq] at hfail
    have hne : ¬ DRM_NO_ERROR = (p.engine.openDecryptSession uniqueId h fd offset length).1 :=
      fun e => hfail.1 e.symm
    rw [List.map_cons, List.cons_append, openDecryptLoop]
    simp only [hp, hne, if_false]
    rw [ih]
    · simp [handleAfter, lastStatus, probeCalls, logCall]
    · intro q hq
      simpa using hget q (List.mem_cons_of_mem p hq)
    · exact hfail.2

theorem handleAfter_decryptId (uniqueId fd offset length : Int) (ps : List PlugIn)
    (h : DecryptHandle)
    (hkeep : ∀ p ∈ ps, ∀ h1 : DecryptHandle,
      (p.engine.openDecryptSession uniqueId h1 fd offset length).2.decryptId = h1.decryptId) :
    (handleAfter uniqueId fd offset length ps h).decryptId = h.decryptId := by
  induction ps generalizing h with
  | nil => rfl
  | cons p rest ih =>
    simp only [handleAfter]
    rw [ih _ (fun q hq => hkeep q (List.mem_cons_of_mem p hq)),
      hkeep p (List.mem_cons_self p rest)]

theorem probeCalls_append (uniqueId fd offset length : Int) (ps qs : List PlugIn)
    (h : DecryptHandle) :
    probeCalls uniqueId fd offset length (ps ++ qs) h =
      probeCalls uniqueId fd offset length ps h ++
        probeCalls uniqueId fd offset length qs (handleAfter uniqueId fd offset length ps h) := by
  induction ps generalizing h with
  | nil => rfl
  | cons p rest ih => simp [probeCalls, handleAfter, ih]

theorem probeCalls_ids (uniqueId fd offset length : Int) (ps : List PlugIn)
    (h : DecryptHandle) :
    (probeCalls uniqueId fd offset length ps h).map Prod.fst = ps.map PlugIn.plugInId := by
  induction ps generalizing h with
  | nil => rfl
  | cons p rest ih => simp [probeCalls, ih]

/-- The outcome of the probing when the engines `pre` fail and the next engine
`e` succeeds. -/
theorem openDecryptProbe_success (s : DrmManager) (uniqueId fd offset length : Int)
    (pre post : List PlugIn) (e : PlugIn)
    (hsplit : s.mPlugInManager.plugIns = pre ++ e :: post)
    (hids : (s.mPlugInManager.plugIns.map PlugIn.plugInId).Nodup)
    (hfail : allFail uniqueId fd offset length pre (newDecryptHandle s) = true)
    (hok : (e.engine.openDecryptSession uniqueId
      (handleAfter uniqueId fd offset length pre (newDecryptHandle s)) fd offset length).1 =
        DRM_NO_ERROR) :
    s.openDecryptProbe uniqueId fd offset length =
      (DRM_NO_ERROR,
        (e.engine.openDecryptSession uniqueId
          (handleAfter uniqueId fd offset length pre (newDecryptHandle s)) fd offset length).2,
        { s with
          mDecryptSessionId := wrapInt (s.mDecryptSessionId + 1)
          mDecryptSessionMap := s.mDecryptSessionMap.add (wrapInt (s.mDecryptSessionId + 1)) e
          trace := s.trace ++
            probeCalls uniqueId fd offset length (pre ++ [e]) (newDecryptHandle s) }) := by
  have hget : ∀ q ∈ s.mPlugInManager.plugIns, s.mPlugInManager.getPlugIn q.plugInId = some q :=
    fun q hq => PlugInManager.getPlugIn_of_nodup s.mPlugInManager.plugIns hids q hq
  have hidl : s.mPlugInManager.getPlugInIdList =
      pre.map PlugIn.plugInId ++ (e :: post).map PlugIn.plugInId := by
    simp [PlugInManager.getPlugInIdList, hsplit]
  unfold openDecryptProbe
  rw [hidl, openDecryptLoop_append uniqueId fd offset length pre _ _ _ s
    (fun q hq => hget q (by rw [hsplit]; exact List.mem_append_left _ hq)) hfail]
  have he : s.mPlugInManager.getPlugIn e.plugInId = some e :=
    hget e (by rw [hsplit]; simp)
  simp only [List.map_cons, openDecryptLoop, he, hok, if_true]
  simp [probeCalls_append, probeCalls, logCall]

/-- The outcome of the probing when no engine succeeds. -/
theorem openDecryptProbe_failure (s : DrmManager) (uniqueId fd offset length : Int)
    (hids : (s.mPlugInManager.plugIns.map PlugIn.plugInId).Nodup)
    (hfail : allFail uniqueId fd offset length s.mPlugInManager.plugIns
      (newDecryptHandle s) = true) :
    s.openDecryptProbe uniqueId fd offset length =
      (lastStatus uniqueId fd offset length s.mPlugInManager.plugIns (newDecryptHandle s)
          DRM_ERROR_CANNOT_HANDLE,
        handleAfter uniqueId fd offset length s.mPlugInManager.plugIns (newDecryptHandle s),
        { s with
          trace := s.trace ++ probeCalls uniqueId fd offset length s.mPlugInManager.plugIns
            (newDecryptHandle s) }) := by
  have hget : ∀ q ∈ s.mPlugInManager.plugIns, s.mPlugInManager.getPlugIn q.plugInId = some q :=
    fun q hq => PlugInManager.getPlugIn_of_nodup s.mPlugInManager.plugIns hids q hq
  have := openDecryptLoop_append uniqueId fd offset length s.mPlugInManager.plugIns []
    (newDecryptHandle s) DRM_ERROR_CANNOT_HANDLE s hget hfail
  simpa [openDecryptProbe, PlugInManager.getPlugInIdList, openDecryptLoop] using this

/-- C4: in a state whose decrypt counter `n` is an `int` below `INT_MAX`, with
engines registered under pairwise distinct identifiers as `pre ++ e :: post`,
when the engines `pre` fail and `e` is the first to return success, and engines
do not overwrite the id of the handle, `openDecryptSession` returns a handle
whose id is `n + 1`, the counter becomes `n + 1`, the decrypt map binds `n + 1`
to `e` and binds every other key as before, and the engine calls made are
exactly the probes of `pre` and `e`, so that no engine of `post` is probed. -/
theorem openDecryptSession_binds_first_success (s : DrmManager)
    (uniqueId fd offset length : Int) (pre post : List PlugIn) (e : PlugIn)
    (hsplit : s.mPlugInManager.plugIns = pre ++ e :: post)
    (hids : (s.mPlugInManager.plugIns.map PlugIn.plugInId).Nodup)
    (hfail : allFail uniqueId fd offset length pre (newDecryptHandle s) = true)
    (hok : (e.engine.openDecryptSession uniqueId
      (handleAfter uniqueId fd offset length pre (newDecryptHandle s)) fd offset length).1 =
        DRM_NO_ERROR)
    (hkeep : ∀ p ∈ s.mPlugInManager.plugIns, ∀ h1 : DecryptHandle,
      (p.engine.openDecryptSession uniqueId h1 fd offset length).2.decryptId = h1.decryptId)
    (hmin : INT_MIN ≤ s.mDecryptSessionId) (hmax : s.mDecryptSessionId < INT_MAX) :
    (∃ handle, (s.openDecryptSession uniqueId fd offset length).1 = some handle ∧
      handle.decryptId = s.mDecryptSessionId + 1) ∧
    (s.openDecryptSession uniqueId fd offset length).2.mDecryptSessionId =
      s.mDecryptSessionId + 1 ∧
    (∀ k : Int, (s.openDecryptSession uniqueId fd offset length).2.mDecryptSessionMap.lookup k =
      if k = s.mDecryptSessionId + 1 then some e else s.mDecryptSessionMap.lookup k) ∧
    (s.openDecryptSession uniqueId fd offset length).2.trace =
      s.trace ++ probeCalls uniqueId fd offset length (pre ++ [e]) (newDecryptHandle s) ∧
    (∀ q ∈ post, ∀ c ∈ probeCalls uniqueId fd offset length (pre ++ [e]) (newDecryptHandle s),
      c.1 ≠ q.plugInId) := by
  have hprobe := openDecryptProbe_success s uniqueId fd offset length pre post e hsplit hids
    hfail hok
  have hw := wrapInt_succ s.mDecryptSessionId hmin hmax
  have hne : ¬ DRM_ERROR_CANNOT_HANDLE = DRM_NO_ERROR := by decide
  have hres : s.openDecryptSession uniqueId fd offset length =
      (some (e.engine.openDecryptSession uniqueId
          (handleAfter uniqueId fd offset length pre (newDecryptHandle s)) fd offset length).2,
        { s with
          mDecryptSessionId := s.mDecryptSessionId + 1
          mDecryptSessionMap := s.mDecryptSessionMap.add (s.mDecryptSessionId + 1) e
          trace := s.trace ++
            probeCalls uniqueId fd offset length (pre ++ [e]) (newDecryptHandle s) }) := by
    unfold openDecryptSession
    rw [hprobe, hw]
    simp [hne]
  rw [hres]
  refine ⟨⟨_, rfl, ?_⟩, rfl, ?_, rfl, ?_⟩
  · rw [hkeep e (by rw [hsplit]; simp),
      handleAfter_decryptId uniqueId fd offset length pre _
        (fun p hp => hkeep p (by rw [hsplit]; exact List.mem_append_left _ hp))]
    simp [newDecryptHandle, hw]
  · intro k
    exact KeyedVector.lookup_add s.mDecryptSessionMap (s.mDecryptSessionId + 1) e k
  · intro q hq c hc hcq
    have hmem : c.1 ∈ (pre ++ [e]).map PlugIn.plugInId := by
      rw [← probeCalls_ids uniqueId fd offset length (pre ++ [e]) (newDecryptHandle s)]
      exact List.mem_map_of_mem Prod.fst hc
    rw [hsplit] at hids
    have hsp : pre ++ e :: post = (pre ++ [e]) ++ post := by simp
    rw [hsp, List.map_append, List.nodup_append] at hids
    exact hids.2.2 hmem (by rw [hcq]; exact List.mem_map_of_mem PlugIn.plugInId hq)

/-- C4 at a manager with counter 4 and the engines "refusing", "accepting" and
"spare" registered in this order: the open returns handle 5, the counter is 5,
handle 5 is bound to "accepting", and "spare" is not probed. -/
theorem openDecryptSession_binds_first_success_witness :
    ((managerWith 4 [engineRefusing, engineAccepting, engineSpare]).openDecryptSession
        7 3 0 10).2.mDecryptSessionId = 5 ∧
    (((managerWith 4 [engineRefusing, engineAccepting, engineSpare]).openDecryptSession
        7 3 0 10).2.trace.map Prod.fst) = ["refusing", "accepting"] :=
  have h := openDecryptSession_binds_first_success
    (managerWith 4 [engineRefusing, engineAccepting, engineSpare]) 7 3 0 10
    [engineRefusing] [engineSpare] engineAccepting rfl (by decide) (by decide) (by decide)
    (by
      intro p hp h1
      simp only [managerWith, List.mem_cons, List.mem_singleton, List.not_mem_nil,
        or_false] at hp
      rcases hp with rfl | rfl | rfl <;> rfl)
    (by decide) (by decide)
  ⟨h.2.1, by rw [h.2.2.2.1]; decide⟩

/-- What `openDecryptSession` does when no engine succeeds: the manager changes
only by the record of the probes, and the handle is returned unless the last
status is `DRM_ERROR_CANNOT_HANDLE`. -/
theorem openDecryptSession_of_allFail (s : DrmManager) (uniqueId fd offset length : Int)
    (hids : (s.mPlugInManager.plugIns.map PlugIn.plugInId).Nodup)
    (hfail : allFail uniqueId fd offset length s.mPlugInManager.plugIns
      (newDecryptHandle s) = true) :
    s.openDecryptSession uniqueId fd offset length =
      (if DRM_ERROR_CANNOT_HANDLE =
          lastStatus uniqueId fd offset length s.mPlugInManager.plugIns (newDecryptHandle s)
            DRM_ERROR_CANNOT_HANDLE
        then none
        else some (handleAfter uniqueId fd offset length s.mPlugInManager.plugIns
          (newDecryptHandle s)),
        { s with
          trace := s.trace ++ probeCalls uniqueId fd offset length s.mPlugInManager.plugIns
            (newDecryptHandle s) }) := by
  unfold openDecryptSession
  rw [openDecryptProbe_failure s uniqueId fd offset length hids hfail]
  by_cases h : DRM_ERROR_CANNOT_HANDLE =
      lastStatus uniqueId fd offset length s.mPlugInManager.plugIns (newDecryptHandle s)
        DRM_ERROR_CANNOT_HANDLE
  · simp only [if_pos h]
  · simp only [if_neg h]

/-- C6: when no registered engine returns success from `openDecryptSession`
(engines registered under pairwise distinct identifiers), the decrypt handle
counter and the decrypt session map after `DrmManager::openDecryptSession` are
those before the call; so are the convert counter, the convert map, the
registry and the Capability Index. -/
theorem openDecryptSession_failure_keeps_sessions (s : DrmManager)
    (uniqueId fd offset length : Int)
    (hids : (s.mPlugInManager.plugIns.map PlugIn.plugInId).Nodup)
    (hfail : allFail uniqueId fd offset length s.mPlugInManager.plugIns
      (newDecryptHandle s) = true) :
    (s.openDecryptSession uniqueId fd offset length).2.mDecryptSessionId =
      s.mDecryptSessionId ∧
    (s.openDecryptSession uniqueId fd offset length).2.mDecryptSessionMap =
      s.mDecryptSessionMap ∧
    (s.openDecryptSession uniqueId fd offset length).2.mConvertId = s.mConvertId ∧
    (s.openDecryptSession uniqueId fd offset length).2.mConvertSessionMap =
      s.mConvertSessionMap ∧
    (s.openDecryptSession uniqueId fd offset length).2.mPlugInManager = s.mPlugInManager ∧
    (s.openDecryptSession uniqueId fd offset length).2.mSupportInfoToPlugInIdMap =
      s.mSupportInfoToPlugInIdMap := by
  rw [openDecryptSession_of_allFail s uniqueId fd offset length hids hfail]
  exact ⟨rfl, rfl, rfl, rfl, rfl, rfl⟩

/-- C6 at a manager with counter 4 whose two engines fail, one with
`DRM_ERROR_CANNOT_HANDLE` and one with `DRM_ERROR_UNKNOWN`: the counter is
still 4 and no handle is bound. -/
theorem openDecryptSession_failure_keeps_sessions_witness :
    ((managerWith 4 [engineRefusing, engineBroken]).openDecryptSession
        7 3 0 10).2.mDecryptSessionId = 4 ∧
    ((managerWith 4 [engineRefusing, engineBroken]).openDecryptSession
        7 3 0 10).2.mDecryptSessionMap.size = 0 :=
  have h := openDecryptSession_failure_keeps_sessions
    (managerWith 4 [engineRefusing, engineBroken]) 7 3 0 10 (by decide) (by decide)
  ⟨h.1, by rw [h.2.1]; rfl⟩

/-- C5 fails on the code: the only registered engine fails `openDecryptSession`
with `DRM_ERROR_UNKNOWN`, so no engine returns success, yet
`DrmManager::openDecryptSession` returns a handle (with id 1) instead of the
null handle, while no session is bound and the counter is still 0. -/
theorem openDecryptSession_returns_handle_after_failure :
    allFail 7 3 0 10 (managerWith 0 [engineBroken]).mPlugInManager.plugIns
        (newDecryptHandle (managerWith 0 [engineBroken])) = true ∧
    ((managerWith 0 [engineBroken]).openDecryptSession 7 3 0 10).1 = some ⟨1, "", 0, 0⟩ ∧
    ((managerWith 0 [engineBroken]).openDecryptSession 7 3 0 10).2.mDecryptSessionId = 0 ∧
    ((managerWith 0 [engineBroken]).openDecryptSession 7 3 0 10).2.mDecryptSessionMap.lookup 1 =
      none := by
  refine ⟨by decide, by decide, by decide, ?_⟩
  rfl

end DrmManager

/-! ## Session misses -/

namespace KeyedVector

theorem findEntry_eq_none_iff {K V : Type} [DecidableEq K] (k : K) (l : List (K × V)) :
    findEntry k l = none ↔ k ∉ l.map Prod.fst := by
  induction l with
  | nil => simp [findEntry]
  | cons e rest ih =>
    obtain ⟨k1, v1⟩ := e
    by_cases h : k1 = k
    · simp [findEntry, h]
    · have h2 : ¬ k = k1 := fun e => h e.symm
      simp [findEntry, h, h2, ih]

/-- A key is bound exactly when it is one of the keys. -/
theorem lookup_eq_none_iff {K V : Type} [DecidableEq K] (m : KeyedVector K V) (k : K) :
    m.lookup k = none ↔ k ∉ m.keys :=
  findEntry_eq_none_iff k m.mVector

theorem indexOfKey_of_not_mem {K V : Type} [DecidableEq K] (m : KeyedVector K V) (k : K)
    (h : k ∉ m.keys) : m.indexOfKey k = NAME_NOT_FOUND :=
  (indexOfKey_eq_notFound m k).mpr ((lookup_eq_none_iff m k).mpr h)

end KeyedVector

namespace DrmManager

/-- On a handle whose id is not a key of the decrypt session map, every
operation of the decrypt path returns its failure value and leaves the manager
as it is. -/
theorem decrypt_miss (s : DrmManager) (uniqueId : Int) (decryptHandle : DecryptHandle)
    (hmiss : decryptHandle.decryptId ∉ s.mDecryptSessionMap.keys) :
    (∀ (decryptUnitId : Int) (encBuffer decBuffer : Option DrmBuffer),
      s.decrypt uniqueId decryptHandle decryptUnitId encBuffer decBuffer =
        ((DRM_ERROR_UNKNOWN, decBuffer), s)) ∧
    (∀ numBytes offset : Int,
      s.pread uniqueId decryptHandle numBytes offset = (-1, s)) ∧
    (∀ (decryptUnitId : Int) (headerInfo : Option DrmBuffer),
      s.initializeDecryptUnit uniqueId decryptHandle decryptUnitId headerInfo = s) ∧
    (∀ decryptUnitId : Int,
      s.finalizeDecryptUnit uniqueId decryptHandle decryptUnitId = s) ∧
    (∀ playbackStatus position : Int,
      s.setPlaybackStatus uniqueId decryptHandle playbackStatus position = s) ∧
    (∀ (action : Int) (reserve : Bool),
      s.consumeRights uniqueId decryptHandle action reserve = s) ∧
    s.closeDecryptSession uniqueId decryptHandle = s := by
  have hidx := KeyedVector.indexOfKey_of_not_mem s.mDecryptSessionMap _ hmiss
  refine ⟨?_, ?_, ?_, ?_, ?_, ?_, ?_⟩
  · intro decryptUnitId encBuffer decBuffer
    simp [decrypt, hidx]
  · intro numBytes offset
    simp [pread, hidx, DECRYPT_FILE_ERROR]
  · intro decryptUnitId headerInfo
    simp [initializeDecryptUnit, hidx]
  · intro decryptUnitId
    simp [finalizeDecryptUnit, hidx]
  · intro playbackStatus position
    simp [setPlaybackStatus, hidx]
  · intro action reserve
    simp [consumeRights, hidx]
  · simp [closeDecryptSession, hidx]

/-- On a convert id that is not a key of the convert session map, `convertData`
and `closeConvertSession` return null and leave the manager as it is. -/
theorem convert_miss (s : DrmManager) (uniqueId convertId : Int)
    (hmiss : convertId ∉ s.mConvertSessionMap.keys) :
    (∀ inputData : Option DrmBuffer,
      s.convertData uniqueId convertId inputData = (none, s)) ∧
    s.closeConvertSession uniqueId convertId = (none, s) := by
  have hidx := KeyedVector.indexOfKey_of_not_mem s.mConvertSessionMap _ hmiss
  refine ⟨?_, ?_⟩
  · intro inputData
    simp [convertData, hidx]
  · simp [closeConvertSession, hidx]

/-- C9: a session miss is never forwarded.  When the id of the handle is not a
key of the decrypt session map, `decrypt` returns `DRM_ERROR_UNKNOWN` (and leaves
the output buffer alone), `pread` returns -1, and `initializeDecryptUnit`,
`finalizeDecryptUnit`, `setPlaybackStatus` and `consumeRights` return; when the
convert id is not a key of the convert session map, `convertData` and
`closeConvertSession` return null.  In each case the manager state afterwards
is the state before: no engine call is recorded, and both session maps and
both counters are unchanged. -/
theorem session_miss_not_forwarded (s : DrmManager) (uniqueId : Int) :
    (∀ decryptHandle : DecryptHandle,
      decryptHandle.decryptId ∉ s.mDecryptSessionMap.keys →
        (∀ (decryptUnitId : Int) (encBuffer decBuffer : Option DrmBuffer),
          s.decrypt uniqueId decryptHandle decryptUnitId encBuffer decBuffer =
            ((DRM_ERROR_UNKNOWN, decBuffer), s)) ∧
        (∀ numBytes offset : Int,
          s.pread uniqueId decryptHandle numBytes offset = (-1, s)) ∧
        (∀ (decryptUnitId : Int) (headerInfo : Option DrmBuffer),
          s.initializeDecryptUnit uniqueId decryptHandle decryptUnitId headerInfo = s) ∧
        (∀ decryptUnitId : Int,
          s.finalizeDecryptUnit uniqueId decryptHandle decryptUnitId = s) ∧
        (∀ playbackStatus position : Int,
          s.setPlaybackStatus uniqueId decryptHandle playbackStatus position = s) ∧
        (∀ (action : Int) (reserve : Bool),
          s.consumeRights uniqueId decryptHandle action reserve = s)) ∧
    (∀ convertId : Int, convertId ∉ s.mConvertSessionMap.keys →
        (∀ inputData : Option DrmBuffer,
          s.convertData uniqueId convertId inputData = (none, s)) ∧
        s.closeConvertSession uniqueId convertId = (none, s)) := by
  constructor
  · intro decryptHandle hmiss
    have h := decrypt_miss s uniqueId decryptHandle hmiss
    exact ⟨h.1, h.2.1, h.2.2.1, h.2.2.2.1, h.2.2.2.2.1, h.2.2.2.2.2.1⟩
  · intro convertId hmiss
    exact convert_miss s uniqueId convertId hmiss

/-- C9 at a manager without sessions: `decrypt` with handle id 9 fails with
`DRM_ERROR_UNKNOWN` and `closeConvertSession(9)` returns null, and no engine call
is recorded. -/
theorem session_miss_not_forwarded_witness :
    ((managerAB.decrypt 7 ⟨9, "", 0, 0⟩ 0 none none).1.1 = DRM_ERROR_UNKNOWN ∧
      (managerAB.decrypt 7 ⟨9, "", 0, 0⟩ 0 none none).2.trace = managerAB.trace) ∧
    (managerAB.closeConvertSession 7 9).1 = none :=
  have h := session_miss_not_forwarded managerAB 7
  have hd := (h.1 ⟨9, "", 0, 0⟩ (by decide)).1 0 none none
  have hc := (h.2 9 (by decide)).2
  ⟨⟨by rw [hd], by rw [hd]⟩, by rw [hc]⟩

/-! ## Convert-session open -/

/-- C10: `openConvertSession` resolves by MIME type only.  When MIME resolution
of `mimeType` yields the identifier of a loaded engine `e` and the convert
counter `c` is an `int` below `INT_MAX`, it returns `c + 1`, the counter
becomes `c + 1`, the convert map binds `c + 1` to `e` and every other key as
before, and the only engine call made is `e.openConvertSession(uniqueId, c + 1)`.
When MIME resolution is unresolved (always so for the empty MIME type) it
returns -1 and the state afterwards is the state before: no engine is called,
and the convert counter and convert map are unchanged.  No `canHandle` probe is
made in either case. -/
theorem openConvertSession_by_mime_only (s : DrmManager) (uniqueId : Int)
    (mimeType : String8) :
    (∀ e : PlugIn, s.getSupportedPlugInId mimeType ≠ "" →
      s.mPlugInManager.getPlugIn (s.getSupportedPlugInId mimeType) = some e →
      INT_MIN ≤ s.mConvertId → s.mConvertId < INT_MAX →
        (s.openConvertSession uniqueId mimeType).1 = s.mConvertId + 1 ∧
        (s.openConvertSession uniqueId mimeType).2.mConvertId = s.mConvertId + 1 ∧
        (∀ k : Int, (s.openConvertSession uniqueId mimeType).2.mConvertSessionMap.lookup k =
          if k = s.mConvertId + 1 then some e else s.mConvertSessionMap.lookup k) ∧
        (s.openConvertSession uniqueId mimeType).2.trace =
          s.trace ++ [(e.plugInId, EngineCall.openConvertSession uniqueId (s.mConvertId + 1))]) ∧
    (s.getSupportedPlugInId mimeType = "" →
      s.openConvertSession uniqueId mimeType = (-1, s)) ∧
    s.openConvertSession uniqueId "" = (-1, s) := by
  refine ⟨?_, ?_, ?_⟩
  · intro e hres hget hmin hmax
    have hw := wrapInt_succ s.mConvertId hmin hmax
    have hne : EMPTY_STRING ≠ s.getSupportedPlugInId mimeType := fun h => hres h.symm
    have hid := PlugInManager.getPlugIn_plugInId _ _ _ hget
    have hopen : s.openConvertSession uniqueId mimeType =
        (s.mConvertId + 1,
          { s with
            mConvertId := s.mConvertId + 1
            mConvertSessionMap := s.mConvertSessionMap.add (s.mConvertId + 1) e
            trace := s.trace ++
              [(e.plugInId, EngineCall.openConvertSession uniqueId (s.mConvertId + 1))] }) := by
      unfold openConvertSession
      simp only [hne, ne_eq, not_false_eq_true, if_true, hget, hw, hid, logCall]
    rw [hopen]
    refine ⟨rfl, rfl, ?_, rfl⟩
    intro k
    exact KeyedVector.lookup_add s.mConvertSessionMap (s.mConvertId + 1) e k
  · intro hres
    simp [openConvertSession, hres, EMPTY_STRING]
  · simp [openConvertSession, getSupportedPlugInId_empty, EMPTY_STRING]

/-- C10 at a manager with engines A and B indexed and convert counter 4:
opening a convert session for "application/x-b" returns 5 and calls only
B's `openConvertSession` with 5, although B rejects every path. -/
theorem openConvertSession_by_mime_only_witness :
    (managerAB.openConvertSession 7 "application/x-b").1 = 5 ∧
    (managerAB.openConvertSession 7 "application/x-b").2.trace =
      managerAB.trace ++ [("B", EngineCall.openConvertSession 7 5)] :=
  have h := (openConvertSession_by_mime_only managerAB 7 "application/x-b").1
    ⟨"B", exampleEngine (some infoB) false DRM_NO_ERROR⟩ (by decide) rfl (by decide) (by decide)
  ⟨h.1, h.2.2.2⟩

end DrmManager

/-! ## What each operation leaves unchanged -/

namespace DrmManager

theorem sameRegistry_refl (s : DrmManager) : SameRegistry s s :=
  ⟨rfl, rfl, rfl, rfl, rfl⟩

theorem sameRegistry_trans {s t u : DrmManager} (h1 : SameRegistry s t)
    (h2 : SameRegistry t u) : SameRegistry s u :=
  ⟨h2.1.trans h1.1, h2.2.1.trans h1.2.1, h2.2.2.1.trans h1.2.2.1,
    h2.2.2.2.1.trans h1.2.2.2.1, h2.2.2.2.2.trans h1.2.2.2.2⟩

theorem sameRegistry_logCall (s : DrmManager) (i : String8) (c : EngineCall) :
    SameRegistry s (s.logCall i c) :=
  ⟨rfl, rfl, rfl, rfl, rfl⟩

theorem sameRegistry_canHandleLoop (uniqueId : Int) (path : String8) (ids : List String8)
    (s : DrmManager) : SameRegistry s (canHandleLoop uniqueId path ids s).2 := by
  induction ids generalizing s with
  | nil => exact sameRegistry_refl s
  | cons i rest ih =>
    unfold canHandleLoop
    cases hg : s.mPlugInManager.getPlugIn i with
    | none => exact ih s
    | some e =>
      by_cases hc : e.engine.canHandle uniqueId path = true
      · simp only [hc, if_true]
        exact sameRegistry_logCall s _ _
      · simp only [hc, Bool.false_eq_true, if_false]
        exact sameRegistry_trans (sameRegistry_logCall s _ _) (ih _)

theorem sameRegistry_initializePlugInsLoop (uniqueId : Int) (ids : List String8)
    (s : DrmManager) : SameRegistry s (initializePlugInsLoop uniqueId ids s) := by
  induction ids generalizing s with
  | nil => exact sameRegistry_refl s
  | cons i rest ih =>
    unfold initializePlugInsLoop
    cases hg : s.mPlugInManager.getPlugIn i with
    | none => exact ih s
    | some e =>
      exact sameRegistry_trans (sameRegistry_trans (sameRegistry_logCall s _ _) (sameRegistry_logCall _ _ _)) (ih _)

theorem sameRegistry_terminateLoop (uniqueId : Int) (ids : List String8) (s : DrmManager) :
    SameRegistry s (terminateLoop uniqueId ids s) := by
  induction ids generalizing s with
  | nil => exact sameRegistry_refl s
  | cons i rest ih =>
    unfold terminateLoop
    cases hg : s.mPlugInManager.getPlugIn i with
    | none => exact ih s
    | some e => exact sameRegistry_trans (sameRegistry_logCall s _ _) (ih _)

theorem sameRegistry_populateLoop (uniqueId : Int) (ids : List String8) (s : DrmManager) :
    SameRegistry s (populateLoop uniqueId ids s) := by
  induction ids generalizing s with
  | nil => exact sameRegistry_refl s
  | cons i rest ih =>
    unfold populateLoop
    cases hg : s.mPlugInManager.getPlugIn i with
    | none => exact ih s
    | some e =>
      cases hinfo : e.engine.getSupportInfo uniqueId with
      | none =>
        simp only [hinfo]
        exact sameRegistry_trans (sameRegistry_logCall s _ _) (ih _)
      | some info =>
        simp only [hinfo]
        refine sameRegistry_trans ?_ (ih _)
        exact ⟨rfl, rfl, rfl, rfl, rfl⟩

/-- The lookups on a decrypt session change nothing but the record of calls. -/
theorem sameRegistry_lookups (s : DrmManager) (uniqueId : Int)
    (decryptHandle : DecryptHandle) :
    (∀ (decryptUnitId : Int) (headerInfo : Option DrmBuffer),
      SameRegistry s (s.initializeDecryptUnit uniqueId decryptHandle decryptUnitId headerInfo)) ∧
    (∀ (decryptUnitId : Int) (encBuffer decBuffer : Option DrmBuffer),
      SameRegistry s (s.decrypt uniqueId decryptHandle decryptUnitId encBuffer decBuffer).2) ∧
    (∀ decryptUnitId : Int,
      SameRegistry s (s.finalizeDecryptUnit uniqueId decryptHandle decryptUnitId)) ∧
    (∀ numBytes offset : Int,
      SameRegistry s (s.pread uniqueId decryptHandle numBytes offset).2) ∧
    (∀ (action : Int) (reserve : Bool),
      SameRegistry s (s.consumeRights uniqueId decryptHandle action reserve)) ∧
    (∀ playbackStatus position : Int,
      SameRegistry s (s.setPlaybackStatus uniqueId decryptHandle playbackStatus position)) := by
  refine ⟨?_, ?_, ?_, ?_, ?_, ?_⟩
  · intro a b
    unfold initializeDecryptUnit
    split
    · split
      · exact sameRegistry_refl s
      · exact sameRegistry_logCall s _ _
    · exact sameRegistry_refl s
  · intro a b c
    unfold decrypt
    split
    · split
      · exact sameRegistry_refl s
      · exact sameRegistry_logCall s _ _
    · exact sameRegistry_refl s
  · intro a
    unfold finalizeDecryptUnit
    split
    · split
      · exact sameRegistry_refl s
      · exact sameRegistry_logCall s _ _
    · exact sameRegistry_refl s
  · intro a b
    unfold pread
    split
    · split
      · exact sameRegistry_refl s
      · exact sameRegistry_logCall s _ _
    · exact sameRegistry_refl s
  · intro a b
    unfold consumeRights
    split
    · split
      · exact sameRegistry_refl s
      · exact sameRegistry_logCall s _ _
    · exact sameRegistry_refl s
  · intro a b
    unfold setPlaybackStatus
    split
    · split
      · exact sameRegistry_refl s
      · exact sameRegistry_logCall s _ _
    · exact sameRegistry_refl s

theorem sameRegistry_convertData (s : DrmManager) (uniqueId convertId : Int)
    (inputData : Option DrmBuffer) :
    SameRegistry s (s.convertData uniqueId convertId inputData).2 := by
  unfold convertData
  split
  · split
    · exact sameRegistry_refl s
    · exact sameRegistry_logCall s _ _
  · exact sameRegistry_refl s

/-- `closeDecryptSession` changes the decrypt session map only, and only by
removing one key. -/
theorem closeDecryptSession_frame (s : DrmManager) (uniqueId : Int)
    (decryptHandle : DecryptHandle) :
    (s.closeDecryptSession uniqueId decryptHandle).mDecryptSessionId = s.mDecryptSessionId ∧
    (s.closeDecryptSession uniqueId decryptHandle).mConvertId = s.mConvertId ∧
    (s.closeDecryptSession uniqueId decryptHandle).mConvertSessionMap = s.mConvertSessionMap ∧
    (s.closeDecryptSession uniqueId decryptHandle).mPlugInManager = s.mPlugInManager ∧
    ((s.closeDecryptSession uniqueId decryptHandle).mDecryptSessionMap = s.mDecryptSessionMap ∨
      ∃ key : Int, (s.closeDecryptSession uniqueId decryptHandle).mDecryptSessionMap =
        s.mDecryptSessionMap.removeItem key) := by
  unfold closeDecryptSession
  split
  · split
    · exact ⟨rfl, rfl, rfl, rfl, Or.inl rfl⟩
    · exact ⟨rfl, rfl, rfl, rfl, Or.inr ⟨_, rfl⟩⟩
  · exact ⟨rfl, rfl, rfl, rfl, Or.inl rfl⟩

/-- `closeConvertSession` changes the convert session map only, and only by
removing the convert id. -/
theorem closeConvertSession_frame (s : DrmManager) (uniqueId convertId : Int) :
    (s.closeConvertSession uniqueId convertId).2.mDecryptSessionId = s.mDecryptSessionId ∧
    (s.closeConvertSession uniqueId convertId).2.mConvertId = s.mConvertId ∧
    (s.closeConvertSession uniqueId convertId).2.mDecryptSessionMap = s.mDecryptSessionMap ∧
    (s.closeConvertSession uniqueId convertId).2.mPlugInManager = s.mPlugInManager ∧
    ((s.closeConvertSession uniqueId convertId).2.mConvertSessionMap = s.mConvertSessionMap ∨
      (s.closeConvertSession uniqueId convertId).2.mConvertSessionMap =
        s.mConvertSessionMap.removeItem convertId) := by
  unfold closeConvertSession
  split
  · split
    · exact ⟨rfl, rfl, rfl, rfl, Or.inl rfl⟩
    · exact ⟨rfl, rfl, rfl, rfl, Or.inr rfl⟩
  · exact ⟨rfl, rfl, rfl, rfl, Or.inl rfl⟩

/-- `openConvertSession` either changes nothing and returns -1, or advances the
convert counter by one (as an `int`), returns it and binds it; it leaves the
decrypt counter, the decrypt session map and the engine registry alone. -/
theorem openConvertSession_frame (s : DrmManager) (uniqueId : Int) (mimeType : String8) :
    (s.openConvertSession uniqueId mimeType).2.mDecryptSessionId = s.mDecryptSessionId ∧
    (s.openConvertSession uniqueId mimeType).2.mDecryptSessionMap = s.mDecryptSessionMap ∧
    (s.openConvertSession uniqueId mimeType).2.mPlugInManager = s.mPlugInManager ∧
    (s.openConvertSession uniqueId mimeType = (-1, s) ∨
      ((s.openConvertSession uniqueId mimeType).1 = wrapInt (s.mConvertId + 1) ∧
        (s.openConvertSession uniqueId mimeType).2.mConvertId = wrapInt (s.mConvertId + 1) ∧
        ∃ e, (s.openConvertSession uniqueId mimeType).2.mConvertSessionMap =
          s.mConvertSessionMap.add (wrapInt (s.mConvertId + 1)) e)) := by
  by_cases hres : EMPTY_STRING ≠ s.getSupportedPlugInId mimeType
  · cases hg : s.mPlugInManager.getPlugIn (s.getSupportedPlugInId mimeType) with
    | none =>
      have hopen : s.openConvertSession uniqueId mimeType = (-1, s) := by
        unfold openConvertSession
        simp only [hres, ne_eq, not_false_eq_true, if_true, hg]
      rw [hopen]
      exact ⟨rfl, rfl, rfl, Or.inl rfl⟩
    | some e =>
      have hopen : s.openConvertSession uniqueId mimeType =
          (wrapInt (s.mConvertId + 1),
            { s with
              mConvertId := wrapInt (s.mConvertId + 1)
              mConvertSessionMap := s.mConvertSessionMap.add (wrapInt (s.mConvertId + 1)) e
              trace := s.trace ++ [(s.getSupportedPlugInId mimeType,
                EngineCall.openConvertSession uniqueId (wrapInt (s.mConvertId + 1)))] }) := by
        unfold openConvertSession
        simp only [hres, ne_eq, not_false_eq_true, if_true, hg, logCall]
      rw [hopen]
      exact ⟨rfl, rfl, rfl, Or.inr ⟨rfl, rfl, e, rfl⟩⟩
  · have hopen : s.openConvertSession uniqueId mimeType = (-1, s) := by
      unfold openConvertSession
      simp only [hres, if_false]
    rw [hopen]
    exact ⟨rfl, rfl, rfl, Or.inl rfl⟩

/-- The probing loop of `openDecryptSession`, started with a status that is not
success, either ends with a failure status and the sessions as they were, or
ends with success, the decrypt counter advanced by one (as an `int`) and bound;
it leaves the convert counter, the convert session map and the engine registry
alone; and it returns the handle with the id it was given when the engines it
visits keep the id. -/
theorem openDecryptLoop_frame (uniqueId fd offset length : Int) (ids : List String8)
    (h : DecryptHandle) (r0 : status_t) (s : DrmManager) (hr0 : r0 ≠ DRM_NO_ERROR) :
    (openDecryptLoop uniqueId fd offset length ids h r0 s).2.2.mConvertId = s.mConvertId ∧
    (openDecryptLoop uniqueId fd offset length ids h r0 s).2.2.mConvertSessionMap =
      s.mConvertSessionMap ∧
    (openDecryptLoop uniqueId fd offset length ids h r0 s).2.2.mPlugInManager =
      s.mPlugInManager ∧
    (((openDecryptLoop uniqueId fd offset length ids h r0 s).1 ≠ DRM_NO_ERROR ∧
        (openDecryptLoop uniqueId fd offset length ids h r0 s).2.2.mDecryptSessionId =
          s.mDecryptSessionId ∧
        (openDecryptLoop uniqueId fd offset length ids h r0 s).2.2.mDecryptSessionMap =
          s.mDecryptSessionMap) ∨
      ((openDecryptLoop uniqueId fd offset length ids h r0 s).1 = DRM_NO_ERROR ∧
        (openDecryptLoop uniqueId fd offset length ids h r0 s).2.2.mDecryptSessionId =
          wrapInt (s.mDecryptSessionId + 1) ∧
        ∃ e, (openDecryptLoop uniqueId fd offset length ids h r0 s).2.2.mDecryptSessionMap =
          s.mDecryptSessionMap.add (wrapInt (s.mDecryptSessionId + 1)) e)) ∧
    ((∀ p ∈ s.mPlugInManager.plugIns, KeepsDecryptId p) →
      (openDecryptLoop uniqueId fd offset length ids h r0 s).2.1.decryptId = h.decryptId) := by
  induction ids generalizing h r0 s with
  | nil => exact ⟨rfl, rfl, rfl, Or.inl ⟨hr0, rfl, rfl⟩, fun _ => rfl⟩
  | cons i rest ih =>
    cases hg : s.mPlugInManager.getPlugIn i with
    | none =>
      have hloop : openDecryptLoop uniqueId fd offset length (i :: rest) h r0 s =
          openDecryptLoop uniqueId fd offset length rest h r0 s := by
        rw [openDecryptLoop]
        simp only [hg]
      rw [hloop]
      exact ih h r0 s hr0
    | some e =>
      by_cases hok : DRM_NO_ERROR = (e.engine.openDecryptSession uniqueId h fd offset length).1
      · have hloop : openDecryptLoop uniqueId fd offset length (i :: rest) h r0 s =
            ((e.engine.openDecryptSession uniqueId h fd offset length).1,
              (e.engine.openDecryptSession uniqueId h fd offset length).2,
              { s with
                mDecryptSessionId := wrapInt (s.mDecryptSessionId + 1)
                mDecryptSessionMap :=
                  s.mDecryptSessionMap.add (wrapInt (s.mDecryptSessionId + 1)) e
                trace := s.trace ++
                  [(i, EngineCall.openDecryptSession uniqueId h fd offset length)] }) := by
          rw [openDecryptLoop]
          simp only [hg, if_pos hok, logCall]
        rw [hloop]
        refine ⟨rfl, rfl, rfl, Or.inr ⟨hok.symm, rfl, e, rfl⟩, ?_⟩
        intro hk
        exact hk e (PlugInManager.getPlugIn_mem _ _ _ hg) uniqueId h fd offset length
      · have hloop : openDecryptLoop uniqueId fd offset length (i :: rest) h r0 s =
            openDecryptLoop uniqueId fd offset length rest
              (e.engine.openDecryptSession uniqueId h fd offset length).2
              (e.engine.openDecryptSession uniqueId h fd offset length).1
              (s.logCall i (EngineCall.openDecryptSession uniqueId h fd offset length)) := by
          rw [openDecryptLoop]
          simp only [hg, if_neg hok]
        have hne : (e.engine.openDecryptSession uniqueId h fd offset length).1 ≠ DRM_NO_ERROR :=
          fun c => hok c.symm
        have := ih (e.engine.openDecryptSession uniqueId h fd offset length).2
          (e.engine.openDecryptSession uniqueId h fd offset length).1
          (s.logCall i (EngineCall.openDecryptSession uniqueId h fd offset length)) hne
        rw [hloop]
        refine ⟨this.1, this.2.1, this.2.2.1, this.2.2.2.1, ?_⟩
        intro hk
        rw [this.2.2.2.2 hk]
        exact hk e (PlugInManager.getPlugIn_mem _ _ _ hg) uniqueId h fd offset length

end DrmManager

namespace KeyedVector

theorem mem_keys_iff {K V : Type} [DecidableEq K] (m : KeyedVector K V) (k : K) :
    k ∈ m.keys ↔ m.lookup k ≠ none := by
  rw [ne_eq, lookup_eq_none_iff, not_not]

theorem mem_keys_add {K V : Type} [DecidableEq K] (m : KeyedVector K V) (a : K) (v : V)
    (k : K) : k ∈ (m.add a v).keys ↔ k = a ∨ k ∈ m.keys := by
  rw [mem_keys_iff, mem_keys_iff, lookup_add]
  by_cases h : k = a
  · simp [h]
  · simp [h]

theorem mem_keys_removeItem {K V : Type} [DecidableEq K] (m : KeyedVector K V) (a k : K) :
    k ∈ (m.removeItem a).keys ↔ k ≠ a ∧ k ∈ m.keys := by
  rw [mem_keys_iff, mem_keys_iff, lookup_removeItem]
  by_cases h : k = a
  · simp [h]
  · simp [h]

theorem keys_clear {K V : Type} (m : KeyedVector K V) : m.clear.keys = [] := rfl

end KeyedVector

namespace PlugInManager

theorem mem_loadPlugIn (pm : PlugInManager) (q p : PlugIn) (h : p ∈ (pm.loadPlugIn q).plugIns) :
    p ∈ pm.plugIns ∨ p = q := by
  unfold loadPlugIn at h
  split at h
  · exact Or.inl h
  · simpa using h

/-- Loading adds engines of the directory only. -/
theorem mem_loadPlugIns (found : List PlugIn) (pm : PlugInManager) (p : PlugIn)
    (h : p ∈ (pm.loadPlugIns found).plugIns) : p ∈ pm.plugIns ∨ p ∈ found := by
  induction found generalizing pm with
  | nil => exact Or.inl h
  | cons q rest ih =>
    have h2 : p ∈ ((pm.loadPlugIn q).loadPlugIns rest).plugIns := h
    rcases ih (pm.loadPlugIn q) h2 with h3 | h3
    · rcases mem_loadPlugIn pm q p h3 with h4 | h4
      · exact Or.inl h4
      · exact Or.inr (h4 ▸ List.mem_cons_self q rest)
    · exact Or.inr (List.mem_cons_of_mem q h3)

end PlugInManager

namespace DrmManager

/-- `loadPlugIns` leaves the counters and the session maps alone, and the
engines registered afterwards were registered before or found in the directory. -/
theorem loadPlugIns_frame (s : DrmManager) (uniqueId : Int) (found : List PlugIn) :
    (s.loadPlugIns uniqueId found).2.mDecryptSessionId = s.mDecryptSessionId ∧
    (s.loadPlugIns uniqueId found).2.mConvertId = s.mConvertId ∧
    (s.loadPlugIns uniqueId found).2.mDecryptSessionMap = s.mDecryptSessionMap ∧
    (s.loadPlugIns uniqueId found).2.mConvertSessionMap = s.mConvertSessionMap ∧
    (∀ p ∈ (s.loadPlugIns uniqueId found).2.mPlugInManager.plugIns,
      p ∈ s.mPlugInManager.plugIns ∨ p ∈ found) := by
  by_cases he : s.mSupportInfoToPlugInIdMap.isEmpty = true
  · have hload : (s.loadPlugIns uniqueId found).2 =
        (({ s with mPlugInManager := s.mPlugInManager.loadPlugIns found } :
          DrmManager).initializePlugIns uniqueId).populate uniqueId := by
      unfold loadPlugIns
      simp only [he, if_true]
    have h1 := sameRegistry_initializePlugInsLoop uniqueId
      (s.mPlugInManager.loadPlugIns found).getPlugInIdList
      { s with mPlugInManager := s.mPlugInManager.loadPlugIns found }
    have h2 := sameRegistry_populateLoop uniqueId
      ((({ s with mPlugInManager := s.mPlugInManager.loadPlugIns found } :
        DrmManager).initializePlugIns uniqueId).mPlugInManager.getPlugInIdList)
      (({ s with mPlugInManager := s.mPlugInManager.loadPlugIns found } :
        DrmManager).initializePlugIns uniqueId)
    have h3 := sameRegistry_trans h1 h2
    rw [hload]
    refine ⟨h3.1, h3.2.1, h3.2.2.1, h3.2.2.2.1, ?_⟩
    intro p hp
    have hpm : ((({ s with mPlugInManager := s.mPlugInManager.loadPlugIns found } :
        DrmManager).initializePlugIns uniqueId).populate uniqueId).mPlugInManager =
        s.mPlugInManager.loadPlugIns found := h3.2.2.2.2
    rw [hpm] at hp
    exact PlugInManager.mem_loadPlugIns found s.mPlugInManager p hp
  · have hload : (s.loadPlugIns uniqueId found).2 = s.initializePlugIns uniqueId := by
      unfold loadPlugIns
      simp only [he, Bool.false_eq_true, if_false]
    have h1 := sameRegistry_initializePlugInsLoop uniqueId s.mPlugInManager.getPlugInIdList s
    rw [hload]
    refine ⟨h1.1, h1.2.1, h1.2.2.1, h1.2.2.2.1, ?_⟩
    intro p hp
    have hpm : (s.initializePlugIns uniqueId).mPlugInManager = s.mPlugInManager := h1.2.2.2.2
    rw [hpm] at hp
    exact Or.inl hp

/-- `unloadPlugIns` leaves the counters alone, empties both session maps and
unregisters every engine. -/
theorem unloadPlugIns_frame (s : DrmManager) (uniqueId : Int) :
    (s.unloadPlugIns uniqueId).2.mDecryptSessionId = s.mDecryptSessionId ∧
    (s.unloadPlugIns uniqueId).2.mConvertId = s.mConvertId ∧
    (s.unloadPlugIns uniqueId).2.mDecryptSessionMap.keys = [] ∧
    (s.unloadPlugIns uniqueId).2.mConvertSessionMap.keys = [] ∧
    (s.unloadPlugIns uniqueId).2.mPlugInManager.plugIns = [] := by
  have h1 := sameRegistry_terminateLoop uniqueId s.mPlugInManager.getPlugInIdList s
  exact ⟨h1.1, h1.2.1, rfl, rfl, rfl⟩

/-- `openDecryptSession` leaves the convert counter, the convert session map and
the engine registry alone; when no engine succeeds it leaves the decrypt counter
and the decrypt session map alone too, and otherwise it advances the decrypt
counter by one (as an `int`), binds it, and returns a handle, whose id is the
new counter value when the engines keep the handle id. -/
theorem openDecryptSession_frame (s : DrmManager) (uniqueId fd offset length : Int) :
    (s.openDecryptSession uniqueId fd offset length).2.mConvertId = s.mConvertId ∧
    (s.openDecryptSession uniqueId fd offset length).2.mConvertSessionMap =
      s.mConvertSessionMap ∧
    (s.openDecryptSession uniqueId fd offset length).2.mPlugInManager = s.mPlugInManager ∧
    (((s.openDecryptProbe uniqueId fd offset length).1 ≠ DRM_NO_ERROR ∧
        (s.openDecryptSession uniqueId fd offset length).2.mDecryptSessionId =
          s.mDecryptSessionId ∧
        (s.openDecryptSession uniqueId fd offset length).2.mDecryptSessionMap =
          s.mDecryptSessionMap) ∨
      ((s.openDecryptProbe uniqueId fd offset length).1 = DRM_NO_ERROR ∧
        (s.openDecryptSession uniqueId fd offset length).2.mDecryptSessionId =
          wrapInt (s.mDecryptSessionId + 1) ∧
        (∃ e, (s.openDecryptSession uniqueId fd offset length).2.mDecryptSessionMap =
          s.mDecryptSessionMap.add (wrapInt (s.mDecryptSessionId + 1)) e) ∧
        (∃ handle, (s.openDecryptSession uniqueId fd offset length).1 = some handle ∧
          ((∀ p ∈ s.mPlugInManager.plugIns, KeepsDecryptId p) →
            handle.decryptId = wrapInt (s.mDecryptSessionId + 1))))) := by
  have hf := openDecryptLoop_frame uniqueId fd offset length s.mPlugInManager.getPlugInIdList
    (newDecryptHandle s) DRM_ERROR_CANNOT_HANDLE s (by decide)
  have hstate : (s.openDecryptSession uniqueId fd offset length).2 =
      (s.openDecryptProbe uniqueId fd offset length).2.2 := by
    unfold openDecryptSession
    by_cases hc : DRM_ERROR_CANNOT_HANDLE = (s.openDecryptProbe uniqueId fd offset length).1
    · simp only [if_pos hc]
    · simp only [if_neg hc]
  rw [hstate]
  refine ⟨hf.1, hf.2.1, hf.2.2.1, ?_⟩
  rcases hf.2.2.2.1 with h | h
  · exact Or.inl h
  · refine Or.inr ⟨h.1, h.2.1, h.2.2, (s.openDecryptProbe uniqueId fd offset length).2.1, ?_, ?_⟩
    · have h1 : (s.openDecryptProbe uniqueId fd offset length).1 = DRM_NO_ERROR := h.1
      have hc : ¬ DRM_ERROR_CANNOT_HANDLE = (s.openDecryptProbe uniqueId fd offset length).1 := by
        rw [h1]
        decide
      unfold openDecryptSession
      simp only [if_neg hc]
    · intro hk
      exact hf.2.2.2.2 hk

end DrmManager

/-! ## Handles over sequences of operations -/

namespace DrmManager

/-- One operation seen from the decrypt handle space: either it is not a
successful decrypt open, and then the decrypt counter stays and the decrypt
session map gains no key; or it is one, and then the counter advances by one
(as an `int`), the only key the map can gain is the new counter value, and the
handle returned carries that value when the engines keep the handle id. -/
theorem step_decrypt (s : DrmManager) (op : Op) :
    (decryptOpened s op = none ∧
      (step s op).mDecryptSessionId = s.mDecryptSessionId ∧
      ∀ k ∈ (step s op).mDecryptSessionMap.keys, k ∈ s.mDecryptSessionMap.keys) ∨
    ((decryptOpened s op).isSome = true ∧
      ((∀ p ∈ s.mPlugInManager.plugIns, KeepsDecryptId p) →
        decryptOpened s op = some (wrapInt (s.mDecryptSessionId + 1))) ∧
      (step s op).mDecryptSessionId = wrapInt (s.mDecryptSessionId + 1) ∧
      ∀ k ∈ (step s op).mDecryptSessionMap.keys,
        k = wrapInt (s.mDecryptSessionId + 1) ∨ k ∈ s.mDecryptSessionMap.keys) := by
  have same : ∀ t : DrmManager, SameRegistry s t →
      t.mDecryptSessionId = s.mDecryptSessionId ∧
      ∀ k ∈ t.mDecryptSessionMap.keys, k ∈ s.mDecryptSessionMap.keys := by
    intro t ht
    refine ⟨ht.1, ?_⟩
    rw [ht.2.2.1]
    exact fun k hk => hk
  cases op with
  | openDecryptSession uniqueId fd offset length =>
    have hf := (openDecryptSession_frame s uniqueId fd offset length).2.2.2
    rcases hf with h | h
    · left
      refine ⟨?_, h.2.1, ?_⟩
      · simp [decryptOpened, h.1]
      · show ∀ k ∈ (s.openDecryptSession uniqueId fd offset length).2.mDecryptSessionMap.keys, _
        rw [h.2.2]
        exact fun k hk => hk
    · right
      obtain ⟨hok, hctr, ⟨e, hmap⟩, handle, hret, hid⟩ := h
      refine ⟨?_, ?_, hctr, ?_⟩
      · simp [decryptOpened, hok, hret]
      · intro hk
        simp [decryptOpened, hok, hret, hid hk]
      · show ∀ k ∈ (s.openDecryptSession uniqueId fd offset length).2.mDecryptSessionMap.keys, _
        rw [hmap]
        intro k hk
        exact (KeyedVector.mem_keys_add _ _ _ _).mp hk
  | closeDecryptSession uniqueId decryptHandle =>
    left
    have hf := closeDecryptSession_frame s uniqueId decryptHandle
    refine ⟨rfl, hf.1, ?_⟩
    show ∀ k ∈ (s.closeDecryptSession uniqueId decryptHandle).mDecryptSessionMap.keys, _
    rcases hf.2.2.2.2 with h | ⟨key, h⟩
    · rw [h]
      exact fun k hk => hk
    · rw [h]
      intro k hk
      exact ((KeyedVector.mem_keys_removeItem _ _ _).mp hk).2
  | initializeDecryptUnit uniqueId decryptHandle decryptUnitId headerInfo =>
    exact Or.inl ⟨rfl, same _ ((sameRegistry_lookups s uniqueId decryptHandle).1 _ _)⟩
  | decrypt uniqueId decryptHandle decryptUnitId encBuffer decBuffer =>
    exact Or.inl ⟨rfl, same _ ((sameRegistry_lookups s uniqueId decryptHandle).2.1 _ _ _)⟩
  | finalizeDecryptUnit uniqueId decryptHandle decryptUnitId =>
    exact Or.inl ⟨rfl, same _ ((sameRegistry_lookups s uniqueId decryptHandle).2.2.1 _)⟩
  | pread uniqueId decryptHandle numBytes offset =>
    exact Or.inl ⟨rfl, same _ ((sameRegistry_lookups s uniqueId decryptHandle).2.2.2.1 _ _)⟩
  | consumeRights uniqueId decryptHandle action reserve =>
    exact Or.inl ⟨rfl, same _ ((sameRegistry_lookups s uniqueId decryptHandle).2.2.2.2.1 _ _)⟩
  | setPlaybackStatus uniqueId decryptHandle playbackStatus position =>
    exact Or.inl ⟨rfl, same _ ((sameRegistry_lookups s uniqueId decryptHandle).2.2.2.2.2 _ _)⟩
  | openConvertSession uniqueId mimeType =>
    left
    have hf := openConvertSession_frame s uniqueId mimeType
    refine ⟨rfl, hf.1, ?_⟩
    show ∀ k ∈ (s.openConvertSession uniqueId mimeType).2.mDecryptSessionMap.keys, _
    rw [hf.2.1]
    exact fun k hk => hk
  | convertData uniqueId convertId inputData =>
    exact Or.inl ⟨rfl, same _ (sameRegistry_convertData s uniqueId convertId inputData)⟩
  | closeConvertSession uniqueId convertId =>
    left
    have hf := closeConvertSession_frame s uniqueId convertId
    refine ⟨rfl, hf.1, ?_⟩
    show ∀ k ∈ (s.closeConvertSession uniqueId convertId).2.mDecryptSessionMap.keys, _
    rw [hf.2.2.1]
    exact fun k hk => hk
  | canHandle uniqueId path =>
    exact Or.inl ⟨rfl, same _ (sameRegistry_canHandleLoop uniqueId path _ s)⟩
  | loadPlugIns uniqueId found =>
    left
    have hf := loadPlugIns_frame s uniqueId found
    refine ⟨rfl, hf.1, ?_⟩
    show ∀ k ∈ (s.loadPlugIns uniqueId found).2.mDecryptSessionMap.keys, _
    rw [hf.2.2.1]
    exact fun k hk => hk
  | unloadPlugIns uniqueId =>
    left
    have hf := unloadPlugIns_frame s uniqueId
    refine ⟨rfl, hf.1, ?_⟩
    show ∀ k ∈ (s.unloadPlugIns uniqueId).2.mDecryptSessionMap.keys, _
    rw [hf.2.2.1]
    intro k hk
    cases hk

end DrmManager

/-! ## Use after close -/

namespace DrmManager

/-- After `closeDecryptSession` the id of the handle is not a key of the decrypt
session map, if the engine bound to the handle leaves the id of the handle as
it is. -/
theorem closeDecryptSession_unbinds (s : DrmManager) (uniqueId : Int)
    (decryptHandle : DecryptHandle)
    (hkeep : ∀ e, s.mDecryptSessionMap.lookup decryptHandle.decryptId = some e →
      (e.engine.closeDecryptSession uniqueId decryptHandle).decryptId =
        decryptHandle.decryptId) :
    decryptHandle.decryptId ∉ (s.closeDecryptSession uniqueId decryptHandle).mDecryptSessionMap.keys := by
  by_cases hmem : decryptHandle.decryptId ∈ s.mDecryptSessionMap.keys
  · have hl : s.mDecryptSessionMap.lookup decryptHandle.decryptId ≠ none :=
      (KeyedVector.mem_keys_iff _ _).mp hmem
    have hidx : s.mDecryptSessionMap.indexOfKey decryptHandle.decryptId ≠ NAME_NOT_FOUND :=
      fun h => hl ((KeyedVector.indexOfKey_eq_notFound _ _).mp h)
    cases hv : s.mDecryptSessionMap.lookup decryptHandle.decryptId with
    | none => exact absurd hv hl
    | some e =>
      have hclose : (s.closeDecryptSession uniqueId decryptHandle).mDecryptSessionMap =
          s.mDecryptSessionMap.removeItem decryptHandle.decryptId := by
        unfold closeDecryptSession
        simp only [hidx, ne_eq, not_false_eq_true, if_true, hv, logCall, hkeep e hv]
      rw [hclose]
      intro h
      exact ((KeyedVector.mem_keys_removeItem _ _ _).mp h).1 rfl
  · rw [(decrypt_miss s uniqueId decryptHandle hmem).2.2.2.2.2.2]
    exact hmem

/-- An id that is not bound and not above the decrypt counter stays unbound over
every sequence of operations, as long as the counter stays below `INT_MAX`. -/
theorem run_keeps_unbound (ops : List Op) (s : DrmManager) (k : Int)
    (hk : k ∉ s.mDecryptSessionMap.keys) (hle : k ≤ s.mDecryptSessionId)
    (hmin : INT_MIN ≤ s.mDecryptSessionId)
    (hbound : s.mDecryptSessionId + (decryptHandles s ops).length < INT_MAX) :
    k ∉ (run s ops).mDecryptSessionMap.keys := by
  induction ops generalizing s with
  | nil => exact hk
  | cons op rest ih =>
    have hlen : (0 : Int) ≤ ((decryptHandles (step s op) rest).length : Int) :=
      Int.natCast_nonneg _
    rcases step_decrypt s op with ⟨hnone, hctr, hkeys⟩ | ⟨hsome, _, hctr, hkeys⟩
    · have hlist : decryptHandles s (op :: rest) = decryptHandles (step s op) rest := by
        simp [decryptHandles, hnone]
      rw [hlist] at hbound
      rw [← hctr] at hle hmin hbound
      exact ih (step s op) (fun h => hk (hkeys k h)) hle hmin hbound
    · obtain ⟨x, hx⟩ := Option.isSome_iff_exists.mp hsome
      have hlist : decryptHandles s (op :: rest) = x :: decryptHandles (step s op) rest := by
        simp [decryptHandles, hx]
      rw [hlist] at hbound
      simp only [List.length_cons, Nat.cast_add, Nat.cast_one] at hbound
      have hw := wrapInt_succ s.mDecryptSessionId hmin (by omega)
      rw [hw] at hctr hkeys
      refine ih (step s op) ?_ (by rw [hctr]; omega) (by rw [hctr]; omega)
        (by rw [hctr]; omega)
      intro h
      rcases hkeys k h with h1 | h1
      · omega
      · exact hk h1

/-- C8 (amended): in a state whose decrypt session keys are not above the decrypt
counter (as in every state the manager reaches), with decrypt handle `h` bound
to an engine whose `closeDecryptSession` leaves the id of `h` as it is, after
`closeDecryptSession(h)` and any further sequence of manager operations that
keeps the counter below `INT_MAX`, the id of `h` is not a key of the decrypt
session map; so `decrypt` with `h` returns `DRM_ERROR_UNKNOWN`, `pread` with `h`
returns -1, and these two as well as `consumeRights`, `setPlaybackStatus`,
`initializeDecryptUnit`, `finalizeDecryptUnit` and `closeDecryptSession` with `h`
leave the manager, record of engine calls included, as it is. -/
theorem use_after_close_is_session_miss (s : DrmManager) (uniqueId : Int)
    (h : DecryptHandle) (ops : List Op)
    (hbound : h.decryptId ∈ s.mDecryptSessionMap.keys)
    (hclose : ∀ e, s.mDecryptSessionMap.lookup h.decryptId = some e →
      (e.engine.closeDecryptSession uniqueId h).decryptId = h.decryptId)
    (hinv : ∀ k ∈ s.mDecryptSessionMap.keys, k ≤ s.mDecryptSessionId)
    (hmin : INT_MIN ≤ s.mDecryptSessionId)
    (hmax : s.mDecryptSessionId +
      (decryptHandles (s.closeDecryptSession uniqueId h) ops).length < INT_MAX)
    (uniqueId2 : Int) :
    h.decryptId ∉ (run (s.closeDecryptSession uniqueId h) ops).mDecryptSessionMap.keys ∧
    (∀ (decryptUnitId : Int) (encBuffer decBuffer : Option DrmBuffer),
      (run (s.closeDecryptSession uniqueId h) ops).decrypt uniqueId2 h decryptUnitId
          encBuffer decBuffer =
        ((DRM_ERROR_UNKNOWN, decBuffer), run (s.closeDecryptSession uniqueId h) ops)) ∧
    (∀ numBytes offset : Int,
      (run (s.closeDecryptSession uniqueId h) ops).pread uniqueId2 h numBytes offset =
        (-1, run (s.closeDecryptSession uniqueId h) ops)) ∧
    (∀ (action : Int) (reserve : Bool),
      (run (s.closeDecryptSession uniqueId h) ops).consumeRights uniqueId2 h action reserve =
        run (s.closeDecryptSession uniqueId h) ops) ∧
    (∀ playbackStatus position : Int,
      (run (s.closeDecryptSession uniqueId h) ops).setPlaybackStatus uniqueId2 h
          playbackStatus position =
        run (s.closeDecryptSession uniqueId h) ops) ∧
    (∀ (decryptUnitId : Int) (headerInfo : Option DrmBuffer),
      (run (s.closeDecryptSession uniqueId h) ops).initializeDecryptUnit uniqueId2 h
          decryptUnitId headerInfo =
        run (s.closeDecryptSession uniqueId h) ops) ∧
    (∀ decryptUnitId : Int,
      (run (s.closeDecryptSession uniqueId h) ops).finalizeDecryptUnit uniqueId2 h
          decryptUnitId =
        run (s.closeDecryptSession uniqueId h) ops) ∧
    (run (s.closeDecryptSession uniqueId h) ops).closeDecryptSession uniqueId2 h =
      run (s.closeDecryptSession uniqueId h) ops := by
  have hf := closeDecryptSession_frame s uniqueId h
  have hunbound : h.decryptId ∉
      (run (s.closeDecryptSession uniqueId h) ops).mDecryptSessionMap.keys := by
    apply run_keeps_unbound ops (s.closeDecryptSession uniqueId h) h.decryptId
      (closeDecryptSession_unbinds s uniqueId h hclose)
    · rw [hf.1]
      exact hinv _ hbound
    · rw [hf.1]
      exact hmin
    · rw [hf.1]
      exact hmax
  have hm := decrypt_miss (run (s.closeDecryptSession uniqueId h) ops) uniqueId2 h hunbound
  exact ⟨hunbound, hm.1, hm.2.1, hm.2.2.2.2.2.1, hm.2.2.2.2.1, hm.2.2.1, hm.2.2.2.1,
    hm.2.2.2.2.2.2⟩

/-- C8 at a manager with decrypt sessions 1 and 2, both bound to engine A, whose
`closeDecryptSession` leaves the handle as it is: after closing handle 1, a new
open (which gets handle 3), a lookup on handle 2 and a reload of the engines,
`decrypt` with handle 1 fails with `DRM_ERROR_UNKNOWN` and records no engine
call. -/
theorem use_after_close_is_session_miss_witness :
    managerTwoSessions.mDecryptSessionMap.keys = [1, 2] ∧
    ((run (managerTwoSessions.closeDecryptSession 7 ⟨1, "", 0, 0⟩)
        [Op.openDecryptSession 7 5 0 10, Op.pread 7 ⟨2, "", 0, 0⟩ 16 0,
         Op.loadPlugIns 7 []]).decrypt 7 ⟨1, "", 0, 0⟩ 0 none none).1.1 =
      DRM_ERROR_UNKNOWN ∧
    ((run (managerTwoSessions.closeDecryptSession 7 ⟨1, "", 0, 0⟩)
        [Op.openDecryptSession 7 5 0 10, Op.pread 7 ⟨2, "", 0, 0⟩ 16 0,
         Op.loadPlugIns 7 []]).decrypt 7 ⟨1, "", 0, 0⟩ 0 none none).2.trace =
      (run (managerTwoSessions.closeDecryptSession 7 ⟨1, "", 0, 0⟩)
        [Op.openDecryptSession 7 5 0 10, Op.pread 7 ⟨2, "", 0, 0⟩ 16 0,
         Op.loadPlugIns 7 []]).trace :=
  have hl : managerTwoSessions.mDecryptSessionMap.lookup 1 =
      some ⟨"A", exampleEngine (some infoA) true DRM_NO_ERROR⟩ := rfl
  have h := (use_after_close_is_session_miss managerTwoSessions 7 ⟨1, "", 0, 0⟩
    [Op.openDecryptSession 7 5 0 10, Op.pread 7 ⟨2, "", 0, 0⟩ 16 0, Op.loadPlugIns 7 []]
    (by decide)
    (fun e he => by
      have he2 : some ⟨"A", exampleEngine (some infoA) true DRM_NO_ERROR⟩ = some e :=
        hl.symm.trans he
      cases he2
      rfl)
    (by decide) (by decide) (by decide) 7).2.1 0 none none
  ⟨by decide, by rw [h], by rw [h]⟩

/-- C8, the claim as stated fails: the engine is given the handle object itself
and the key removed is the id read from it after the engine's call.  With
session 1 bound to an engine whose `closeDecryptSession` resets the id of the
handle to 0, `closeDecryptSession` with handle 1 calls the engine and removes
key 0: handle 1 stays bound, and a later `decrypt` with handle 1 is forwarded
to the engine and returns its `DRM_NO_ERROR`. -/
theorem close_leaves_rewritten_handle_bound :
    managerForgetful.mDecryptSessionMap.keys = [1] ∧
    (managerForgetful.closeDecryptSession 7 ⟨1, "", 0, 0⟩).trace =
      managerForgetful.trace ++
        [("forgetful", EngineCall.closeDecryptSession 7 ⟨1, "", 0, 0⟩)] ∧
    (managerForgetful.closeDecryptSession 7 ⟨1, "", 0, 0⟩).mDecryptSessionMap.keys = [1] ∧
    ((managerForgetful.closeDecryptSession 7 ⟨1, "", 0, 0⟩).decrypt 7 ⟨1, "", 0, 0⟩ 0
      none none).1.1 = DRM_NO_ERROR ∧
    ((managerForgetful.closeDecryptSession 7 ⟨1, "", 0, 0⟩).decrypt 7 ⟨1, "", 0, 0⟩ 0
      none none).2.trace =
      managerForgetful.trace ++
        [("forgetful", EngineCall.closeDecryptSession 7 ⟨1, "", 0, 0⟩),
         ("forgetful", EngineCall.decrypt 7 ⟨1, "", 0, 0⟩ 0 none)] := by
  decide

end DrmManager

/-! ## States the manager reaches -/

namespace KeyedVector

theorem keys_insertEntry {K V : Type} [DecidableEq K] (k : K) (v : V) (l : List (K × V)) :
    (insertEntry k v l).map Prod.fst =
      if k ∈ l.map Prod.fst then l.map Prod.fst else l.map Prod.fst ++ [k] := by
  induction l with
  | nil => simp [insertEntry]
  | cons e rest ih =>
    obtain ⟨k1, v1⟩ := e
    by_cases h : k1 = k
    · subst h
      simp [insertEntry]
    · have h2 : ¬ k = k1 := fun c => h c.symm
      by_cases hm : k ∈ rest.map Prod.fst
      · simp only [insertEntry, h, if_false, List.map_cons, ih, hm, if_true, List.mem_cons,
          or_true]
      · simp only [insertEntry, h, if_false, List.map_cons, ih, hm, List.mem_cons, h2,
          or_self, List.cons_append]

/-- `add` keeps the keys pairwise distinct. -/
theorem nodup_keys_add {K V : Type} [DecidableEq K] (m : KeyedVector K V) (k : K) (v : V)
    (h : m.keys.Nodup) : (m.add k v).keys.Nodup := by
  unfold keys add at *
  rw [keys_insertEntry]
  by_cases hm : k ∈ m.mVector.map Prod.fst
  · simpa [hm] using h
  · simp only [hm, if_false]
    rw [List.nodup_append]
    refine ⟨h, List.nodup_singleton k, ?_⟩
    intro a ha hb
    rw [List.mem_singleton] at hb
    exact hm (hb ▸ ha)

end KeyedVector

namespace PlugInManager

theorem nodup_loadPlugIn (pm : PlugInManager) (q : PlugIn)
    (h : (pm.plugIns.map PlugIn.plugInId).Nodup) :
    ((pm.loadPlugIn q).plugIns.map PlugIn.plugInId).Nodup := by
  unfold loadPlugIn
  by_cases hm : q.plugInId ∈ pm.getPlugInIdList
  · simpa [hm] using h
  · simp only [hm, if_false, List.map_append, List.map_cons, List.map_nil]
    rw [List.nodup_append]
    refine ⟨h, List.nodup_singleton _, ?_⟩
    intro a ha hb
    rw [List.mem_singleton] at hb
    exact hm (hb ▸ ha)

/-- Loading keeps the identifiers pairwise distinct. -/
theorem nodup_loadPlugIns (found : List PlugIn) (pm : PlugInManager)
    (h : (pm.plugIns.map PlugIn.plugInId).Nodup) :
    ((pm.loadPlugIns found).plugIns.map PlugIn.plugInId).Nodup := by
  induction found generalizing pm with
  | nil => exact h
  | cons q rest ih => exact ih (pm.loadPlugIn q) (nodup_loadPlugIn pm q h)

end PlugInManager

namespace DrmManager

theorem sameIndex_canHandleLoop (uniqueId : Int) (path : String8) (ids : List String8)
    (s : DrmManager) : SameIndex s (canHandleLoop uniqueId path ids s).2 := by
  induction ids generalizing s with
  | nil => rfl
  | cons i rest ih =>
    unfold canHandleLoop
    cases hg : s.mPlugInManager.getPlugIn i with
    | none => exact ih s
    | some e =>
      by_cases hc : e.engine.canHandle uniqueId path = true
      · simp only [hc, if_true]
        rfl
      · simp only [hc, Bool.false_eq_true, if_false]
        exact (ih (s.logCall i (EngineCall.canHandle uniqueId path))).trans rfl

theorem sameIndex_initializePlugInsLoop (uniqueId : Int) (ids : List String8)
    (s : DrmManager) : SameIndex s (initializePlugInsLoop uniqueId ids s) := by
  induction ids generalizing s with
  | nil => rfl
  | cons i rest ih =>
    unfold initializePlugInsLoop
    cases hg : s.mPlugInManager.getPlugIn i with
    | none => exact ih s
    | some e => exact (ih _).trans rfl

theorem nodup_populateLoop (uniqueId : Int) (ids : List String8) (s : DrmManager)
    (h : s.mSupportInfoToPlugInIdMap.keys.Nodup) :
    (populateLoop uniqueId ids s).mSupportInfoToPlugInIdMap.keys.Nodup := by
  induction ids generalizing s with
  | nil => exact h
  | cons i rest ih =>
    unfold populateLoop
    cases hg : s.mPlugInManager.getPlugIn i with
    | none => exact ih s h
    | some e =>
      cases hinfo : e.engine.getSupportInfo uniqueId with
      | none =>
        simp only [hinfo]
        exact ih _ h
      | some info =>
        simp only [hinfo]
        exact ih _ (KeyedVector.nodup_keys_add _ info i h)

theorem openDecryptLoop_sameIndex (uniqueId fd offset length : Int) (ids : List String8)
    (h : DecryptHandle) (r0 : status_t) (s : DrmManager) :
    SameIndex s (openDecryptLoop uniqueId fd offset length ids h r0 s).2.2 := by
  induction ids generalizing h r0 s with
  | nil => rfl
  | cons i rest ih =>
    unfold openDecryptLoop
    cases hg : s.mPlugInManager.getPlugIn i with
    | none => exact ih h r0 s
    | some e =>
      by_cases hok : DRM_NO_ERROR = (e.engine.openDecryptSession uniqueId h fd offset length).1
      · simp only [if_pos hok]
        rfl
      · simp only [if_neg hok]
        exact (ih _ _ (s.logCall i
          (EngineCall.openDecryptSession uniqueId h fd offset length))).trans rfl

/-- One operation keeps the state well formed. -/
theorem step_wellFormed (s : DrmManager) (op : Op) (h : WellFormed s) :
    WellFormed (step s op) := by
  have keep : ∀ t : DrmManager, t.mPlugInManager = s.mPlugInManager → SameIndex s t →
      WellFormed t := by
    intro t hpm hidx
    unfold WellFormed
    rw [hpm, hidx]
    exact h
  cases op with
  | openDecryptSession uniqueId fd offset length =>
    refine keep _ (openDecryptSession_frame s uniqueId fd offset length).2.2.1 ?_
    have hstate : (s.openDecryptSession uniqueId fd offset length).2 =
        (s.openDecryptProbe uniqueId fd offset length).2.2 := by
      unfold openDecryptSession
      by_cases hc : DRM_ERROR_CANNOT_HANDLE = (s.openDecryptProbe uniqueId fd offset length).1
      · simp only [if_pos hc]
      · simp only [if_neg hc]
    show SameIndex s (s.openDecryptSession uniqueId fd offset length).2
    rw [hstate]
    exact openDecryptLoop_sameIndex uniqueId fd offset length _ _ _ s
  | closeDecryptSession uniqueId decryptHandle =>
    refine keep _ (closeDecryptSession_frame s uniqueId decryptHandle).2.2.2.1 ?_
    show SameIndex s (s.closeDecryptSession uniqueId decryptHandle)
    unfold closeDecryptSession
    split
    · split <;> rfl
    · rfl
  | initializeDecryptUnit uniqueId decryptHandle decryptUnitId headerInfo =>
    refine keep _ ((sameRegistry_lookups s uniqueId decryptHandle).1 _ _).2.2.2.2 ?_
    show SameIndex s (s.initializeDecryptUnit uniqueId decryptHandle decryptUnitId headerInfo)
    unfold initializeDecryptUnit
    split
    · split <;> rfl
    · rfl
  | decrypt uniqueId decryptHandle decryptUnitId encBuffer decBuffer =>
    refine keep _ ((sameRegistry_lookups s uniqueId decryptHandle).2.1 _ _ _).2.2.2.2 ?_
    show SameIndex s (s.decrypt uniqueId decryptHandle decryptUnitId encBuffer decBuffer).2
    unfold decrypt
    split
    · split <;> rfl
    · rfl
  | finalizeDecryptUnit uniqueId decryptHandle decryptUnitId =>
    refine keep _ ((sameRegistry_lookups s uniqueId decryptHandle).2.2.1 _).2.2.2.2 ?_
    show SameIndex s (s.finalizeDecryptUnit uniqueId decryptHandle decryptUnitId)
    unfold finalizeDecryptUnit
    split
    · split <;> rfl
    · rfl
  | pread uniqueId decryptHandle numBytes offset =>
    refine keep _ ((sameRegistry_lookups s uniqueId decryptHandle).2.2.2.1 _ _).2.2.2.2 ?_
    show SameIndex s (s.pread uniqueId decryptHandle numBytes offset).2
    unfold pread
    split
    · split <;> rfl
    · rfl
  | consumeRights uniqueId decryptHandle action reserve =>
    refine keep _ ((sameRegistry_lookups s uniqueId decryptHandle).2.2.2.2.1 _ _).2.2.2.2 ?_
    show SameIndex s (s.consumeRights uniqueId decryptHandle action reserve)
    unfold consumeRights
    split
    · split <;> rfl
    · rfl
  | setPlaybackStatus uniqueId decryptHandle playbackStatus position =>
    refine keep _ ((sameRegistry_lookups s uniqueId decryptHandle).2.2.2.2.2 _ _).2.2.2.2 ?_
    show SameIndex s (s.setPlaybackStatus uniqueId decryptHandle playbackStatus position)
    unfold setPlaybackStatus
    split
    · split <;> rfl
    · rfl
  | openConvertSession uniqueId mimeType =>
    refine keep _ (openConvertSession_frame s uniqueId mimeType).2.2.1 ?_
    show SameIndex s (s.openConvertSession uniqueId mimeType).2
    by_cases hres : EMPTY_STRING ≠ s.getSupportedPlugInId mimeType
    · cases hg : s.mPlugInManager.getPlugIn (s.getSupportedPlugInId mimeType) with
      | none =>
        unfold openConvertSession
        simp only [hres, ne_eq, not_false_eq_true, if_true, hg]
        rfl
      | some e =>
        unfold openConvertSession
        simp only [hres, ne_eq, not_false_eq_true, if_true, hg]
        rfl
    · unfold openConvertSession
      simp only [hres, if_false]
      rfl
  | convertData uniqueId convertId inputData =>
    refine keep _ (sameRegistry_convertData s uniqueId convertId inputData).2.2.2.2 ?_
    show SameIndex s (s.convertData uniqueId convertId inputData).2
    unfold convertData
    split
    · split <;> rfl
    · rfl
  | closeConvertSession uniqueId convertId =>
    refine keep _ (closeConvertSession_frame s uniqueId convertId).2.2.2.1 ?_
    show SameIndex s (s.closeConvertSession uniqueId convertId).2
    unfold closeConvertSession
    split
    · split <;> rfl
    · rfl
  | canHandle uniqueId path =>
    exact keep _ (sameRegistry_canHandleLoop uniqueId path _ s).2.2.2.2
      (sameIndex_canHandleLoop uniqueId path _ s)
  | loadPlugIns uniqueId found =>
    show WellFormed (s.loadPlugIns uniqueId found).2
    by_cases he : s.mSupportInfoToPlugInIdMap.isEmpty = true
    · have hload : (s.loadPlugIns uniqueId found).2 =
          (({ s with mPlugInManager := s.mPlugInManager.loadPlugIns found } :
            DrmManager).initializePlugIns uniqueId).populate uniqueId := by
        unfold loadPlugIns
        simp only [he, if_true]
      have h1 := sameRegistry_initializePlugInsLoop uniqueId
        (s.mPlugInManager.loadPlugIns found).getPlugInIdList
        { s with mPlugInManager := s.mPlugInManager.loadPlugIns found }
      have h2 := sameRegistry_populateLoop uniqueId
        ((({ s with mPlugInManager := s.mPlugInManager.loadPlugIns found } :
          DrmManager).initializePlugIns uniqueId).mPlugInManager.getPlugInIdList)
        (({ s with mPlugInManager := s.mPlugInManager.loadPlugIns found } :
          DrmManager).initializePlugIns uniqueId)
      have hpm : ((({ s with mPlugInManager := s.mPlugInManager.loadPlugIns found } :
          DrmManager).initializePlugIns uniqueId).populate uniqueId).mPlugInManager =
          s.mPlugInManager.loadPlugIns found := (sameRegistry_trans h1 h2).2.2.2.2
      have hi := sameIndex_initializePlugInsLoop uniqueId
        (s.mPlugInManager.loadPlugIns found).getPlugInIdList
        { s with mPlugInManager := s.mPlugInManager.loadPlugIns found }
      rw [hload]
      refine ⟨?_, ?_⟩
      · rw [hpm]
        exact PlugInManager.nodup_loadPlugIns found s.mPlugInManager h.1
      · apply nodup_populateLoop
        have hi2 : (({ s with mPlugInManager := s.mPlugInManager.loadPlugIns found } :
            DrmManager).initializePlugIns uniqueId).mSupportInfoToPlugInIdMap =
            s.mSupportInfoToPlugInIdMap := hi
        rw [hi2]
        exact h.2
    · have hload : (s.loadPlugIns uniqueId found).2 = s.initializePlugIns uniqueId := by
        unfold loadPlugIns
        simp only [he, Bool.false_eq_true, if_false]
      rw [hload]
      exact keep _
        (sameRegistry_initializePlugInsLoop uniqueId s.mPlugInManager.getPlugInIdList
          s).2.2.2.2
        (sameIndex_initializePlugInsLoop uniqueId s.mPlugInManager.getPlugInIdList s)
  | unloadPlugIns uniqueId =>
    exact ⟨List.nodup_nil, List.nodup_nil⟩

/-- Every state the manager reaches from the initial state is well formed. -/
theorem run_wellFormed (ops : List Op) (s : DrmManager) (h : WellFormed s) :
    WellFormed (run s ops) := by
  induction ops generalizing s with
  | nil => exact h
  | cons op rest ih => exact ih (step s op) (step_wellFormed s op h)

theorem init_wellFormed : WellFormed DrmManager.init :=
  ⟨List.nodup_nil, List.nodup_nil⟩

/-- In every state reached without overflow of the decrypt counter, the keys of
the decrypt session map are not above the counter. -/
theorem run_keys_le_counter (ops : List Op) (s : DrmManager)
    (hinv : ∀ k ∈ s.mDecryptSessionMap.keys, k ≤ s.mDecryptSessionId)
    (hmin : INT_MIN ≤ s.mDecryptSessionId)
    (hbound : s.mDecryptSessionId + (decryptHandles s ops).length < INT_MAX) :
    (∀ k ∈ (run s ops).mDecryptSessionMap.keys, k ≤ (run s ops).mDecryptSessionId) ∧
      INT_MIN ≤ (run s ops).mDecryptSessionId := by
  induction ops generalizing s with
  | nil => exact ⟨hinv, hmin⟩
  | cons op rest ih =>
    have hlen : (0 : Int) ≤ ((decryptHandles (step s op) rest).length : Int) :=
      Int.natCast_nonneg _
    rcases step_decrypt s op with ⟨hnone, hctr, hkeys⟩ | ⟨hsome, _, hctr, hkeys⟩
    · have hlist : decryptHandles s (op :: rest) = decryptHandles (step s op) rest := by
        simp [decryptHandles, hnone]
      rw [hlist] at hbound
      rw [← hctr] at hmin hbound
      exact ih (step s op) (fun k hk => by rw [hctr]; exact hinv k (hkeys k hk)) hmin hbound
    · obtain ⟨x, hx⟩ := Option.isSome_iff_exists.mp hsome
      have hlist : decryptHandles s (op :: rest) = x :: decryptHandles (step s op) rest := by
        simp [decryptHandles, hx]
      rw [hlist] at hbound
      simp only [List.length_cons, Nat.cast_add, Nat.cast_one] at hbound
      have hw := wrapInt_succ s.mDecryptSessionId hmin (by omega)
      rw [hw] at hctr hkeys
      refine ih (step s op) ?_ (by rw [hctr]; omega) (by rw [hctr]; omega)
      intro k hk
      rw [hctr]
      rcases hkeys k hk with h1 | h1
      · omega
      · have := hinv k h1
        omega

end DrmManager

/-! ## Independence of the two handle spaces -/

namespace DrmManager

theorem openDecryptSession_snd (s : DrmManager) (uniqueId fd offset length : Int) :
    (s.openDecryptSession uniqueId fd offset length).2 =
      (s.openDecryptProbe uniqueId fd offset length).2.2 := by
  unfold openDecryptSession
  by_cases hc : DRM_ERROR_CANNOT_HANDLE = (s.openDecryptProbe uniqueId fd offset length).1
  · simp only [if_pos hc]
  · simp only [if_neg hc]

theorem openDecryptSession_sameIndex (s : DrmManager) (uniqueId fd offset length : Int) :
    SameIndex s (s.openDecryptSession uniqueId fd offset length).2 := by
  rw [openDecryptSession_snd]
  exact openDecryptLoop_sameIndex uniqueId fd offset length _ _ _ s

/-- MIME resolution reads the Capability Index only. -/
theorem getSupportedPlugInId_congr (s t : DrmManager)
    (h : t.mSupportInfoToPlugInIdMap = s.mSupportInfoToPlugInIdMap) (mimeType : String8) :
    t.getSupportedPlugInId mimeType = s.getSupportedPlugInId mimeType := by
  unfold getSupportedPlugInId
  rw [h]

/-- The status and the handle the probing loop ends with depend on the engine
registry only. -/
theorem openDecryptLoop_congr (uniqueId fd offset length : Int) (ids : List String8)
    (h : DecryptHandle) (r0 : status_t) (s t : DrmManager)
    (hpm : t.mPlugInManager = s.mPlugInManager) :
    (openDecryptLoop uniqueId fd offset length ids h r0 t).1 =
        (openDecryptLoop uniqueId fd offset length ids h r0 s).1 ∧
      (openDecryptLoop uniqueId fd offset length ids h r0 t).2.1 =
        (openDecryptLoop uniqueId fd offset length ids h r0 s).2.1 := by
  induction ids generalizing h r0 s t with
  | nil => exact ⟨rfl, rfl⟩
  | cons i rest ih =>
    rw [openDecryptLoop, openDecryptLoop, hpm]
    cases hg : s.mPlugInManager.getPlugIn i with
    | none => exact ih h r0 s t hpm
    | some e =>
      by_cases hok : DRM_NO_ERROR = (e.engine.openDecryptSession uniqueId h fd offset length).1
      · simp only [if_pos hok]
        exact ⟨trivial, trivial⟩
      · simp only [if_neg hok]
        exact ih _ _ _ _ (by simpa using hpm)

theorem openDecryptProbe_congr (s t : DrmManager) (uniqueId fd offset length : Int)
    (hpm : t.mPlugInManager = s.mPlugInManager)
    (hn : t.mDecryptSessionId = s.mDecryptSessionId) :
    (t.openDecryptProbe uniqueId fd offset length).1 =
      (s.openDecryptProbe uniqueId fd offset length).1 := by
  unfold openDecryptProbe newDecryptHandle
  rw [hpm, hn]
  exact (openDecryptLoop_congr uniqueId fd offset length _ _ _ s t hpm).1

/-- `openConvertSession` when MIME resolution yields the identifier of a loaded
engine. -/
theorem openConvertSession_resolved (s : DrmManager) (uniqueId : Int) (mimeType : String8)
    (e : PlugIn) (hres : s.getSupportedPlugInId mimeType ≠ "")
    (hget : s.mPlugInManager.getPlugIn (s.getSupportedPlugInId mimeType) = some e) :
    s.openConvertSession uniqueId mimeType =
      (wrapInt (s.mConvertId + 1),
        { s with
          mConvertId := wrapInt (s.mConvertId + 1)
          mConvertSessionMap := s.mConvertSessionMap.add (wrapInt (s.mConvertId + 1)) e
          trace := s.trace ++ [(s.getSupportedPlugInId mimeType,
            EngineCall.openConvertSession uniqueId (wrapInt (s.mConvertId + 1)))] }) := by
  have hne : EMPTY_STRING ≠ s.getSupportedPlugInId mimeType := fun h => hres h.symm
  unfold openConvertSession
  simp only [hne, ne_eq, not_false_eq_true, if_true, hget, logCall]

end DrmManager

/-! ## Closing a session -/

namespace DrmManager

/-- `closeDecryptSession` on a handle bound to `e`: the call on `e` is recorded
and the key removed is the id of the handle as `e` left it. -/
theorem closeDecryptSession_bound (s : DrmManager) (uniqueId : Int) (h : DecryptHandle)
    (e : PlugIn) (hb : s.mDecryptSessionMap.lookup h.decryptId = some e) :
    s.closeDecryptSession uniqueId h =
      { s.logCall e.plugInId (EngineCall.closeDecryptSession uniqueId h) with
        mDecryptSessionMap :=
          s.mDecryptSessionMap.removeItem (e.engine.closeDecryptSession uniqueId h).decryptId } := by
  have hidx : s.mDecryptSessionMap.indexOfKey h.decryptId ≠ NAME_NOT_FOUND := by
    intro hnf
    rw [(KeyedVector.indexOfKey_eq_notFound _ _).mp hnf] at hb
    cases hb
  unfold closeDecryptSession
  simp only [hidx, ne_eq, not_false_eq_true, if_true, hb, logCall]

/-- `closeConvertSession` on a convert id bound to `e`. -/
theorem closeConvertSession_bound (s : DrmManager) (uniqueId convertId : Int)
    (e : PlugIn) (hb : s.mConvertSessionMap.lookup convertId = some e) :
    s.closeConvertSession uniqueId convertId =
      (e.engine.closeConvertSession uniqueId convertId,
        { s.logCall e.plugInId (EngineCall.closeConvertSession uniqueId convertId) with
          mConvertSessionMap := s.mConvertSessionMap.removeItem convertId }) := by
  have hidx : s.mConvertSessionMap.indexOfKey convertId ≠ NAME_NOT_FOUND := by
    intro hnf
    rw [(KeyedVector.indexOfKey_eq_notFound _ _).mp hnf] at hb
    cases hb
  unfold closeConvertSession
  simp only [hidx, ne_eq, not_false_eq_true, if_true, hb, logCall]

end DrmManager

/-! ## Listener dispatch -/

namespace DrmManager

theorem bindAll_lookup (binds : List (Int × Nat)) (s : DrmManager) (uniqueId : Int) :
    (bindAll s binds).mServiceListeners.lookup uniqueId =
      match lastBound uniqueId binds with
      | some l => some l
      | none => s.mServiceListeners.lookup uniqueId := by
  induction binds generalizing s with
  | nil => rfl
  | cons b rest ih =>
    rw [bindAll, ih, lastBound]
    cases hl : lastBound uniqueId rest with
    | some l => rfl
    | none =>
      simp only [setDrmServiceListener, KeyedVector.lookup_add]
      by_cases hb : b.1 = uniqueId
      · subst hb
        simp
      · have hb2 : ¬ uniqueId = b.1 := fun c => hb c.symm
        simp [hb, hb2]

theorem bindAll_nodup (binds : List (Int × Nat)) (s : DrmManager)
    (h : s.mServiceListeners.keys.Nodup) : (bindAll s binds).mServiceListeners.keys.Nodup := by
  induction binds generalizing s with
  | nil => exact h
  | cons b rest ih => exact ih _ (KeyedVector.nodup_keys_add _ b.1 b.2 h)

/-- The loop of `onInfo` notifies nobody while the identity of the event is not
among the keys it visits. -/
theorem onInfoLoop_of_not_mem (event : DrmInfoEvent) (ks : List Int) (s : DrmManager)
    (h : event.uniqueId ∉ ks) : onInfoLoop event ks s = s := by
  induction ks generalizing s with
  | nil => rfl
  | cons k rest ih =>
    simp only [List.mem_cons, not_or] at h
    have hk : ¬ k = event.uniqueId := fun c => h.1 c.symm
    rw [onInfoLoop]
    simp only [hk, if_false]
    exact ih s h.2

/-- Over pairwise distinct keys the loop of `onInfo` notifies the listener bound
to the identity of the event once, when that identity is among the keys, and
nobody otherwise. -/
theorem onInfoLoop_of_nodup (event : DrmInfoEvent) (ks : List Int) (s : DrmManager)
    (hnd : ks.Nodup) :
    onInfoLoop event ks s =
      if event.uniqueId ∈ ks then
        match s.mServiceListeners.lookup event.uniqueId with
        | some l => s.logNotify l event
        | none => s
      else s := by
  induction ks generalizing s with
  | nil => rfl
  | cons k rest ih =>
    rw [List.nodup_cons] at hnd
    rw [onInfoLoop]
    by_cases hk : k = event.uniqueId
    · have hrest : event.uniqueId ∉ rest := hk ▸ hnd.1
      simp only [hk, if_true, List.mem_cons, true_or]
      cases hl : s.mServiceListeners.lookup event.uniqueId with
      | none => exact onInfoLoop_of_not_mem event rest s hrest
      | some l => exact onInfoLoop_of_not_mem event rest _ hrest
    · have hk2 : ¬ event.uniqueId = k := fun c => hk c.symm
      simp only [hk, if_false, List.mem_cons, hk2, false_or]
      exact ih s hnd.2

/-- What `onInfo` does in a state whose listener keys are pairwise distinct. -/
theorem onInfo_of_nodup (s : DrmManager) (event : DrmInfoEvent)
    (hnd : s.mServiceListeners.keys.Nodup) :
    s.onInfo event =
      match s.mServiceListeners.lookup event.uniqueId with
      | some l => s.logNotify l event
      | none => s := by
  unfold onInfo
  rw [onInfoLoop_of_nodup event _ s hnd]
  by_cases hm : event.uniqueId ∈ s.mServiceListeners.keys
  · simp only [hm, if_true]
  · simp only [hm, if_false]
    rw [(KeyedVector.lookup_eq_none_iff _ _).mpr hm]

/-- C13: after any sequence of `setDrmServiceListener` calls from the initial
state, `onInfo(event)` notifies exactly once the listener most recently bound
for the caller identity of the event and nobody else, and notifies nobody when
that identity has no binding; nothing else of the manager changes.  In
particular, after binding `l1` for `x`, `l3` for `y` and then `l2` for `x`, with
`y` different from `x`, an event for `x` is delivered to `l2` only. -/
theorem onInfo_notifies_last_bound (binds : List (Int × Nat)) (event : DrmInfoEvent) :
    ((bindAll DrmManager.init binds).onInfo event =
      { bindAll DrmManager.init binds with
        notified := (bindAll DrmManager.init binds).notified ++
          (lastBound event.uniqueId binds).toList.map (fun l => (l, event)) }) ∧
    (∀ (x y : Int) (l1 l2 l3 : Nat), y ≠ x → event.uniqueId = x →
      ((bindAll DrmManager.init [(x, l1), (y, l3), (x, l2)]).onInfo event).notified =
        [(l2, event)]) ∧
    ((bindAll DrmManager.init []).onInfo event).notified = [] := by
  have key : ∀ bs : List (Int × Nat),
      (bindAll DrmManager.init bs).onInfo event =
        { bindAll DrmManager.init bs with
          notified := (bindAll DrmManager.init bs).notified ++
            (lastBound event.uniqueId bs).toList.map (fun l => (l, event)) } := by
    intro bs
    rw [onInfo_of_nodup _ event (bindAll_nodup bs DrmManager.init List.nodup_nil),
      bindAll_lookup bs DrmManager.init event.uniqueId]
    cases hl : lastBound event.uniqueId bs with
    | some l => rfl
    | none =>
      show (match (DrmManager.init.mServiceListeners.lookup event.uniqueId : Option Nat) with
        | some l => (bindAll DrmManager.init bs).logNotify l event
        | none => bindAll DrmManager.init bs) = _
      simp [DrmManager.init, KeyedVector.lookup_empty]
  refine ⟨key binds, ?_, ?_⟩
  · intro x y l1 l2 l3 hxy hx
    rw [key]
    have hyx : ¬ y = event.uniqueId := by rw [hx]; exact hxy
    simp [lastBound, hx, hyx, bindAll, setDrmServiceListener, DrmManager.init]
  · rfl

end DrmManager

/-! ## Bulk unload -/

namespace DrmManager

/-- The loop of `unloadPlugIns` records one `terminate` call for every identifier
it visits, in order, and changes nothing else. -/
theorem terminateLoop_eq (uniqueId : Int) (ids : List String8) (s : DrmManager)
    (hids : ∀ i ∈ ids, i ∈ s.mPlugInManager.getPlugInIdList) :
    terminateLoop uniqueId ids s =
      { s with trace := s.trace ++ ids.map (fun i => (i, EngineCall.terminate uniqueId)) } := by
  induction ids generalizing s with
  | nil => simp [terminateLoop]
  | cons i rest ih =>
    obtain ⟨p, hp, _, _⟩ :=
      PlugInManager.getPlugIn_of_mem s.mPlugInManager i (hids i (List.mem_cons_self i rest))
    rw [terminateLoop]
    simp only [hp]
    rw [ih (s.logCall i (EngineCall.terminate uniqueId))
      (fun j hj => hids j (List.mem_cons_of_mem i hj))]
    simp [logCall]

/-- `unloadPlugIns` in full. -/
theorem unloadPlugIns_eq (s : DrmManager) (uniqueId : Int) :
    s.unloadPlugIns uniqueId =
      (DRM_NO_ERROR,
        { s with
          trace := s.trace ++
            s.mPlugInManager.getPlugInIdList.map (fun i => (i, EngineCall.terminate uniqueId))
          mConvertSessionMap := KeyedVector.empty
          mDecryptSessionMap := KeyedVector.empty
          mSupportInfoToPlugInIdMap := KeyedVector.empty
          mPlugInManager := ⟨[]⟩ }) := by
  unfold unloadPlugIns
  rw [terminateLoop_eq uniqueId _ s (fun i hi => hi)]
  rfl

/-- C14: for every manager state, `unloadPlugIns` records exactly one `terminate`
call for every registered engine, in registration order, whatever the engines
return from `terminate`; afterwards the decrypt session map, the convert session
map and the Capability Index are empty (and no engine is registered), and the
result is `DRM_NO_ERROR`. -/
theorem unloadPlugIns_terminates_all (s : DrmManager) (uniqueId : Int) :
    (s.unloadPlugIns uniqueId).1 = DRM_NO_ERROR ∧
    (s.unloadPlugIns uniqueId).2.trace =
      s.trace ++
        s.mPlugInManager.plugIns.map (fun p => (p.plugInId, EngineCall.terminate uniqueId)) ∧
    (s.unloadPlugIns uniqueId).2.mDecryptSessionMap = KeyedVector.empty ∧
    (s.unloadPlugIns uniqueId).2.mConvertSessionMap = KeyedVector.empty ∧
    (s.unloadPlugIns uniqueId).2.mSupportInfoToPlugInIdMap = KeyedVector.empty ∧
    (s.unloadPlugIns uniqueId).2.mPlugInManager.plugIns = [] := by
  rw [unloadPlugIns_eq]
  refine ⟨rfl, ?_, rfl, rfl, rfl, rfl⟩
  simp [PlugInManager.getPlugInIdList]

/-- C14 at a manager with one decrypt session and two engines, the first of
which fails `terminate`: both engines are terminated, in registration order,
and the session map is empty afterwards. -/
theorem unloadPlugIns_terminates_all_witness :
    engineFailingTerminate.engine.terminate 9 = DRM_ERROR_UNKNOWN ∧
    managerToUnload.mDecryptSessionMap.keys = [1] ∧
    (managerToUnload.unloadPlugIns 9).1 = DRM_NO_ERROR ∧
    (managerToUnload.unloadPlugIns 9).2.trace =
      managerToUnload.trace ++
        [("stubborn", EngineCall.terminate 9), ("A", EngineCall.terminate 9)] ∧
    (managerToUnload.unloadPlugIns 9).2.mDecryptSessionMap = KeyedVector.empty :=
  have h := unloadPlugIns_terminates_all managerToUnload 9
  ⟨by decide, by decide, h.1, h.2.1, h.2.2.1⟩

/-- C15: `unloadPlugIns` is idempotent: a second call right after the first
returns `DRM_NO_ERROR` and leaves the state as the first call left it, so it
records no `terminate` call; both session maps are empty afterwards. -/
theorem unloadPlugIns_idempotent (s : DrmManager) (uniqueId uniqueId2 : Int) :
    (s.unloadPlugIns uniqueId).2.unloadPlugIns uniqueId2 =
      (DRM_NO_ERROR, (s.unloadPlugIns uniqueId).2) ∧
    ((s.unloadPlugIns uniqueId).2.unloadPlugIns uniqueId2).2.trace =
      (s.unloadPlugIns uniqueId).2.trace ∧
    ((s.unloadPlugIns uniqueId).2.unloadPlugIns uniqueId2).2.mDecryptSessionMap =
      KeyedVector.empty ∧
    ((s.unloadPlugIns uniqueId).2.unloadPlugIns uniqueId2).2.mConvertSessionMap =
      KeyedVector.empty := by
  have h : (s.unloadPlugIns uniqueId).2.unloadPlugIns uniqueId2 =
      (DRM_NO_ERROR, (s.unloadPlugIns uniqueId).2) := by
    rw [unloadPlugIns_eq (s.unloadPlugIns uniqueId).2, unloadPlugIns_eq s]
    simp [PlugInManager.getPlugInIdList]
  rw [h, unloadPlugIns_eq s]
  exact ⟨rfl, rfl, rfl, rfl⟩

end DrmManager

/-! ## Operations dispatched after resolution -/

namespace DrmManager

/-- The scan of path resolution records `canHandle` probes and changes nothing
else. -/
theorem pathScan_probes (uniqueId : Int) (path fileSuffix : String8)
    (ks : List DrmSupportInfo) (s : DrmManager) :
    ∃ probes : List (String8 × EngineCall),
      (pathScan uniqueId path fileSuffix ks s).2 = { s with trace := s.trace ++ probes } ∧
      ∀ c ∈ probes, c.2 = EngineCall.canHandle uniqueId path := by
  induction ks generalizing s with
  | nil => exact ⟨[], by simp [pathScan], fun c hc => by cases hc⟩
  | cons k rest ih =>
    rw [pathScan]
    by_cases hd : k.isSupportedFileSuffix fileSuffix = true
    · simp only [hd, if_true]
      cases hg : s.mPlugInManager.getPlugIn (s.mSupportInfoToPlugInIdMap.valueFor k "") with
      | none => exact ih s
      | some e =>
        by_cases hc : e.engine.canHandle uniqueId path = true
        · simp only [hc, if_true]
          exact ⟨[(s.mSupportInfoToPlugInIdMap.valueFor k "", EngineCall.canHandle uniqueId path)],
            rfl, fun c hc => by rw [List.mem_singleton.mp hc]⟩
        · simp only [hc, Bool.false_eq_true, if_false]
          obtain ⟨probes, heq, hall⟩ := ih (s.logCall (s.mSupportInfoToPlugInIdMap.valueFor k "")
            (EngineCall.canHandle uniqueId path))
          refine ⟨(s.mSupportInfoToPlugInIdMap.valueFor k "",
            EngineCall.canHandle uniqueId path) :: probes, ?_, ?_⟩
          · rw [heq]
            simp [logCall]
          · intro c hc
            rcases List.mem_cons.mp hc with h | h
            · rw [h]
            · exact hall c h
    · simp only [hd, Bool.false_eq_true, if_false]
      exact ih s

/-- Path resolution records `canHandle` probes on engines and changes nothing
else of the manager. -/
theorem getSupportedPlugInIdFromPath_probes (s : DrmManager) (uniqueId : Int)
    (path : String8) :
    ∃ probes : List (String8 × EngineCall),
      (s.getSupportedPlugInIdFromPath uniqueId path).2 =
        { s with trace := s.trace ++ probes } ∧
      ∀ c ∈ probes, c.2 = EngineCall.canHandle uniqueId path :=
  pathScan_probes uniqueId path _ _ s

theorem dispatchedAfter_intro {α : Type} (r : String8 × DrmManager) (sentinel : α)
    (result : PlugIn → α) (call : EngineCall) :
    DispatchedAfter r sentinel result call
      (if EMPTY_STRING ≠ r.1 then
        match r.2.mPlugInManager.getPlugIn r.1 with
        | none => (sentinel, r.2)
        | some rDrmEngine => (result rDrmEngine, r.2.logCall r.1 call)
      else (sentinel, r.2)) := by
  constructor
  · intro h
    have hne : ¬ EMPTY_STRING ≠ r.1 := fun c => c h.symm
    rw [if_neg hne]
  · intro e h hg
    have hne : EMPTY_STRING ≠ r.1 := fun c => h c.symm
    rw [if_pos hne, hg]

/-- C16: the operations dispatched after resolution return the engine's result
verbatim or a fixed sentinel.  `getConstraints`, `getOriginalMimeType`,
`checkRightsStatus` and `validateAction` resolve by path, `processDrmInfo` and
`acquireDrmInfo` by the MIME type of their argument, `getDrmObjectType` by the
three-argument resolution.  When resolution yields the identifier of a loaded
engine the operation returns exactly that engine's result for the same
arguments and records that one call; when it is unresolved the operation
returns null, the empty string, `RIGHTS_INVALID`, false, null, null and
`UNKNOWN` respectively and the manager is as resolution left it.  Resolution
itself records only `canHandle` probes (none at all when it goes by MIME type),
so in the unresolved case the operation is invoked on no engine. -/
theorem dispatched_operations (s : DrmManager) (uniqueId : Int) :
    (∀ (path : String8) (action : Int),
      DispatchedAfter (s.getSupportedPlugInIdFromPath uniqueId path) none
        (fun e => e.engine.getConstraints uniqueId (some path) action)
        (EngineCall.getConstraints uniqueId (some path) action)
        (s.getConstraints uniqueId path action)) ∧
    (∀ path : String8,
      DispatchedAfter (s.getSupportedPlugInIdFromPath uniqueId path) ""
        (fun e => e.engine.getOriginalMimeType uniqueId path)
        (EngineCall.getOriginalMimeType uniqueId path)
        (s.getOriginalMimeType uniqueId path)) ∧
    (∀ (path : String8) (action : Int),
      DispatchedAfter (s.getSupportedPlugInIdFromPath uniqueId path) RIGHTS_INVALID
        (fun e => e.engine.checkRightsStatus uniqueId path action)
        (EngineCall.checkRightsStatus uniqueId path action)
        (s.checkRightsStatus uniqueId path action)) ∧
    (∀ (path : String8) (action : Int) (description : ActionDescription),
      DispatchedAfter (s.getSupportedPlugInIdFromPath uniqueId path) false
        (fun e => e.engine.validateAction uniqueId path action description)
        (EngineCall.validateAction uniqueId path action description)
        (s.validateAction uniqueId path action description)) ∧
    (∀ drmInfo : DrmInfo,
      DispatchedAfter (s.getSupportedPlugInId drmInfo.getMimeType, s) none
        (fun e => e.engine.processDrmInfo uniqueId (some drmInfo))
        (EngineCall.processDrmInfo uniqueId (some drmInfo))
        (s.processDrmInfo uniqueId drmInfo)) ∧
    (∀ drmInfoRequest : DrmInfoRequest,
      DispatchedAfter (s.getSupportedPlugInId drmInfoRequest.getMimeType, s) none
        (fun e => e.engine.acquireDrmInfo uniqueId (some drmInfoRequest))
        (EngineCall.acquireDrmInfo uniqueId (some drmInfoRequest))
        (s.acquireDrmInfo uniqueId drmInfoRequest)) ∧
    (∀ path mimeType : String8,
      DispatchedAfter (s.getSupportedPlugInId3 uniqueId path mimeType) UNKNOWN
        (fun e => e.engine.getDrmObjectType uniqueId path mimeType)
        (EngineCall.getDrmObjectType uniqueId path mimeType)
        (s.getDrmObjectType uniqueId path mimeType)) ∧
    (∀ path : String8, ∃ probes : List (String8 × EngineCall),
      (s.getSupportedPlugInIdFromPath uniqueId path).2 =
        { s with trace := s.trace ++ probes } ∧
      ∀ c ∈ probes, c.2 = EngineCall.canHandle uniqueId path) ∧
    (∀ path mimeType : String8, ∃ probes : List (String8 × EngineCall),
      (s.getSupportedPlugInId3 uniqueId path mimeType).2 =
        { s with trace := s.trace ++ probes } ∧
      ∀ c ∈ probes, c.2 = EngineCall.canHandle uniqueId path) := by
  refine ⟨?_, ?_, ?_, ?_, ?_, ?_, ?_, ?_, ?_⟩
  · intro path action
    exact dispatchedAfter_intro _ _ _ _
  · intro path
    exact dispatchedAfter_intro (s.getSupportedPlugInIdFromPath uniqueId path) EMPTY_STRING _ _
  · intro path action
    exact dispatchedAfter_intro _ _ _ _
  · intro path action description
    exact dispatchedAfter_intro _ _ _ _
  · intro drmInfo
    exact dispatchedAfter_intro (s.getSupportedPlugInId drmInfo.getMimeType, s) _ _ _
  · intro drmInfoRequest
    exact dispatchedAfter_intro (s.getSupportedPlugInId drmInfoRequest.getMimeType, s) _ _ _
  · intro path mimeType
    exact dispatchedAfter_intro _ _ _ _
  · intro path
    exact getSupportedPlugInIdFromPath_probes s uniqueId path
  · intro path mimeType
    unfold getSupportedPlugInId3
    by_cases hm : EMPTY_STRING ≠ mimeType
    · rw [if_pos hm]
      exact ⟨[], by simp, fun c hc => by cases hc⟩
    · rw [if_neg hm]
      exact getSupportedPlugInIdFromPath_probes s uniqueId path

/-- C16 at a manager whose only engine "B" declares suffix "xyz" and answers 2 to
`checkRightsStatus`: for "content.xyz" the manager returns 2, for
"content.unknown", which is unresolved, it returns `RIGHTS_INVALID`. -/
theorem dispatched_operations_witness :
    (managerAnswering.checkRightsStatus 7 "content.xyz" 1).1 = 2 ∧
    (managerAnswering.checkRightsStatus 7 "content.unknown" 1).1 = RIGHTS_INVALID :=
  have h := (dispatched_operations managerAnswering 7).2.2.1
  ⟨by rw [(h "content.xyz" 1).2 engineAnswering (by decide) rfl]; rfl,
    by rw [(h "content.unknown" 1).1 (by decide)]⟩

end DrmManager

/-! ## The client proxy validates locally -/

namespace DrmManagerClientImpl

/-- C17: client-side validation never contacts the remote manager.  With the
argument combinations listed below the proxy returns the fixed result and the
client, with its list of remote calls, is unchanged: `canHandle` and
`getDrmObjectType` with path and MIME type both empty (false, `UNKNOWN`);
`checkRightsStatus`, `validateAction` and `getOriginalMimeType` with an empty
path (`RIGHTS_INVALID`, false, the empty string); `getConstraints` with a null
or empty path (null); `openConvertSession` with an empty MIME type (-1);
`convertData` with null input (null); `decrypt` with a null handle, null
`encBuffer`, null `decBuffer` or null `*decBuffer` (`DRM_ERROR_UNKNOWN`);
`pread` with a null handle, null buffer or `numBytes <= 0` (-1).  With every
required argument present the result is the remote service's result for the
same arguments and exactly that one call is recorded. -/
theorem client_validation_is_local (c : DrmManagerClientImpl) (uniqueId : Int) :
    (c.canHandle uniqueId "" "" = (false, c) ∧
      ∀ path mimeType : String8, path ≠ "" ∨ mimeType ≠ "" →
        c.canHandle uniqueId path mimeType =
          (c.mDrmManagerService.canHandle uniqueId path mimeType,
            c.logRemote (ServiceCall.canHandle uniqueId path mimeType))) ∧
    (c.getDrmObjectType uniqueId "" "" = (UNKNOWN, c) ∧
      ∀ path mimeType : String8, path ≠ "" ∨ mimeType ≠ "" →
        c.getDrmObjectType uniqueId path mimeType =
          (c.mDrmManagerService.getDrmObjectType uniqueId path mimeType,
            c.logRemote (ServiceCall.getDrmObjectType uniqueId path mimeType))) ∧
    (∀ action : Int,
      c.checkRightsStatus uniqueId "" action = (RIGHTS_INVALID, c) ∧
      ∀ path : String8, path ≠ "" →
        c.checkRightsStatus uniqueId path action =
          (c.mDrmManagerService.checkRightsStatus uniqueId path action,
            c.logRemote (ServiceCall.checkRightsStatus uniqueId path action))) ∧
    (∀ (action : Int) (description : ActionDescription),
      c.validateAction uniqueId "" action description = (false, c) ∧
      ∀ path : String8, path ≠ "" →
        c.validateAction uniqueId path action description =
          (c.mDrmManagerService.validateAction uniqueId path action description,
            c.logRemote (ServiceCall.validateAction uniqueId path action description))) ∧
    (c.getOriginalMimeType uniqueId "" = ("", c) ∧
      ∀ path : String8, path ≠ "" →
        c.getOriginalMimeType uniqueId path =
          (c.mDrmManagerService.getOriginalMimeType uniqueId path,
            c.logRemote (ServiceCall.getOriginalMimeType uniqueId path))) ∧
    (∀ action : Int,
      c.getConstraints uniqueId none action = (none, c) ∧
      c.getConstraints uniqueId (some "") action = (none, c) ∧
      ∀ path : String8, path ≠ "" →
        c.getConstraints uniqueId (some path) action =
          (c.mDrmManagerService.getConstraints uniqueId (some path) action,
            c.logRemote (ServiceCall.getConstraints uniqueId (some path) action))) ∧
    (c.openConvertSession uniqueId "" = (-1, c) ∧
      ∀ mimeType : String8, mimeType ≠ "" →
        c.openConvertSession uniqueId mimeType =
          (c.mDrmManagerService.openConvertSession uniqueId mimeType,
            c.logRemote (ServiceCall.openConvertSession uniqueId mimeType))) ∧
    (∀ convertId : Int,
      c.convertData uniqueId convertId none = (none, c) ∧
      ∀ inputData : DrmBuffer,
        c.convertData uniqueId convertId (some inputData) =
          (c.mDrmManagerService.convertData uniqueId convertId (some inputData),
            c.logRemote (ServiceCall.convertData uniqueId convertId (some inputData)))) ∧
    (∀ (decryptUnitId : Int) (decryptHandle : Option DecryptHandle)
        (encBuffer : Option DrmBuffer) (decBuffer : Option (Option DrmBuffer)),
      (decryptHandle = none ∨ encBuffer = none ∨ decBuffer = none ∨ decBuffer = some none →
        c.decrypt uniqueId decryptHandle decryptUnitId encBuffer decBuffer =
          (DRM_ERROR_UNKNOWN, c)) ∧
      ∀ (h : DecryptHandle) (enc dec : DrmBuffer),
        c.decrypt uniqueId (some h) decryptUnitId (some enc) (some (some dec)) =
          (c.mDrmManagerService.decrypt uniqueId (some h) decryptUnitId (some enc)
              (some (some dec)),
            c.logRemote (ServiceCall.decrypt uniqueId (some h) decryptUnitId (some enc)
              (some (some dec))))) ∧
    (∀ (decryptHandle : Option DecryptHandle) (buffer : Option DrmBuffer)
        (numBytes offset : Int),
      (decryptHandle = none ∨ buffer = none ∨ numBytes ≤ 0 →
        c.pread uniqueId decryptHandle buffer numBytes offset = (-1, c)) ∧
      ∀ (h : DecryptHandle) (buf : DrmBuffer), 0 < numBytes →
        c.pread uniqueId (some h) (some buf) numBytes offset =
          (c.mDrmManagerService.pread uniqueId (some h) (some buf) numBytes offset,
            c.logRemote (ServiceCall.pread uniqueId (some h) (some buf) numBytes offset))) := by
  refine ⟨⟨?_, ?_⟩, ⟨?_, ?_⟩, ?_, ?_, ⟨?_, ?_⟩, ?_, ⟨?_, ?_⟩, ?_, ?_, ?_⟩
  · simp [canHandle, EMPTY_STRING]
  · intro path mimeType h
    have hc : EMPTY_STRING ≠ path ∨ EMPTY_STRING ≠ mimeType :=
      h.imp (fun a b => a b.symm) (fun a b => a b.symm)
    simp only [canHandle, if_pos hc]
  · simp [getDrmObjectType, EMPTY_STRING]
  · intro path mimeType h
    have hc : EMPTY_STRING ≠ path ∨ EMPTY_STRING ≠ mimeType :=
      h.imp (fun a b => a b.symm) (fun a b => a b.symm)
    simp only [getDrmObjectType, if_pos hc]
  · intro action
    refine ⟨by simp [checkRightsStatus, EMPTY_STRING], ?_⟩
    intro path h
    have hc : EMPTY_STRING ≠ path := fun b => h b.symm
    simp only [checkRightsStatus, if_pos hc]
  · intro action description
    refine ⟨by simp [validateAction, EMPTY_STRING], ?_⟩
    intro path h
    have hc : EMPTY_STRING ≠ path := fun b => h b.symm
    simp only [validateAction, if_pos hc]
  · simp [getOriginalMimeType, EMPTY_STRING]
  · intro path h
    have hc : EMPTY_STRING ≠ path := fun b => h b.symm
    simp only [getOriginalMimeType, if_pos hc]
  · intro action
    refine ⟨rfl, by simp [getConstraints, EMPTY_STRING], ?_⟩
    intro path h
    have hc : EMPTY_STRING ≠ path := fun b => h b.symm
    simp only [getConstraints, if_pos hc]
  · simp [openConvertSession, EMPTY_STRING, INVALID_VALUE]
  · intro mimeType h
    have hc : EMPTY_STRING ≠ mimeType := fun b => h b.symm
    simp only [openConvertSession, if_pos hc]
  · intro convertId
    refine ⟨by simp [convertData], ?_⟩
    intro inputData
    simp [convertData]
  · intro decryptUnitId decryptHandle encBuffer decBuffer
    refine ⟨?_, ?_⟩
    · intro h
      have hc : ¬ (decryptHandle ≠ none ∧ encBuffer ≠ none ∧ decBuffer ≠ none ∧
          decBuffer ≠ some none) := by
        rintro ⟨h1, h2, h3, h4⟩
        rcases h with h | h | h | h
        · exact h1 h
        · exact h2 h
        · exact h3 h
        · exact h4 h
      simp only [decrypt, if_neg hc]
    · intro h enc dec
      simp [decrypt]
  · intro decryptHandle buffer numBytes offset
    refine ⟨?_, ?_⟩
    · intro h
      have hc : ¬ (decryptHandle ≠ none ∧ buffer ≠ none ∧ 0 < numBytes) := by
        rintro ⟨h1, h2, h3⟩
        rcases h with h | h | h
        · exact h1 h
        · exact h2 h
        · omega
      simp only [pread, if_neg hc, INVALID_VALUE]
    · intro h buf hn
      simp [pread, hn]

/-- C17 at a client of a service that would accept everything: with an empty
path and an empty MIME type `canHandle` is false and no call is recorded, with
the path "a.abc" the answer is the service's and one call is recorded. -/
theorem client_validation_is_local_witness :
    clientAnswering.canHandle 7 "" "" = (false, clientAnswering) ∧
    (clientAnswering.canHandle 7 "a.abc" "").1 = true ∧
    (clientAnswering.canHandle 7 "a.abc" "").2.remoteCalls =
      [ServiceCall.canHandle 7 "a.abc" ""] :=
  have h := (client_validation_is_local clientAnswering 7).1
  ⟨h.1, by rw [h.2 "a.abc" "" (Or.inl (by decide))]; rfl,
    by rw [h.2 "a.abc" "" (Or.inl (by decide))]; rfl⟩

end DrmManagerClientImpl

/-! ## Caller identities -/

namespace DrmManagerClientImpl

/-- The id the retry loop settles on is not in use. -/
theorem findUniqueId_not_mem (v : List Int) (draws : List Nat) (u : Int)
    (h : findUniqueId v draws = some u) : u ∉ v := by
  induction draws with
  | nil => simp [findUniqueId] at h
  | cons r rest ih =>
    rw [findUniqueId] at h
    by_cases hm : ((r % 100 : Nat) : Int) ∈ v
    · simp only [hm, if_true] at h
      exact ih h
    · simp only [hm, if_false] at h
      cases h
      exact hm

/-- The id the retry loop settles on lies in 0..99. -/
theorem findUniqueId_range (v : List Int) (draws : List Nat) (u : Int)
    (h : findUniqueId v draws = some u) : 0 ≤ u ∧ u < 100 := by
  induction draws with
  | nil => simp [findUniqueId] at h
  | cons r rest ih =>
    rw [findUniqueId] at h
    by_cases hm : ((r % 100 : Nat) : Int) ∈ v
    · simp only [hm, if_true] at h
      exact ih h
    · simp only [hm, if_false] at h
      cases h
      omega

theorem remove_sublist (uniqueId : Int) (v : List Int) :
    (remove uniqueId v).Sublist v := by
  induction v with
  | nil => exact List.Sublist.refl _
  | cons x rest ih =>
    rw [remove]
    by_cases h : uniqueId = x
    · simp only [h, if_true]
      exact List.sublist_cons_self x rest
    · simp only [h, if_false]
      exact ih.cons₂ x

theorem nodup_append_singleton (v : List Int) (u : Int) (hv : v.Nodup) (hu : u ∉ v) :
    (v ++ [u]).Nodup := by
  rw [List.nodup_append]
  refine ⟨hv, List.nodup_singleton u, ?_⟩
  intro a ha hb
  rw [List.mem_singleton.mp hb] at ha
  exact hu ha

/-- One call keeps the in-use list free of repetitions when `create` is asked for
id 0 or for an id that is not in use. -/
theorem stepIds_nodup (v : List Int) (op : IdOp) (v2 : List Int) (hv : v.Nodup)
    (hf : requestsFresh v [op] = true) (hs : stepIds v op = some v2) : v2.Nodup := by
  cases op with
  | remove uniqueId =>
    simp only [stepIds, Option.some.injEq] at hs
    rw [← hs]
    exact hv.sublist (remove_sublist uniqueId v)
  | create pUniqueId draws =>
    simp only [requestsFresh, Bool.and_eq_true, decide_eq_true_eq] at hf
    have hreq := hf.1
    simp only [stepIds, create] at hs
    by_cases hz : 0 = pUniqueId
    · simp only [hz, if_true] at hs
      cases hu : findUniqueId v draws with
      | none => simp [hu] at hs
      | some u =>
        simp only [hu, Option.map_some', Option.some.injEq] at hs
        rw [← hs]
        exact nodup_append_singleton v u hv (findUniqueId_not_mem v draws u hu)
    · simp only [hz, if_false, Option.map_some', Option.some.injEq] at hs
      rw [← hs]
      rcases hreq with h | h
      · exact absurd h.symm hz
      · exact nodup_append_singleton v pUniqueId hv h

/-- A sequence of calls keeps the in-use list free of repetitions when every
`create` is asked for id 0 or for an id that is not in use. -/
theorem runIds_nodup (ops : List IdOp) (v0 v : List Int) (h0 : v0.Nodup)
    (hf : requestsFresh v0 ops = true) (hr : runIds v0 ops = some v) : v.Nodup := by
  induction ops generalizing v0 with
  | nil =>
    simp only [runIds, Option.some.injEq] at hr
    rw [← hr]
    exact h0
  | cons op rest ih =>
    rw [runIds] at hr
    simp only [requestsFresh] at hf
    cases hs : stepIds v0 op with
    | none => simp [hs] at hr
    | some v2 =>
      simp only [hs] at hr hf
      rw [Bool.and_eq_true] at hf
      have h1 : requestsFresh v0 [op] = true := by
        simp only [requestsFresh, hs, Bool.and_true]
        exact hf.1
      exact ih v2 (stepIds_nodup v0 op v2 h0 h1 hs) hf.2 hr

/-- C18, the claim as stated fails: `create` with a requested id other than 0
appends the id without looking at the in-use list, so two calls `create(5)` from
the empty list leave 5 in the list twice. -/
theorem create_twice_repeats_id :
    runIds [] [IdOp.create 5 [], IdOp.create 5 []] = some [5, 5] ∧
    ¬ ([5, 5] : List Int).Nodup := by
  decide

/-- C18, amended: after every sequence of `create` and `remove` calls starting
from an empty in-use list in which each `create` is called with requested id 0
or with an id that is not in use at that moment, the in-use list contains no
value twice. -/
theorem ids_distinct_when_requests_fresh (ops : List IdOp) (v : List Int)
    (hf : requestsFresh [] ops = true) (hr : runIds [] ops = some v) : v.Nodup :=
  runIds_nodup ops [] v List.nodup_nil hf hr

/-- C18, amended, on a run: `create(0)` drawing 5; `create(0)` drawing 105, which
is 5 again and rejected, then 7; `create(9)`; `remove(5)`; `create(5)`. -/
theorem ids_distinct_when_requests_fresh_witness :
    runIds [] [IdOp.create 0 [5], IdOp.create 0 [105, 7], IdOp.create 9 [], IdOp.remove 5,
      IdOp.create 5 []] = some [7, 9, 5] ∧
    ([7, 9, 5] : List Int).Nodup :=
  ⟨by decide,
    ids_distinct_when_requests_fresh
      [IdOp.create 0 [5], IdOp.create 0 [105, 7], IdOp.create 9 [], IdOp.remove 5,
        IdOp.create 5 []] [7, 9, 5] (by decide) (by decide)⟩

end DrmManagerClientImpl

/-! ## The engine base forwards -/

namespace DrmEngineBase

/-- C19, the claim as stated fails: `getConstraints` called with a null path
does not fail locally; it invokes `onGetConstraints` with the null path and
returns what the handler returns, here constraints with one pair. -/
theorem getConstraints_null_path_is_forwarded :
    (baseAnswering.getConstraints 1 none 0).1 = some [("license", "ok")] ∧
    (baseAnswering.getConstraints 1 none 0).2.handled =
      [HandlerCall.onGetConstraints 1 none 0] := by
  decide

/-- C19, amended: every `DrmEngineBase` operation forwards without validating.
Each of the 26 operations invokes the matching `on*` handler exactly once, with
the arguments of the call unchanged, also when a pointer argument is null, and
nothing is checked before; an operation with a result returns exactly the
handler's result. -/
theorem operations_forward_to_handlers (b : DrmEngineBase) (uniqueId : Int) :
    (∀ (path : Option String8) (action : Int),
      b.getConstraints uniqueId path action =
        (b.onGetConstraints uniqueId path action,
          { b with handled := b.handled ++ [HandlerCall.onGetConstraints uniqueId path action] })) ∧
    b.initializeEngine uniqueId =
      (b.onInitialize uniqueId,
        { b with handled := b.handled ++ [HandlerCall.onInitialize uniqueId] }) ∧
    (∀ infoListener : Option Nat,
      b.setOnInfoListener uniqueId infoListener =
        (b.onSetOnInfoListener uniqueId infoListener,
          { b with
            handled := b.handled ++ [HandlerCall.onSetOnInfoListener uniqueId infoListener] })) ∧
    b.terminate uniqueId =
      (b.onTerminate uniqueId,
        { b with handled := b.handled ++ [HandlerCall.onTerminate uniqueId] }) ∧
    (∀ path : String8,
      b.canHandle uniqueId path =
        (b.onCanHandle uniqueId path,
          { b with handled := b.handled ++ [HandlerCall.onCanHandle uniqueId path] })) ∧
    (∀ drmInfo : Option DrmInfo,
      b.processDrmInfo uniqueId drmInfo =
        (b.onProcessDrmInfo uniqueId drmInfo,
          { b with handled := b.handled ++ [HandlerCall.onProcessDrmInfo uniqueId drmInfo] })) ∧
    (∀ (drmRights : DrmRights) (rightsPath contentPath : String8),
      b.saveRights uniqueId drmRights rightsPath contentPath =
        { b with
          handled := b.handled ++
            [HandlerCall.onSaveRights uniqueId drmRights rightsPath contentPath] }) ∧
    (∀ drmInfoRequest : Option DrmInfoRequest,
      b.acquireDrmInfo uniqueId drmInfoRequest =
        (b.onAcquireDrmInfo uniqueId drmInfoRequest,
          { b with
            handled := b.handled ++ [HandlerCall.onAcquireDrmInfo uniqueId drmInfoRequest] })) ∧
    (∀ path : String8,
      b.getOriginalMimeType uniqueId path =
        (b.onGetOriginalMimeType uniqueId path,
          { b with handled := b.handled ++ [HandlerCall.onGetOriginalMimeType uniqueId path] })) ∧
    (∀ path mimeType : String8,
      b.getDrmObjectType uniqueId path mimeType =
        (b.onGetDrmObjectType uniqueId path mimeType,
          { b with
            handled := b.handled ++ [HandlerCall.onGetDrmObjectType uniqueId path mimeType] })) ∧
    (∀ (path : String8) (action : Int),
      b.checkRightsStatus uniqueId path action =
        (b.onCheckRightsStatus uniqueId path action,
          { b with
            handled := b.handled ++ [HandlerCall.onCheckRightsStatus uniqueId path action] })) ∧
    (∀ (decryptHandle : Option DecryptHandle) (action : Int) (reserve : Bool),
      b.consumeRights uniqueId decryptHandle action reserve =
        { b with
          handled := b.handled ++
            [HandlerCall.onConsumeRights uniqueId decryptHandle action reserve] }) ∧
    (∀ (decryptHandle : Option DecryptHandle) (playbackStatus position : Int),
      b.setPlaybackStatus uniqueId decryptHandle playbackStatus position =
        { b with
          handled := b.handled ++
            [HandlerCall.onSetPlaybackStatus uniqueId decryptHandle playbackStatus position] }) ∧
    (∀ (path : String8) (action : Int) (description : ActionDescription),
      b.validateAction uniqueId path action description =
        (b.onValidateAction uniqueId path action description,
          { b with
            handled := b.handled ++
              [HandlerCall.onValidateAction uniqueId path action description] })) ∧
    (∀ path : String8,
      b.removeRights uniqueId path =
        { b with handled := b.handled ++ [HandlerCall.onRemoveRights uniqueId path] }) ∧
    b.removeAllRights uniqueId =
      { b with handled := b.handled ++ [HandlerCall.onRemoveAllRights uniqueId] } ∧
    (∀ convertId : Int,
      b.openConvertSession uniqueId convertId =
        { b with handled := b.handled ++ [HandlerCall.onOpenConvertSession uniqueId convertId] }) ∧
    (∀ (convertId : Int) (inputData : Option DrmBuffer),
      b.convertData uniqueId convertId inputData =
        (b.onConvertData uniqueId convertId inputData,
          { b with
            handled := b.handled ++ [HandlerCall.onConvertData uniqueId convertId inputData] })) ∧
    (∀ convertId : Int,
      b.closeConvertSession uniqueId convertId =
        (b.onCloseConvertSession uniqueId convertId,
          { b with
            handled := b.handled ++ [HandlerCall.onCloseConvertSession uniqueId convertId] })) ∧
    b.getSupportInfo uniqueId =
      (b.onGetSupportInfo uniqueId,
        { b with handled := b.handled ++ [HandlerCall.onGetSupportInfo uniqueId] }) ∧
    (∀ (decryptHandle : Option DecryptHandle) (fd offset length : Int),
      b.openDecryptSession uniqueId decryptHandle fd offset length =
        (b.onOpenDecryptSession uniqueId decryptHandle fd offset length,
          { b with
            handled := b.handled ++
              [HandlerCall.onOpenDecryptSession uniqueId decryptHandle fd offset length] })) ∧
    (∀ decryptHandle : Option DecryptHandle,
      b.closeDecryptSession uniqueId decryptHandle =
        { b with
          handled := b.handled ++ [HandlerCall.onCloseDecryptSession uniqueId decryptHandle] }) ∧
    (∀ (decryptHandle : Option DecryptHandle) (decryptUnitId : Int)
        (headerInfo : Option DrmBuffer),
      b.initializeDecryptUnit uniqueId decryptHandle decryptUnitId headerInfo =
        { b with
          handled := b.handled ++
            [HandlerCall.onInitializeDecryptUnit uniqueId decryptHandle decryptUnitId
              headerInfo] }) ∧
    (∀ (decryptHandle : Option DecryptHandle) (decryptUnitId : Int)
        (encBuffer : Option DrmBuffer) (decBuffer : Option (Option DrmBuffer)),
      b.decrypt uniqueId decryptHandle decryptUnitId encBuffer decBuffer =
        (b.onDecrypt uniqueId decryptHandle decryptUnitId encBuffer decBuffer,
          { b with
            handled := b.handled ++
              [HandlerCall.onDecrypt uniqueId decryptHandle decryptUnitId encBuffer
                decBuffer] })) ∧
    (∀ (decryptHandle : Option DecryptHandle) (decryptUnitId : Int),
      b.finalizeDecryptUnit uniqueId decryptHandle decryptUnitId =
        { b with
          handled := b.handled ++
            [HandlerCall.onFinalizeDecryptUnit uniqueId decryptHandle decryptUnitId] }) ∧
    (∀ (decryptHandle : Option DecryptHandle) (buffer : Option DrmBuffer)
        (numBytes offset : Int),
      b.pread uniqueId decryptHandle buffer numBytes offset =
        (b.onPread uniqueId decryptHandle buffer numBytes offset,
          { b with
            handled := b.handled ++
              [HandlerCall.onPread uniqueId decryptHandle buffer numBytes offset] })) :=
  ⟨fun _ _ => rfl, rfl, fun _ => rfl, rfl, fun _ => rfl, fun _ => rfl, fun _ _ _ => rfl,
    fun _ => rfl, fun _ => rfl, fun _ _ => rfl, fun _ _ => rfl, fun _ _ _ => rfl,
    fun _ _ _ => rfl, fun _ _ _ => rfl, fun _ => rfl, rfl, fun _ => rfl, fun _ _ => rfl,
    fun _ => rfl, rfl, fun _ _ _ _ => rfl, fun _ => rfl, fun _ _ _ => rfl,
    fun _ _ _ _ => rfl, fun _ _ => rfl, fun _ _ _ _ => rfl⟩

/-- C19, amended, at an engine whose handlers answer everything: `decrypt` with
a null handle and null buffers returns the handler's status and the handler was
invoked with the null arguments; `closeDecryptSession` with a null handle
invokes its handler with the null handle. -/
theorem operations_forward_to_handlers_witness :
    (baseAnswering.decrypt 1 none 0 none none).1 = DRM_NO_ERROR ∧
    (baseAnswering.decrypt 1 none 0 none none).2.handled =
      [HandlerCall.onDecrypt 1 none 0 none none] ∧
    (baseAnswering.closeDecryptSession 1 none).handled =
      [HandlerCall.onCloseDecryptSession 1 none] := by
  obtain ⟨_, _, _, _, _, _, _, _, _, _, _, _, _, _, _, _, _, _, _, _, _, hclose, _, hdecrypt, _,
    _⟩ := operations_forward_to_handlers baseAnswering 1
  exact ⟨by rw [hdecrypt]; rfl, by rw [hdecrypt]; rfl, by rw [hclose]; rfl⟩

end DrmEngineBase

/-! ## Installing an engine that is already registered -/

namespace KeyedVector

theorem insertEntry_of_findEntry {K V : Type} [DecidableEq K] (k : K) (v : V)
    (l : List (K × V)) (h : findEntry k l = some v) : insertEntry k v l = l := by
  induction l with
  | nil => simp [findEntry] at h
  | cons e rest ih =>
    obtain ⟨k1, v1⟩ := e
    rw [findEntry] at h
    rw [insertEntry]
    by_cases hk : k1 = k
    · simp only [hk, if_true, Option.some.injEq] at h
      simp only [hk, if_true, h]
    · simp only [hk, if_false] at h
      simp only [hk, if_false, ih h]

/-- Binding a key to the value it is already bound to changes nothing. -/
theorem add_of_lookup {K V : Type} [DecidableEq K] (m : KeyedVector K V) (k : K) (v : V)
    (h : m.lookup k = some v) : m.add k v = m := by
  cases m with
  | mk l =>
    simp only [add]
    rw [insertEntry_of_findEntry k v l h]

end KeyedVector

namespace PlugInManager

/-- Loading under an identifier that is already loaded changes nothing. -/
theorem loadPlugIn_of_loaded (pm : PlugInManager) (p e : PlugIn)
    (h : pm.getPlugIn p.plugInId = some e) : pm.loadPlugIn p = pm := by
  have hm : p.plugInId ∈ pm.getPlugInIdList := by
    unfold getPlugInIdList
    exact List.mem_map.mpr ⟨e, getPlugIn_mem pm _ e h, getPlugIn_plugInId pm _ e h⟩
  unfold loadPlugIn
  rw [if_pos hm]

end PlugInManager

namespace DrmManager

/-- The outcome of `installDrmEngine` for an identifier that is registered and
whose engine reports a descriptor. -/
theorem installDrmEngine_registered_eq (s : DrmManager) (uniqueId : Int) (p : String8)
    (found : Option IDrmEngine) (e : PlugIn) (d : DrmSupportInfo)
    (he : s.mPlugInManager.getPlugIn p = some e)
    (hd : e.engine.getSupportInfo uniqueId = some d) :
    s.installDrmEngine uniqueId p found =
      some (DRM_NO_ERROR,
        { s with
          trace := s.trace ++ [(p, EngineCall.onInitialize uniqueId),
            (p, EngineCall.setOnInfoListener uniqueId), (p, EngineCall.getSupportInfo uniqueId)]
          mSupportInfoToPlugInIdMap := s.mSupportInfoToPlugInIdMap.add d p }) := by
  have hs1 : (match found with
      | some engine =>
        { s with mPlugInManager := s.mPlugInManager.loadPlugIn ⟨p, engine⟩ }
      | none => s) = s := by
    cases found with
    | none => rfl
    | some engine =>
      have := PlugInManager.loadPlugIn_of_loaded s.mPlugInManager ⟨p, engine⟩ e he
      simp only [this]
  unfold installDrmEngine
  simp only [hs1, he, hd, logCall, List.append_assoc, List.singleton_append, List.cons_append,
    List.nil_append]

/-- C20, the claim as stated fails: in a manager where "B" is registered (and
indexed), installing "B" again returns `DRM_NO_ERROR`, not a failure status. -/
theorem installDrmEngine_registered_returns_no_error :
    "B" ∈ managerAnswering.mPlugInManager.getPlugInIdList ∧
    (managerAnswering.installDrmEngine 7 "B" (some engineAnswering.engine)).map Prod.fst =
      some DRM_NO_ERROR := by
  decide

/-- C20, amended: in every manager state in which identifier `p` is registered
with an engine that reports the descriptor `d`, `installDrmEngine(uniqueId, p)`
returns `DRM_NO_ERROR`; the registry is unchanged; `initialize`,
`setOnInfoListener` and `getSupportInfo` are called again on the registered
engine; and `d` is bound to `p` in the Capability Index, which is unchanged
when `d` was already bound to `p`. -/
theorem installDrmEngine_of_registered (s : DrmManager) (uniqueId : Int) (p : String8)
    (found : Option IDrmEngine) (e : PlugIn) (d : DrmSupportInfo)
    (he : s.mPlugInManager.getPlugIn p = some e)
    (hd : e.engine.getSupportInfo uniqueId = some d) :
    ∃ s2 : DrmManager,
      s.installDrmEngine uniqueId p found = some (DRM_NO_ERROR, s2) ∧
      s2.mPlugInManager = s.mPlugInManager ∧
      s2.trace = s.trace ++ [(p, EngineCall.onInitialize uniqueId),
        (p, EngineCall.setOnInfoListener uniqueId), (p, EngineCall.getSupportInfo uniqueId)] ∧
      s2.mSupportInfoToPlugInIdMap = s.mSupportInfoToPlugInIdMap.add d p ∧
      s2.mSupportInfoToPlugInIdMap.lookup d = some p ∧
      (s.mSupportInfoToPlugInIdMap.lookup d = some p →
        s2.mSupportInfoToPlugInIdMap = s.mSupportInfoToPlugInIdMap) ∧
      s2.mDecryptSessionMap = s.mDecryptSessionMap ∧
      s2.mConvertSessionMap = s.mConvertSessionMap := by
  refine ⟨_, installDrmEngine_registered_eq s uniqueId p found e d he hd, rfl, rfl, rfl, ?_, ?_,
    rfl, rfl⟩
  · simp [KeyedVector.lookup_add]
  · intro h
    exact KeyedVector.add_of_lookup _ d p h

/-- C20, amended, at the manager where "B" is registered and indexed. -/
theorem installDrmEngine_of_registered_witness :
    managerAnswering.mPlugInManager.getPlugIn "B" = some engineAnswering ∧
    engineAnswering.engine.getSupportInfo 7 = some infoB ∧
    ∃ s2 : DrmManager,
      managerAnswering.installDrmEngine 7 "B" none = some (DRM_NO_ERROR, s2) ∧
      s2.mSupportInfoToPlugInIdMap = managerAnswering.mSupportInfoToPlugInIdMap :=
  have h := installDrmEngine_of_registered managerAnswering 7 "B" none engineAnswering infoB
    rfl rfl
  ⟨rfl, rfl, h.choose, h.choose_spec.1, h.choose_spec.2.2.2.2.2.1 (by decide)⟩

end DrmManager

/-! ## Engines that report no support descriptor -/

namespace KeyedVector

theorem findEntry_mem {K V : Type} [DecidableEq K] (k : K) (v : V) (l : List (K × V))
    (h : findEntry k l = some v) : (k, v) ∈ l := by
  induction l with
  | nil => simp [findEntry] at h
  | cons e rest ih =>
    obtain ⟨k1, v1⟩ := e
    rw [findEntry] at h
    by_cases hk : k1 = k
    · simp only [hk, if_true, Option.some.injEq] at h
      rw [hk, h]
      exact List.mem_cons_self _ _
    · simp only [hk, if_false] at h
      exact List.mem_cons_of_mem _ (ih h)

theorem mem_insertEntry {K V : Type} [DecidableEq K] (k : K) (v : V) (l : List (K × V))
    (e : K × V) (h : e ∈ insertEntry k v l) : e = (k, v) ∨ e ∈ l := by
  induction l with
  | nil =>
    simp only [insertEntry, List.mem_singleton] at h
    exact Or.inl h
  | cons a rest ih =>
    obtain ⟨k1, v1⟩ := a
    rw [insertEntry] at h
    by_cases hk : k1 = k
    · simp only [hk, if_true] at h
      rcases List.mem_cons.mp h with h1 | h1
      · exact Or.inl h1
      · exact Or.inr (List.mem_cons_of_mem _ h1)
    · simp only [hk, if_false] at h
      rcases List.mem_cons.mp h with h1 | h1
      · exact Or.inr (by rw [h1]; exact List.mem_cons_self _ _)
      · rcases ih h1 with h2 | h2
        · exact Or.inl h2
        · exact Or.inr (List.mem_cons_of_mem _ h2)

theorem mem_foldl_insertEntry {K V : Type} [DecidableEq K] (es l : List (K × V)) (e : K × V)
    (h : e ∈ es.foldl (fun acc x => insertEntry x.1 x.2 acc) l) : e ∈ l ∨ e ∈ es := by
  induction es generalizing l with
  | nil => exact Or.inl h
  | cons x rest ih =>
    rw [List.foldl_cons] at h
    rcases ih _ h with h1 | h1
    · rcases mem_insertEntry x.1 x.2 l e h1 with h2 | h2
      · exact Or.inr (by rw [h2]; exact List.mem_cons_self _ _)
      · exact Or.inl h2
    · exact Or.inr (List.mem_cons_of_mem _ h1)

/-- The value `valueFor` finds, when it is not the default, is bound in the map. -/
theorem valueFor_mem {K V : Type} [DecidableEq K] (m : KeyedVector K V) (k : K) (dflt : V) :
    m.valueFor k dflt = dflt ∨ (k, m.valueFor k dflt) ∈ m.mVector := by
  unfold valueFor lookup
  cases h : findEntry k m.mVector with
  | none => exact Or.inl rfl
  | some v => exact Or.inr (findEntry_mem k v m.mVector h)

end KeyedVector

namespace DrmManager

/-- MIME resolution returns the empty identifier or an identifier bound in the
Capability Index. -/
theorem mimeScan_value (m : KeyedVector DrmSupportInfo String8) (mimeType : String8)
    (ks : List DrmSupportInfo) :
    mimeScan m mimeType ks = "" ∨ ∃ d, (d, mimeScan m mimeType ks) ∈ m.mVector := by
  induction ks with
  | nil => exact Or.inl rfl
  | cons k rest ih =>
    rw [mimeScan]
    by_cases hk : k.isSupportedMimeType mimeType = true
    · simp only [hk, if_true]
      rcases KeyedVector.valueFor_mem m k "" with h | h
      · exact Or.inl h
      · exact Or.inr ⟨k, h⟩
    · simp only [hk, Bool.false_eq_true, if_false]
      exact ih

theorem getSupportedPlugInId_value (s : DrmManager) (mimeType : String8) :
    s.getSupportedPlugInId mimeType = "" ∨
      ∃ d, (d, s.getSupportedPlugInId mimeType) ∈ s.mSupportInfoToPlugInIdMap.mVector := by
  unfold getSupportedPlugInId
  by_cases hm : EMPTY_STRING ≠ mimeType
  · rw [if_pos hm]
    exact mimeScan_value _ _ _
  · rw [if_neg hm]
    exact Or.inl rfl

/-- Path resolution returns the empty identifier or an identifier bound in the
Capability Index. -/
theorem pathScan_value (uniqueId : Int) (path fileSuffix : String8)
    (ks : List DrmSupportInfo) (s : DrmManager) :
    (pathScan uniqueId path fileSuffix ks s).1 = "" ∨
      ∃ d, (d, (pathScan uniqueId path fileSuffix ks s).1) ∈
        s.mSupportInfoToPlugInIdMap.mVector := by
  induction ks generalizing s with
  | nil => exact Or.inl rfl
  | cons k rest ih =>
    rw [pathScan]
    by_cases hd : k.isSupportedFileSuffix fileSuffix = true
    · simp only [hd, if_true]
      cases hg : s.mPlugInManager.getPlugIn (s.mSupportInfoToPlugInIdMap.valueFor k "") with
      | none => exact ih s
      | some e =>
        by_cases hc : e.engine.canHandle uniqueId path = true
        · simp only [hc, if_true]
          rcases KeyedVector.valueFor_mem s.mSupportInfoToPlugInIdMap k "" with h | h
          · exact Or.inl h
          · exact Or.inr ⟨k, h⟩
        · simp only [hc, Bool.false_eq_true, if_false]
          exact ih (s.logCall (s.mSupportInfoToPlugInIdMap.valueFor k "")
            (EngineCall.canHandle uniqueId path))
    · simp only [hd, Bool.false_eq_true, if_false]
      exact ih s

/-- The one-argument `canHandle` passes over engines that reject the path and
records one probe for each. -/
theorem canHandleLoop_append (uniqueId : Int) (path : String8) (pre : List PlugIn)
    (ids : List String8) (s : DrmManager)
    (hget : ∀ q ∈ pre, s.mPlugInManager.getPlugIn q.plugInId = some q)
    (hrej : ∀ q ∈ pre, q.engine.canHandle uniqueId path = false) :
    canHandleLoop uniqueId path (pre.map PlugIn.plugInId ++ ids) s =
      canHandleLoop uniqueId path ids
        { s with
          trace := s.trace ++
            pre.map (fun q => (q.plugInId, EngineCall.canHandle uniqueId path)) } := by
  induction pre generalizing s with
  | nil => simp
  | cons p rest ih =>
    have hp := hget p (List.mem_cons_self p rest)
    have hr := hrej p (List.mem_cons_self p rest)
    rw [List.map_cons, List.cons_append, canHandleLoop]
    simp only [hp, hr, Bool.false_eq_true, if_false]
    rw [ih (s.logCall p.plugInId (EngineCall.canHandle uniqueId path))
      (fun q hq => by simpa using hget q (List.mem_cons_of_mem p hq))
      (fun q hq => hrej q (List.mem_cons_of_mem p hq))]
    simp [logCall]

/-- The trace of a `canHandleLoop` extends the trace it starts from. -/
theorem canHandleLoop_trace (uniqueId : Int) (path : String8) (ids : List String8)
    (s : DrmManager) :
    ∃ more, (canHandleLoop uniqueId path ids s).2.trace = s.trace ++ more := by
  induction ids generalizing s with
  | nil => exact ⟨[], by simp [canHandleLoop]⟩
  | cons i rest ih =>
    rw [canHandleLoop]
    cases hg : s.mPlugInManager.getPlugIn i with
    | none => exact ih s
    | some e =>
      by_cases hc : e.engine.canHandle uniqueId path = true
      · simp only [hc, if_true]
        exact ⟨[(i, EngineCall.canHandle uniqueId path)], rfl⟩
      · simp only [hc, Bool.false_eq_true, if_false]
        obtain ⟨more, hm⟩ := ih (s.logCall i (EngineCall.canHandle uniqueId path))
        exact ⟨(i, EngineCall.canHandle uniqueId path) :: more, by rw [hm]; simp [logCall]⟩

/-- An engine is probed by the one-argument `canHandle` when the engines
registered before it reject the path, and its acceptance is the answer. -/
theorem canHandle_probes (s : DrmManager) (uniqueId : Int) (path : String8)
    (pre post : List PlugIn) (p : PlugIn)
    (hsplit : s.mPlugInManager.plugIns = pre ++ p :: post)
    (hids : (s.mPlugInManager.plugIns.map PlugIn.plugInId).Nodup)
    (hrej : ∀ q ∈ pre, q.engine.canHandle uniqueId path = false) :
    (∃ more, (s.canHandle uniqueId path).2.trace =
      s.trace ++ pre.map (fun q => (q.plugInId, EngineCall.canHandle uniqueId path)) ++
        (p.plugInId, EngineCall.canHandle uniqueId path) :: more) ∧
    (p.engine.canHandle uniqueId path = true → (s.canHandle uniqueId path).1 = true) := by
  have hget : ∀ q ∈ s.mPlugInManager.plugIns, s.mPlugInManager.getPlugIn q.plugInId = some q :=
    fun q hq => PlugInManager.getPlugIn_of_nodup s.mPlugInManager.plugIns hids q hq
  have hidl : s.mPlugInManager.getPlugInIdList =
      pre.map PlugIn.plugInId ++ (p :: post).map PlugIn.plugInId := by
    simp [PlugInManager.getPlugInIdList, hsplit]
  have he : s.mPlugInManager.getPlugIn p.plugInId = some p :=
    hget p (by rw [hsplit]; simp)
  have heq : s.canHandle uniqueId path =
      canHandleLoop uniqueId path ((p :: post).map PlugIn.plugInId)
        { s with
          trace := s.trace ++
            pre.map (fun q => (q.plugInId, EngineCall.canHandle uniqueId path)) } := by
    unfold canHandle
    rw [hidl, canHandleLoop_append uniqueId path pre _ s
      (fun q hq => hget q (by rw [hsplit]; exact List.mem_append_left _ hq)) hrej]
  rw [heq, List.map_cons, canHandleLoop]
  simp only [he]
  by_cases hc : p.engine.canHandle uniqueId path = true
  · simp only [hc, if_true]
    exact ⟨⟨[], by simp [logCall]⟩, fun _ => trivial⟩
  · simp only [hc, Bool.false_eq_true, if_false]
    refine ⟨?_, fun h => absurd h (by simp)⟩
    obtain ⟨more, hm⟩ := canHandleLoop_trace uniqueId path (post.map PlugIn.plugInId)
      (({ s with
          trace := s.trace ++
            pre.map (fun q => (q.plugInId, EngineCall.canHandle uniqueId path)) } :
        DrmManager).logCall p.plugInId (EngineCall.canHandle uniqueId path))
    exact ⟨more, by rw [hm]; simp [logCall]⟩

end DrmManager

namespace DrmManager

/-- The trace of an `openDecryptLoop` extends the trace it starts from. -/
theorem openDecryptLoop_trace (uniqueId fd offset length : Int) (ids : List String8)
    (h : DecryptHandle) (r0 : status_t) (s : DrmManager) :
    ∃ more, (openDecryptLoop uniqueId fd offset length ids h r0 s).2.2.trace =
      s.trace ++ more := by
  induction ids generalizing h r0 s with
  | nil => exact ⟨[], by simp [openDecryptLoop]⟩
  | cons i rest ih =>
    rw [openDecryptLoop]
    cases hg : s.mPlugInManager.getPlugIn i with
    | none => exact ih h r0 s
    | some e =>
      by_cases hc : DRM_NO_ERROR = (e.engine.openDecryptSession uniqueId h fd offset length).1
      · simp only [hc, if_true]
        exact ⟨[(i, EngineCall.openDecryptSession uniqueId h fd offset length)], rfl⟩
      · simp only [hc, if_false]
        obtain ⟨more, hm⟩ := ih (e.engine.openDecryptSession uniqueId h fd offset length).2
          (e.engine.openDecryptSession uniqueId h fd offset length).1
          (s.logCall i (EngineCall.openDecryptSession uniqueId h fd offset length))
        exact ⟨(i, EngineCall.openDecryptSession uniqueId h fd offset length) :: more,
          by rw [hm]; simp [logCall]⟩

/-- An engine is probed by `openDecryptSession` when the engines registered
before it fail, and the session is bound to it when it succeeds. -/
theorem openDecryptSession_probes (s : DrmManager) (uniqueId fd offset length : Int)
    (pre post : List PlugIn) (p : PlugIn)
    (hsplit : s.mPlugInManager.plugIns = pre ++ p :: post)
    (hids : (s.mPlugInManager.plugIns.map PlugIn.plugInId).Nodup)
    (hfail : allFail uniqueId fd offset length pre (newDecryptHandle s) = true) :
    (∃ more, (s.openDecryptSession uniqueId fd offset length).2.trace =
      s.trace ++ probeCalls uniqueId fd offset length pre (newDecryptHandle s) ++
        (p.plugInId, EngineCall.openDecryptSession uniqueId
          (handleAfter uniqueId fd offset length pre (newDecryptHandle s)) fd offset length) ::
          more) ∧
    ((p.engine.openDecryptSession uniqueId
        (handleAfter uniqueId fd offset length pre (newDecryptHandle s)) fd offset length).1 =
          DRM_NO_ERROR →
      (s.openDecryptSession uniqueId fd offset length).1 =
        some (p.engine.openDecryptSession uniqueId
          (handleAfter uniqueId fd offset length pre (newDecryptHandle s)) fd offset length).2 ∧
      (s.openDecryptSession uniqueId fd offset length).2.mDecryptSessionMap.lookup
        (wrapInt (s.mDecryptSessionId + 1)) = some p) := by
  have hget : ∀ q ∈ s.mPlugInManager.plugIns, s.mPlugInManager.getPlugIn q.plugInId = some q :=
    fun q hq => PlugInManager.getPlugIn_of_nodup s.mPlugInManager.plugIns hids q hq
  have hidl : s.mPlugInManager.getPlugInIdList =
      pre.map PlugIn.plugInId ++ (p :: post).map PlugIn.plugInId := by
    simp [PlugInManager.getPlugInIdList, hsplit]
  have he : s.mPlugInManager.getPlugIn p.plugInId = some p :=
    hget p (by rw [hsplit]; simp)
  constructor
  · rw [openDecryptSession_snd]
    unfold openDecryptProbe
    rw [hidl, openDecryptLoop_append uniqueId fd offset length pre _ _ _ s
      (fun q hq => hget q (by rw [hsplit]; exact List.mem_append_left _ hq)) hfail,
      List.map_cons, openDecryptLoop]
    simp only [he]
    by_cases hc : DRM_NO_ERROR = (p.engine.openDecryptSession uniqueId
        (handleAfter uniqueId fd offset length pre (newDecryptHandle s)) fd offset length).1
    · simp only [hc, if_true]
      exact ⟨[], by simp [logCall]⟩
    · simp only [hc, if_false]
      obtain ⟨more, hm⟩ := openDecryptLoop_trace uniqueId fd offset length
        (post.map PlugIn.plugInId)
        (p.engine.openDecryptSession uniqueId
          (handleAfter uniqueId fd offset length pre (newDecryptHandle s)) fd offset length).2
        (p.engine.openDecryptSession uniqueId
          (handleAfter uniqueId fd offset length pre (newDecryptHandle s)) fd offset length).1
        (({ s with
            trace := s.trace ++ probeCalls uniqueId fd offset length pre (newDecryptHandle s) } :
          DrmManager).logCall p.plugInId
            (EngineCall.openDecryptSession uniqueId
              (handleAfter uniqueId fd offset length pre (newDecryptHandle s)) fd offset length))
      exact ⟨more, by rw [hm]; simp [logCall]⟩
  · intro hok
    have hp := openDecryptProbe_success s uniqueId fd offset length pre post p hsplit hids
      hfail hok
    have h1 : (s.openDecryptProbe uniqueId fd offset length).1 = DRM_NO_ERROR := by rw [hp]
    constructor
    · unfold openDecryptSession
      have hne : ¬ DRM_ERROR_CANNOT_HANDLE = (s.openDecryptProbe uniqueId fd offset length).1 := by
        rw [h1]
        decide
      simp only [if_neg hne]
      rw [hp]
    · rw [openDecryptSession_snd, hp]
      simp [KeyedVector.lookup_add]

/-- The state `populate` builds from the empty index: the registry, the counter
and the entries of the index. -/
theorem populated_facts (uniqueId : Int) (ps : List PlugIn)
    (hids : (ps.map PlugIn.plugInId).Nodup) :
    (populated uniqueId ps).mPlugInManager = ⟨ps⟩ ∧
    (populated uniqueId ps).mDecryptSessionId = 0 ∧
    (populated uniqueId ps).mSupportInfoToPlugInIdMap =
      ⟨(supportEntries uniqueId ps).foldl
        (fun acc e => KeyedVector.insertEntry e.1 e.2 acc) []⟩ := by
  have h := populateLoop_index uniqueId ps { DrmManager.init with mPlugInManager := ⟨ps⟩ }
    (fun q hq => PlugInManager.getPlugIn_of_nodup ps hids q hq)
  have hr := sameRegistry_populateLoop uniqueId (ps.map PlugIn.plugInId)
    { DrmManager.init with mPlugInManager := ⟨ps⟩ }
  refine ⟨h.2, hr.1, ?_⟩
  exact h.1

/-- Every entry of the index `populate` builds binds a descriptor to the
identifier of an engine that reported it. -/
theorem populated_entries (uniqueId : Int) (ps : List PlugIn)
    (hids : (ps.map PlugIn.plugInId).Nodup) (e : DrmSupportInfo × String8)
    (he : e ∈ (populated uniqueId ps).mSupportInfoToPlugInIdMap.mVector) :
    ∃ p ∈ ps, p.plugInId = e.2 ∧ p.engine.getSupportInfo uniqueId = some e.1 := by
  rw [(populated_facts uniqueId ps hids).2.2] at he
  rcases KeyedVector.mem_foldl_insertEntry _ _ e he with h | h
  · cases h
  · unfold supportEntries at h
    obtain ⟨p, hp, hpe⟩ := List.mem_filterMap.mp h
    cases hd : p.engine.getSupportInfo uniqueId with
    | none => simp [hd] at hpe
    | some d =>
      simp only [hd, Option.map_some', Option.some.injEq] at hpe
      refine ⟨p, hp, ?_, ?_⟩
      · rw [← hpe]
      · rw [← hpe]
        exact hd

/-- An engine that reported no descriptor owns no entry of the index. -/
theorem populated_no_entry (uniqueId : Int) (ps : List PlugIn)
    (hids : (ps.map PlugIn.plugInId).Nodup) (p : PlugIn) (hp : p ∈ ps)
    (hnone : p.engine.getSupportInfo uniqueId = none) (e : DrmSupportInfo × String8)
    (he : e ∈ (populated uniqueId ps).mSupportInfoToPlugInIdMap.mVector) :
    e.2 ≠ p.plugInId := by
  intro heq
  obtain ⟨q, hq, hqid, hqd⟩ := populated_entries uniqueId ps hids e he
  have h1 := PlugInManager.getPlugIn_of_nodup ps hids q hq
  have h2 := PlugInManager.getPlugIn_of_nodup ps hids p hp
  rw [hqid, heq, h2] at h1
  have hpq : p = q := Option.some.inj h1
  rw [hpq, hqd] at hnone
  cases hnone

/-- C21: building the Capability Index skips engines that cannot report support
but keeps them reachable by probing.  For engines registered under pairwise
distinct identifiers, after `populate` on the empty index: every entry of the
index binds a descriptor to the identifier of an engine whose `getSupportInfo`
returned that descriptor; an engine whose `getSupportInfo` is null (and whose
identifier is not the empty string, the "unresolved" result) is never the
result of MIME resolution, of path resolution or of the three-argument
resolution; yet every registered engine, such an engine included, is probed
by the one-argument `canHandle` when the engines before it reject the path
(and its acceptance makes the answer true), and is probed by
`openDecryptSession` when the engines before it fail (and the session is bound
to it when it returns `DRM_NO_ERROR`). -/
theorem absent_support_engine_is_probed_only (uniqueId : Int) (ps : List PlugIn)
    (hids : (ps.map PlugIn.plugInId).Nodup) :
    (∀ e ∈ (populated uniqueId ps).mSupportInfoToPlugInIdMap.mVector,
      ∃ p ∈ ps, p.plugInId = e.2 ∧ p.engine.getSupportInfo uniqueId = some e.1) ∧
    (∀ p ∈ ps, p.engine.getSupportInfo uniqueId = none → p.plugInId ≠ "" →
      (∀ mimeType : String8,
        (populated uniqueId ps).getSupportedPlugInId mimeType ≠ p.plugInId) ∧
      (∀ (uid : Int) (path : String8),
        ((populated uniqueId ps).getSupportedPlugInIdFromPath uid path).1 ≠ p.plugInId) ∧
      (∀ (uid : Int) (path mimeType : String8),
        ((populated uniqueId ps).getSupportedPlugInId3 uid path mimeType).1 ≠ p.plugInId)) ∧
    (∀ (pre post : List PlugIn) (p : PlugIn), ps = pre ++ p :: post →
      ∀ (uid : Int) (path : String8), (∀ q ∈ pre, q.engine.canHandle uid path = false) →
        (∃ more, ((populated uniqueId ps).canHandle uid path).2.trace =
          (populated uniqueId ps).trace ++
            pre.map (fun q => (q.plugInId, EngineCall.canHandle uid path)) ++
            (p.plugInId, EngineCall.canHandle uid path) :: more) ∧
        (p.engine.canHandle uid path = true →
          ((populated uniqueId ps).canHandle uid path).1 = true)) ∧
    (∀ (pre post : List PlugIn) (p : PlugIn), ps = pre ++ p :: post →
      ∀ uid fd offset length : Int,
        allFail uid fd offset length pre (newDecryptHandle (populated uniqueId ps)) = true →
        (∃ more, ((populated uniqueId ps).openDecryptSession uid fd offset length).2.trace =
          (populated uniqueId ps).trace ++
            probeCalls uid fd offset length pre (newDecryptHandle (populated uniqueId ps)) ++
            (p.plugInId, EngineCall.openDecryptSession uid
              (handleAfter uid fd offset length pre (newDecryptHandle (populated uniqueId ps)))
              fd offset length) :: more) ∧
        ((p.engine.openDecryptSession uid
            (handleAfter uid fd offset length pre (newDecryptHandle (populated uniqueId ps)))
            fd offset length).1 = DRM_NO_ERROR →
          ((populated uniqueId ps).openDecryptSession uid fd offset length).1 =
            some (p.engine.openDecryptSession uid
              (handleAfter uid fd offset length pre (newDecryptHandle (populated uniqueId ps)))
              fd offset length).2 ∧
          ((populated uniqueId ps).openDecryptSession uid fd offset
            length).2.mDecryptSessionMap.lookup 1 = some p)) := by
  have hf := populated_facts uniqueId ps hids
  have hids2 : ((populated uniqueId ps).mPlugInManager.plugIns.map PlugIn.plugInId).Nodup := by
    rw [hf.1]
    exact hids
  have hmime : ∀ p ∈ ps, p.engine.getSupportInfo uniqueId = none → p.plugInId ≠ "" →
      ∀ mimeType : String8,
        (populated uniqueId ps).getSupportedPlugInId mimeType ≠ p.plugInId := by
    intro p hp hnone hne mimeType heq
    rcases getSupportedPlugInId_value (populated uniqueId ps) mimeType with h | ⟨d, h⟩
    · exact hne (by rw [← heq, h])
    · exact populated_no_entry uniqueId ps hids p hp hnone _ h heq
  have hpath : ∀ p ∈ ps, p.engine.getSupportInfo uniqueId = none → p.plugInId ≠ "" →
      ∀ (uid : Int) (path : String8),
        ((populated uniqueId ps).getSupportedPlugInIdFromPath uid path).1 ≠ p.plugInId := by
    intro p hp hnone hne uid path heq
    rcases pathScan_value uid path (getPathExtension path)
      (populated uniqueId ps).mSupportInfoToPlugInIdMap.keys (populated uniqueId ps)
      with h | ⟨d, h⟩
    · exact hne (by rw [← heq]; exact h)
    · exact populated_no_entry uniqueId ps hids p hp hnone _ h heq
  refine ⟨fun e he => populated_entries uniqueId ps hids e he, ?_, ?_, ?_⟩
  · intro p hp hnone hne
    refine ⟨hmime p hp hnone hne, hpath p hp hnone hne, ?_⟩
    intro uid path mimeType
    unfold getSupportedPlugInId3
    by_cases hm : EMPTY_STRING ≠ mimeType
    · rw [if_pos hm]
      exact hmime p hp hnone hne mimeType
    · rw [if_neg hm]
      exact hpath p hp hnone hne uid path
  · intro pre post p hsplit uid path hrej
    exact canHandle_probes (populated uniqueId ps) uid path pre post p
      (by rw [hf.1, hsplit]) hids2 hrej
  · intro pre post p hsplit uid fd offset length hfail
    have h := openDecryptSession_probes (populated uniqueId ps) uid fd offset length pre post p
      (by rw [hf.1, hsplit]) hids2 hfail
    rw [hf.2.1] at h
    exact h

/-- C21 at engines A (declares suffix "abc", rejects every path) and an engine
that reports no descriptor: the index has the entry of A only, path resolution
of "x.abc" is unresolved, `canHandle` of "x.abc" is true by the probe of the
second engine, and a decrypt session is bound to it. -/
theorem absent_support_engine_is_probed_only_witness :
    managerWithMute.mSupportInfoToPlugInIdMap.mVector = [(infoA, "A")] ∧
    (managerWithMute.getSupportedPlugInIdFromPath 7 "x.abc").1 ≠ "accepting" ∧
    (managerWithMute.canHandle 7 "x.abc").1 = true ∧
    (managerWithMute.openDecryptSession 7 3 0 10).2.mDecryptSessionMap.lookup 1 =
      some engineAccepting :=
  have h := absent_support_engine_is_probed_only 7
    [⟨"A", exampleEngine (some infoA) false DRM_ERROR_CANNOT_HANDLE⟩, engineAccepting]
    (by decide)
  ⟨by decide,
    (h.2.1 engineAccepting (by simp) rfl (by decide)).2.1 7 "x.abc",
    (h.2.2.1 [⟨"A", exampleEngine (some infoA) false DRM_ERROR_CANNOT_HANDLE⟩] []
      engineAccepting rfl 7 "x.abc" (by simp [exampleEngine])).2 rfl,
    ((h.2.2.2 [⟨"A", exampleEngine (some infoA) false DRM_ERROR_CANNOT_HANDLE⟩] []
      engineAccepting rfl 7 3 0 10 (by decide)).2 rfl).2⟩

end DrmManager

/-! ## Reloading and the Capability Index -/

namespace DrmManager

/-- `initializePlugIns` in full: it records two calls per engine and changes
nothing else. -/
theorem initializePlugInsLoop_eq (uniqueId : Int) (ids : List String8) (s : DrmManager)
    (hids : ∀ i ∈ ids, i ∈ s.mPlugInManager.getPlugInIdList) :
    initializePlugInsLoop uniqueId ids s =
      { s with trace := s.trace ++ initializeCalls uniqueId ids } := by
  induction ids generalizing s with
  | nil => simp [initializePlugInsLoop, initializeCalls]
  | cons i rest ih =>
    obtain ⟨p, hp, _, _⟩ :=
      PlugInManager.getPlugIn_of_mem s.mPlugInManager i (hids i (List.mem_cons_self i rest))
    rw [initializePlugInsLoop]
    simp only [hp]
    rw [ih ((s.logCall i (EngineCall.onInitialize uniqueId)).logCall i
        (EngineCall.setOnInfoListener uniqueId))
      (fun j hj => hids j (List.mem_cons_of_mem i hj))]
    simp [logCall, initializeCalls]

theorem initializePlugIns_eq (s : DrmManager) (uniqueId : Int) :
    s.initializePlugIns uniqueId =
      { s with
        trace := s.trace ++ initializeCalls uniqueId s.mPlugInManager.getPlugInIdList } :=
  initializePlugInsLoop_eq uniqueId _ s (fun _ hi => hi)

/-- `populate` in full: one `getSupportInfo` call per engine, and each reported
descriptor bound to the identifier of its engine, in registration order. -/
theorem populateLoop_eq (uniqueId : Int) (qs : List PlugIn) (s : DrmManager)
    (hq : ∀ q ∈ qs, s.mPlugInManager.getPlugIn q.plugInId = some q) :
    populateLoop uniqueId (qs.map PlugIn.plugInId) s =
      { s with
        trace := s.trace ++
          qs.map (fun q => (q.plugInId, EngineCall.getSupportInfo uniqueId))
        mSupportInfoToPlugInIdMap :=
          ⟨(supportEntries uniqueId qs).foldl
            (fun acc e => KeyedVector.insertEntry e.1 e.2 acc)
            s.mSupportInfoToPlugInIdMap.mVector⟩ } := by
  induction qs generalizing s with
  | nil => simp [populateLoop, supportEntries]
  | cons q rest ih =>
    have hq0 := hq q (List.mem_cons_self q rest)
    have hrest : ∀ s2 : DrmManager, s2.mPlugInManager = s.mPlugInManager →
        ∀ x ∈ rest, s2.mPlugInManager.getPlugIn x.plugInId = some x := by
      intro s2 h2 x hx
      rw [h2]
      exact hq x (List.mem_cons_of_mem q hx)
    simp only [List.map_cons, populateLoop, hq0]
    cases hinfo : q.engine.getSupportInfo uniqueId with
    | none =>
      refine Eq.trans (ih _ ?_) ?_
      · exact hrest _ rfl
      · simp [supportEntries, hinfo, logCall]
    | some info =>
      refine Eq.trans (ih _ ?_) ?_
      · exact hrest _ rfl
      · simp [supportEntries, hinfo, KeyedVector.add, logCall]

/-- `loadPlugIns` on a state whose Capability Index is empty. -/
theorem loadPlugIns_of_empty (s : DrmManager) (uniqueId : Int) (found : List PlugIn)
    (hids : (s.mPlugInManager.plugIns.map PlugIn.plugInId).Nodup)
    (hempty : s.mSupportInfoToPlugInIdMap.isEmpty = true) :
    s.loadPlugIns uniqueId found =
      (DRM_NO_ERROR,
        { s with
          mPlugInManager := s.mPlugInManager.loadPlugIns found
          trace := s.trace ++
            initializeCalls uniqueId (s.mPlugInManager.loadPlugIns found).getPlugInIdList ++
            (s.mPlugInManager.loadPlugIns found).plugIns.map
              (fun q => (q.plugInId, EngineCall.getSupportInfo uniqueId))
          mSupportInfoToPlugInIdMap :=
            ⟨(supportEntries uniqueId (s.mPlugInManager.loadPlugIns found).plugIns).foldl
              (fun acc e => KeyedVector.insertEntry e.1 e.2 acc) []⟩ }) := by
  have hnd := PlugInManager.nodup_loadPlugIns found s.mPlugInManager hids
  have hvec : s.mSupportInfoToPlugInIdMap.mVector = [] := by
    simpa [KeyedVector.isEmpty] using hempty
  have h1 : s.loadPlugIns uniqueId found =
      (DRM_NO_ERROR,
        (({ s with mPlugInManager := s.mPlugInManager.loadPlugIns found } :
          DrmManager).initializePlugIns uniqueId).populate uniqueId) := by
    unfold loadPlugIns
    rw [if_pos hempty]
  rw [h1, initializePlugIns_eq]
  unfold populate
  have hl : (PlugInManager.getPlugInIdList
      ({ ({ s with mPlugInManager := s.mPlugInManager.loadPlugIns found } : DrmManager) with
        trace := ({ s with mPlugInManager := s.mPlugInManager.loadPlugIns found } :
            DrmManager).trace ++
          initializeCalls uniqueId
            ({ s with mPlugInManager := s.mPlugInManager.loadPlugIns found } :
              DrmManager).mPlugInManager.getPlugInIdList } : DrmManager).mPlugInManager) =
      (s.mPlugInManager.loadPlugIns found).plugIns.map PlugIn.plugInId := rfl
  rw [hl, populateLoop_eq uniqueId _ _
    (fun q hq => PlugInManager.getPlugIn_of_nodup _ hnd q hq)]
  simp [hvec]

/-- `loadPlugIns` on a state whose Capability Index is not empty. -/
theorem loadPlugIns_of_nonempty (s : DrmManager) (uniqueId : Int) (found : List PlugIn)
    (hne : s.mSupportInfoToPlugInIdMap.isEmpty = false) :
    s.loadPlugIns uniqueId found =
      (DRM_NO_ERROR,
        { s with
          trace := s.trace ++ initializeCalls uniqueId s.mPlugInManager.getPlugInIdList }) := by
  have h1 : s.loadPlugIns uniqueId found = (DRM_NO_ERROR, s.initializePlugIns uniqueId) := by
    unfold loadPlugIns
    rw [hne]
    simp
  rw [h1, initializePlugIns_eq]

end DrmManager

namespace DrmManager

/-- C22, the claim as stated fails: `loadPlugIns` on a state whose Capability
Index is not empty derives nothing.  After caller 0 loaded an engine that
reported suffix "abc" to it, `loadPlugIns` by caller 7, with a second engine to
be found, calls `initialize` and `setOnInfoListener` only: no `getSupportInfo`
call is made, the second engine is not registered, and the index still holds
the descriptor with suffix "abc" although the engine reports the one with
suffix "xyz" to caller 7. -/
theorem loadPlugIns_keeps_stale_index :
    managerShifted.mSupportInfoToPlugInIdMap.mVector = [(infoA, "shifting")] ∧
    (managerShifted.loadPlugIns 7 [engineAnswering]).2.mSupportInfoToPlugInIdMap.mVector =
      [(infoA, "shifting")] ∧
    (managerShifted.loadPlugIns 7 [engineAnswering]).2.mPlugInManager.getPlugInIdList =
      ["shifting"] ∧
    supportEntries 7 (managerShifted.loadPlugIns 7 [engineAnswering]).2.mPlugInManager.plugIns =
      [(infoB, "shifting")] ∧
    (managerShifted.loadPlugIns 7 [engineAnswering]).2.trace =
      managerShifted.trace ++
        [("shifting", EngineCall.onInitialize 7), ("shifting", EngineCall.setOnInfoListener 7)] := by
  decide

/-- C22, amended: `loadPlugIns` derives the support descriptors only when the
Capability Index is empty.  For engines registered under pairwise distinct
identifiers: called on a state whose index is empty, it registers the engines
found, calls `initialize` and `setOnInfoListener` and then `getSupportInfo` on
every registered engine, and the index is the result of binding, in
registration order, every reported descriptor to the identifier of its engine,
which is one entry per engine that reports support when the reported
descriptors are pairwise distinct; called on a state whose index is not
empty, it calls `initialize` and `setOnInfoListener` on the registered engines
and leaves the index and the registry as they were, making no `getSupportInfo`
call.  In both cases it returns `DRM_NO_ERROR`. -/
theorem loadPlugIns_derives_index_when_empty (s : DrmManager) (uniqueId : Int)
    (found : List PlugIn) (hids : (s.mPlugInManager.plugIns.map PlugIn.plugInId).Nodup) :
    (s.loadPlugIns uniqueId found).1 = DRM_NO_ERROR ∧
    (s.mSupportInfoToPlugInIdMap.isEmpty = true →
      (s.loadPlugIns uniqueId found).2.mPlugInManager = s.mPlugInManager.loadPlugIns found ∧
      (s.loadPlugIns uniqueId found).2.trace =
        s.trace ++
          initializeCalls uniqueId (s.mPlugInManager.loadPlugIns found).getPlugInIdList ++
          (s.mPlugInManager.loadPlugIns found).plugIns.map
            (fun q => (q.plugInId, EngineCall.getSupportInfo uniqueId)) ∧
      (s.loadPlugIns uniqueId found).2.mSupportInfoToPlugInIdMap =
        ⟨(supportEntries uniqueId (s.mPlugInManager.loadPlugIns found).plugIns).foldl
          (fun acc e => KeyedVector.insertEntry e.1 e.2 acc) []⟩ ∧
      (((s.mPlugInManager.loadPlugIns found).plugIns.filterMap
          (fun p => p.engine.getSupportInfo uniqueId)).Nodup →
        (s.loadPlugIns uniqueId found).2.mSupportInfoToPlugInIdMap =
          ⟨supportEntries uniqueId (s.mPlugInManager.loadPlugIns found).plugIns⟩)) ∧
    (s.mSupportInfoToPlugInIdMap.isEmpty = false →
      (s.loadPlugIns uniqueId found).2.mPlugInManager = s.mPlugInManager ∧
      (s.loadPlugIns uniqueId found).2.trace =
        s.trace ++ initializeCalls uniqueId s.mPlugInManager.getPlugInIdList ∧
      (s.loadPlugIns uniqueId found).2.mSupportInfoToPlugInIdMap =
        s.mSupportInfoToPlugInIdMap) := by
  refine ⟨?_, ?_, ?_⟩
  · unfold loadPlugIns
    by_cases h : s.mSupportInfoToPlugInIdMap.isEmpty = true
    · rw [if_pos h]
    · rw [if_neg h]
  · intro hempty
    rw [loadPlugIns_of_empty s uniqueId found hids hempty]
    refine ⟨rfl, rfl, rfl, ?_⟩
    intro hdesc
    have hkeys : (supportEntries uniqueId (s.mPlugInManager.loadPlugIns found).plugIns).map
        Prod.fst =
        (s.mPlugInManager.loadPlugIns found).plugIns.filterMap
          (fun p => p.engine.getSupportInfo uniqueId) := by
      unfold supportEntries
      rw [List.map_filterMap]
      congr 1
      funext p
      cases p.engine.getSupportInfo uniqueId <;> rfl
    have hfold := KeyedVector.foldl_insertEntry_of_nodup
      (supportEntries uniqueId (s.mPlugInManager.loadPlugIns found).plugIns) []
      (by simpa [hkeys] using hdesc)
    simp only [hfold, List.nil_append]
  · intro hne
    rw [loadPlugIns_of_nonempty s uniqueId found hne]
    exact ⟨rfl, rfl, rfl⟩

/-- C22, amended, at the initial manager when engines A and B are found: the
index binds the descriptor of A to "A" and the descriptor of B to "B". -/
theorem loadPlugIns_derives_index_when_empty_witness :
    (DrmManager.init.mPlugInManager.plugIns.map PlugIn.plugInId).Nodup ∧
    managerScenario.mSupportInfoToPlugInIdMap.mVector = [(infoA, "A"), (infoB, "B")] :=
  ⟨by decide,
    (congrArg KeyedVector.mVector
      (((loadPlugIns_derives_index_when_empty DrmManager.init 7
        [engineBySuffix "A" infoA, engineBySuffix "B" infoB] (by decide)).2.1 rfl).2.2.2
          (by decide))).trans (by decide)⟩

end DrmManager

/-! ## The two-engine scenario -/

namespace DrmManager

/-- The manager after engines `a` and `b`, which report the descriptors of the
scenario, were loaded in this order. -/
theorem registeredInOrder_eq (uniqueId : Int) (a b : PlugIn)
    (hab : a.plugInId ≠ b.plugInId)
    (hA : a.engine.getSupportInfo uniqueId = some infoA)
    (hB : b.engine.getSupportInfo uniqueId = some infoB) :
    registeredInOrder uniqueId a b =
      { DrmManager.init with
        mPlugInManager := ⟨[a, b]⟩
        mSupportInfoToPlugInIdMap := ⟨[(infoA, a.plugInId), (infoB, b.plugInId)]⟩
        trace :=
          [(a.plugInId, EngineCall.onInitialize uniqueId),
           (a.plugInId, EngineCall.setOnInfoListener uniqueId),
           (b.plugInId, EngineCall.onInitialize uniqueId),
           (b.plugInId, EngineCall.setOnInfoListener uniqueId),
           (a.plugInId, EngineCall.getSupportInfo uniqueId),
           (b.plugInId, EngineCall.getSupportInfo uniqueId)] } := by
  have hload : (DrmManager.init.mPlugInManager.loadPlugIns [a, b]) = ⟨[a, b]⟩ := by
    have hba : ¬ b.plugInId = a.plugInId := fun h => hab h.symm
    simp [DrmManager.init, PlugInManager.loadPlugIns, PlugInManager.loadPlugIn,
      PlugInManager.getPlugInIdList, hba]
  have hne : infoA ≠ infoB := by decide
  unfold registeredInOrder
  rw [loadPlugIns_of_empty DrmManager.init uniqueId [a, b] (by simp [DrmManager.init]) rfl,
    hload]
  simp [DrmManager.init, supportEntries, hA, hB, initializeCalls, KeyedVector.insertEntry,
    PlugInManager.getPlugInIdList, hne]

end DrmManager

namespace DrmManager

/-- C23, the claim as stated fails: engine B declares suffix "xyz" but rejects
the path, and three-argument resolution of "content.xyz" with an empty MIME
type is unresolved, not B: a declared suffix selects an engine only when the
engine's `canHandle` confirms the path. -/
theorem scenario_unresolved_when_b_rejects :
    managerRejectingB.mSupportInfoToPlugInIdMap.mVector = [(infoA, "A"), (infoB, "B")] ∧
    infoB.isSupportedFileSuffix (getPathExtension "content.xyz") = true ∧
    (managerRejectingB.getSupportedPlugInId3 7 "content.xyz" "").1 = "" := by
  decide

/-- C23, amended: with engine A (declares suffix "abc" and MIME type
"application/x-a") registered before engine B (declares suffix "xyz" and MIME
type "application/x-b") under different identifiers, three-argument resolution
of path "content.xyz" with an empty MIME type selects B when B's `canHandle`
accepts "content.xyz" and is unresolved when it does not; resolution of MIME
type "application/x-a" selects A, whatever the path; and for path
"content.unknown" with an empty MIME type resolution is unresolved, and the
two-hint `canHandle` returns false when neither engine's `canHandle` returns
true. -/
theorem scenario_resolution (uniqueId : Int) (a b : PlugIn)
    (hab : a.plugInId ≠ b.plugInId)
    (hA : a.engine.getSupportInfo uniqueId = some infoA)
    (hB : b.engine.getSupportInfo uniqueId = some infoB) :
    (∀ uid : Int, b.engine.canHandle uid "content.xyz" = true →
      ((registeredInOrder uniqueId a b).getSupportedPlugInId3 uid "content.xyz" "").1 =
        b.plugInId) ∧
    (∀ uid : Int, b.engine.canHandle uid "content.xyz" = false →
      ((registeredInOrder uniqueId a b).getSupportedPlugInId3 uid "content.xyz" "").1 = "") ∧
    (∀ (uid : Int) (path : String8),
      ((registeredInOrder uniqueId a b).getSupportedPlugInId3 uid path "application/x-a").1 =
        a.plugInId) ∧
    (∀ uid : Int,
      ((registeredInOrder uniqueId a b).getSupportedPlugInId3 uid "content.unknown" "").1 =
        "") ∧
    (∀ uid : Int, a.engine.canHandle uid "content.unknown" = false →
      b.engine.canHandle uid "content.unknown" = false →
      ((registeredInOrder uniqueId a b).canHandle3 uid "content.unknown" "").1 = false) := by
  have hs := registeredInOrder_eq uniqueId a b hab hA hB
  have hba : ¬ b.plugInId = a.plugInId := fun h => hab h.symm
  have hext1 : getPathExtension "content.xyz" = "xyz" := by decide
  have hext2 : getPathExtension "content.unknown" = "unknown" := by decide
  have hA1 : infoA.isSupportedFileSuffix "xyz" = false := by decide
  have hB1 : infoB.isSupportedFileSuffix "xyz" = true := by decide
  have hA2 : infoA.isSupportedFileSuffix "unknown" = false := by decide
  have hB2 : infoB.isSupportedFileSuffix "unknown" = false := by decide
  have hAm : infoA.isSupportedMimeType "application/x-a" = true := by decide
  have hne : infoA ≠ infoB := by decide
  have hvB : (⟨[(infoA, a.plugInId), (infoB, b.plugInId)]⟩ :
      KeyedVector DrmSupportInfo String8).valueFor infoB "" = b.plugInId := by
    simp [KeyedVector.valueFor, KeyedVector.lookup, KeyedVector.findEntry, hne]
  have hvA : (⟨[(infoA, a.plugInId), (infoB, b.plugInId)]⟩ :
      KeyedVector DrmSupportInfo String8).valueFor infoA "" = a.plugInId := by
    simp [KeyedVector.valueFor, KeyedVector.lookup, KeyedVector.findEntry]
  have hgA : (⟨[a, b]⟩ : PlugInManager).getPlugIn a.plugInId = some a := by
    simp [PlugInManager.getPlugIn]
  have hgB : (⟨[a, b]⟩ : PlugInManager).getPlugIn b.plugInId = some b := by
    simp [PlugInManager.getPlugIn, hab]
  rw [hs]
  refine ⟨?_, ?_, ?_, ?_, ?_⟩
  · intro uid hc
    simp [getSupportedPlugInId3, EMPTY_STRING, getSupportedPlugInIdFromPath, KeyedVector.keys,
      pathScan, hext1, hA1, hB1, hvB, hgB, hc]
  · intro uid hc
    simp [getSupportedPlugInId3, EMPTY_STRING, getSupportedPlugInIdFromPath, KeyedVector.keys,
      pathScan, hext1, hA1, hB1, hvB, hgB, hc]
  · intro uid path
    simp [getSupportedPlugInId3, EMPTY_STRING, getSupportedPlugInId, KeyedVector.keys,
      mimeScan, hAm, hvA]
  · intro uid
    simp [getSupportedPlugInId3, EMPTY_STRING, getSupportedPlugInIdFromPath, KeyedVector.keys,
      pathScan, hext2, hA2, hB2]
  · intro uid hcA hcB
    simp [canHandle3, EMPTY_STRING, getSupportedPlugInId, canHandle, canHandleLoop,
      PlugInManager.getPlugInIdList, hgA, hgB, hcA, hcB, logCall]

/-- C23, amended, at engines A and B that accept exactly the paths with their
own suffix: "content.xyz" resolves to B, MIME type "application/x-a" to A, and
"content.unknown" is unresolved and cannot be handled. -/
theorem scenario_resolution_witness :
    (managerScenario.getSupportedPlugInId3 7 "content.xyz" "").1 = "B" ∧
    (managerScenario.getSupportedPlugInId3 7 "content.abc" "application/x-a").1 = "A" ∧
    (managerScenario.getSupportedPlugInId3 7 "content.unknown" "").1 = "" ∧
    (managerScenario.canHandle3 7 "content.unknown" "").1 = false :=
  have h := scenario_resolution 7 (engineBySuffix "A" infoA) (engineBySuffix "B" infoB)
    (by decide) rfl rfl
  ⟨h.1 7 (by decide), h.2.2.1 7 "content.abc", h.2.2.2.1 7,
    h.2.2.2.2 7 (by decide) (by decide)⟩

end DrmManager

/-! ## The three-argument resolution and the two-hint `canHandle` -/

namespace DrmManager

/-- MIME resolution is unresolved when no key of the index declares the type. -/
theorem mimeScan_of_none (m : KeyedVector DrmSupportInfo String8) (mimeType : String8)
    (ks : List DrmSupportInfo) (h : ∀ d ∈ ks, d.isSupportedMimeType mimeType = false) :
    mimeScan m mimeType ks = "" := by
  induction ks with
  | nil => rfl
  | cons k rest ih =>
    rw [mimeScan]
    simp only [h k (List.mem_cons_self k rest), Bool.false_eq_true, if_false]
    exact ih (fun d hd => h d (List.mem_cons_of_mem k hd))

theorem getSupportedPlugInId_of_none (s : DrmManager) (mimeType : String8)
    (h : ∀ d ∈ s.mSupportInfoToPlugInIdMap.keys, d.isSupportedMimeType mimeType = false) :
    s.getSupportedPlugInId mimeType = "" := by
  unfold getSupportedPlugInId
  by_cases hm : EMPTY_STRING ≠ mimeType
  · rw [if_pos hm]
    exact mimeScan_of_none _ _ _ h
  · rw [if_neg hm]

/-- C25: three-argument resolution gives the MIME type strict precedence.  It
is MIME resolution of the type, with the manager untouched, whenever the type
is not empty, and path resolution of the path when the type is empty.  So for
a non-empty MIME type that no descriptor of the index declares it is
unresolved and `getDrmObjectType` returns `UNKNOWN`, whatever path resolution
of the same path would select, and the manager is unchanged: no `canHandle`
call is recorded on any engine. -/
theorem mime_type_has_precedence (s : DrmManager) (uniqueId : Int) (path : String8) :
    (∀ mimeType : String8, mimeType ≠ "" →
      s.getSupportedPlugInId3 uniqueId path mimeType = (s.getSupportedPlugInId mimeType, s)) ∧
    s.getSupportedPlugInId3 uniqueId path "" = s.getSupportedPlugInIdFromPath uniqueId path ∧
    (∀ mimeType : String8, mimeType ≠ "" →
      (∀ d ∈ s.mSupportInfoToPlugInIdMap.keys, d.isSupportedMimeType mimeType = false) →
      s.getSupportedPlugInId3 uniqueId path mimeType = ("", s) ∧
      s.getDrmObjectType uniqueId path mimeType = (UNKNOWN, s)) := by
  have h1 : ∀ mimeType : String8, mimeType ≠ "" →
      s.getSupportedPlugInId3 uniqueId path mimeType = (s.getSupportedPlugInId mimeType, s) := by
    intro mimeType hm
    have hc : EMPTY_STRING ≠ mimeType := fun h => hm h.symm
    unfold getSupportedPlugInId3
    rw [if_pos hc]
  refine ⟨h1, ?_, ?_⟩
  · unfold getSupportedPlugInId3
    simp [EMPTY_STRING]
  · intro mimeType hm hnone
    have h2 : s.getSupportedPlugInId3 uniqueId path mimeType = ("", s) := by
      rw [h1 mimeType hm, getSupportedPlugInId_of_none s mimeType hnone]
    refine ⟨h2, ?_⟩
    unfold getDrmObjectType
    rw [h2]
    simp [EMPTY_STRING]

/-- C25 at engines A and B of the scenario: path resolution of "content.xyz"
selects B, but with the MIME type "application/x-none", which no engine
declares, `getDrmObjectType` of the same path returns `UNKNOWN` and leaves the
manager, with its record of engine calls, as it was. -/
theorem mime_type_has_precedence_witness :
    (managerScenario.getSupportedPlugInIdFromPath 7 "content.xyz").1 = "B" ∧
    managerScenario.getDrmObjectType 7 "content.xyz" "application/x-none" =
      (UNKNOWN, managerScenario) :=
  ⟨by decide,
    ((mime_type_has_precedence managerScenario 7 "content.xyz").2.2 "application/x-none"
      (by decide) (by decide)).2⟩

/-- C26: the two-hint `canHandle` degrades to the generic probe exactly when
MIME resolution fails.  When MIME resolution of `mimeType` yields the
identifier of a loaded engine, the answer is that engine's `canHandle` of the
path and the one call on that engine is all that is recorded, so no other
engine is consulted; when MIME resolution is unresolved, in particular when
`mimeType` is empty, the call is the one-argument `canHandle` of the path. -/
theorem canHandle3_degrades_to_probe (s : DrmManager) (uniqueId : Int)
    (path mimeType : String8) :
    (∀ e : PlugIn, s.getSupportedPlugInId mimeType ≠ "" →
      s.mPlugInManager.getPlugIn (s.getSupportedPlugInId mimeType) = some e →
      s.canHandle3 uniqueId path mimeType =
        (e.engine.canHandle uniqueId path,
          s.logCall (s.getSupportedPlugInId mimeType) (EngineCall.canHandle uniqueId path))) ∧
    (s.getSupportedPlugInId mimeType = "" →
      s.canHandle3 uniqueId path mimeType = s.canHandle uniqueId path) ∧
    s.canHandle3 uniqueId path "" = s.canHandle uniqueId path := by
  have h2 : ∀ m : String8, s.getSupportedPlugInId m = "" →
      s.canHandle3 uniqueId path m = s.canHandle uniqueId path := by
    intro m h
    unfold canHandle3
    simp [h, EMPTY_STRING]
  refine ⟨?_, h2 mimeType, h2 "" (getSupportedPlugInId_empty s)⟩
  intro e hne hg
  have hc : EMPTY_STRING ≠ s.getSupportedPlugInId mimeType := fun h => hne h.symm
  unfold canHandle3
  simp only [if_pos hc, if_true, hg]

/-- C26 at engines A (accepts every path) and B (declares MIME type
"application/x-b", rejects every path): with MIME type "application/x-b" the
two-hint `canHandle` asks B only and answers false, although the one-argument
`canHandle` of the same path is true; with an undeclared MIME type it is the
one-argument `canHandle`. -/
theorem canHandle3_degrades_to_probe_witness :
    (managerAB.canHandle 7 "content.abc").1 = true ∧
    (managerAB.canHandle3 7 "content.abc" "application/x-b").1 = false ∧
    (managerAB.canHandle3 7 "content.abc" "application/x-b").2.trace =
      managerAB.trace ++ [("B", EngineCall.canHandle 7 "content.abc")] ∧
    managerAB.canHandle3 7 "content.abc" "application/x-none" =
      managerAB.canHandle 7 "content.abc" :=
  have h := canHandle3_degrades_to_probe managerAB 7 "content.abc" "application/x-b"
  have h1 := h.1 ⟨"B", exampleEngine (some infoB) false DRM_NO_ERROR⟩ (by decide) rfl
  ⟨by decide, by rw [h1]; rfl, by rw [h1]; decide,
    (canHandle3_degrades_to_probe managerAB 7 "content.abc" "application/x-none").2.1
      (by decide)⟩

end DrmManager

/-! ## Termination of the identity allocation -/

namespace DrmManagerClientImpl

/-- The retry loop rejects every draw whose value is in use. -/
theorem findUniqueId_of_all_busy (v : List Int) (draws : List Nat)
    (h : ∀ r ∈ draws, ((r % 100 : Nat) : Int) ∈ v) : findUniqueId v draws = none := by
  induction draws with
  | nil => rfl
  | cons r rest ih =>
    rw [findUniqueId]
    simp only [h r (List.mem_cons_self r rest), if_true]
    exact ih (fun x hx => h x (List.mem_cons_of_mem r hx))

theorem mem_drawsFrom (stream : Nat → Nat) (n i r : Nat) (h : r ∈ drawsFrom stream i n) :
    ∃ j, i ≤ j ∧ r = stream j := by
  induction n generalizing i with
  | zero => simp [drawsFrom] at h
  | succ n ih =>
    rw [drawsFrom] at h
    rcases List.mem_cons.mp h with h1 | h1
    · exact ⟨i, le_refl i, h1⟩
    · obtain ⟨j, hj, hr⟩ := ih (i + 1) h1
      exact ⟨j, by omega, hr⟩

/-- The retry loop stops at the first draw whose value is not in use. -/
theorem findUniqueId_first_free (v : List Int) (stream : Nat → Nat) (k n i : Nat)
    (hik : i ≤ k) (hkn : k < i + n)
    (hbusy : ∀ j, i ≤ j → j < k → ((stream j % 100 : Nat) : Int) ∈ v)
    (hfree : ((stream k % 100 : Nat) : Int) ∉ v) :
    findUniqueId v (drawsFrom stream i n) = some ((stream k % 100 : Nat) : Int) := by
  induction n generalizing i with
  | zero => omega
  | succ n ih =>
    rw [drawsFrom, findUniqueId]
    by_cases hi : i = k
    · rw [hi]
      simp only [hfree, if_false]
    · have hb := hbusy i (le_refl i) (by omega)
      simp only [hb, if_true]
      exact ih (i + 1) (by omega) (by omega) (fun j h1 h2 => hbusy j (by omega) h2)

/-- C27, the claim as stated fails: with id 5 in use and a stream of draws that
yields 5 every time, `create` with requested id 0 has not returned after any
number of draws. -/
theorem create_never_returns_on_busy_stream :
    ¬ ∃ n : Nat, (create [5] 0 (drawsFrom (fun _ => 5) 0 n)).isSome = true := by
  rintro ⟨n, h⟩
  have hnone : findUniqueId [5] (drawsFrom (fun _ => 5) 0 n) = none := by
    apply findUniqueId_of_all_busy
    intro r hr
    obtain ⟨j, _, hj⟩ := mem_drawsFrom (fun _ => 5) n 0 r hr
    rw [hj]
    decide
  simp [create, hnone] at h

/-- C27, amended: `create` with requested id 0 returns exactly when the stream
of random draws contains a value that, modulo 100, is not in use.  If draw
number `k` is the first such draw, then after `k + 1` draws (and so for every
longer prefix of the stream) the call returns that value modulo 100, an id in
0..99 that was not in the in-use list, and appends it to the list; if every
draw of the stream is in use modulo 100, in particular when all of 0..99 are in
use, the call has not returned after any number of draws. -/
theorem create_returns_at_first_free_draw (mUniqueIdVector : List Int)
    (stream : Nat → Nat) :
    (∀ k : Nat, (∀ j, j < k → ((stream j % 100 : Nat) : Int) ∈ mUniqueIdVector) →
      ((stream k % 100 : Nat) : Int) ∉ mUniqueIdVector →
      (∀ n, k < n →
        create mUniqueIdVector 0 (drawsFrom stream 0 n) =
          some (((stream k % 100 : Nat) : Int),
            mUniqueIdVector ++ [((stream k % 100 : Nat) : Int)])) ∧
      (∀ n, n ≤ k → create mUniqueIdVector 0 (drawsFrom stream 0 n) = none) ∧
      (0 : Int) ≤ ((stream k % 100 : Nat) : Int) ∧ ((stream k % 100 : Nat) : Int) < 100) ∧
    ((∀ k : Nat, ((stream k % 100 : Nat) : Int) ∈ mUniqueIdVector) →
      ∀ n, create mUniqueIdVector 0 (drawsFrom stream 0 n) = none) := by
  constructor
  · intro k hbusy hfree
    refine ⟨?_, ?_, by omega, by omega⟩
    · intro n hn
      have h := findUniqueId_first_free mUniqueIdVector stream k n 0 (Nat.zero_le k)
        (by omega) (fun j _ h2 => hbusy j h2) hfree
      simp [create, h]
    · intro n hn
      have h : findUniqueId mUniqueIdVector (drawsFrom stream 0 n) = none := by
        apply findUniqueId_of_all_busy
        intro r hr
        obtain ⟨j, hj1, hj2, hj3⟩ : ∃ j, 0 ≤ j ∧ j < n ∧ r = stream j := by
          clear hfree hbusy
          have key : ∀ (m i : Nat), r ∈ drawsFrom stream i m → ∃ j, i ≤ j ∧ j < i + m ∧
              r = stream j := by
            intro m
            induction m with
            | zero => intro i h0; simp [drawsFrom] at h0
            | succ m ih =>
              intro i h0
              rw [drawsFrom] at h0
              rcases List.mem_cons.mp h0 with h1 | h1
              · exact ⟨i, le_refl i, by omega, h1⟩
              · obtain ⟨j, ha, hb, hc⟩ := ih (i + 1) h1
                exact ⟨j, by omega, by omega, hc⟩
          obtain ⟨j, ha, hb, hc⟩ := key n 0 hr
          exact ⟨j, ha, by omega, hc⟩
        rw [hj3]
        exact hbusy j (by omega)
      simp [create, h]
  · intro hall n
    have h : findUniqueId mUniqueIdVector (drawsFrom stream 0 n) = none := by
      apply findUniqueId_of_all_busy
      intro r hr
      obtain ⟨j, _, hj⟩ := mem_drawsFrom stream n 0 r hr
      rw [hj]
      exact hall j
    simp [create, h]

/-- C27, amended, with id 5 in use and the draws 105, 106, ...: the first draw
is 5 modulo 100 and rejected, the second gives id 6. -/
theorem create_returns_at_first_free_draw_witness :
    create [5] 0 (drawsFrom (fun k => 105 + k) 0 1) = none ∧
    create [5] 0 (drawsFrom (fun k => 105 + k) 0 2) = some (6, [5, 6]) :=
  have h := (create_returns_at_first_free_draw [5] (fun k => 105 + k)).1 1
    (by decide) (by decide)
  ⟨h.2.1 1 (le_refl 1), h.1 2 (by decide)⟩

end DrmManagerClientImpl

/-! ## Installing an engine that reports no descriptor -/

namespace PlugInManager

/-- An engine loaded under a new identifier is the one found under it. -/
theorem getPlugIn_loadPlugIn_new (pm : PlugInManager) (p : PlugIn)
    (hnew : p.plugInId ∉ pm.getPlugInIdList) :
    (pm.loadPlugIn p).getPlugIn p.plugInId = some p := by
  have hnone : pm.plugIns.find? (fun q => decide (q.plugInId = p.plugInId)) = none := by
    rw [List.find?_eq_none]
    intro q hq hc
    apply hnew
    unfold getPlugInIdList
    exact List.mem_map.mpr ⟨q, hq, by simpa using hc⟩
  unfold loadPlugIn
  rw [if_neg hnew]
  unfold getPlugIn
  rw [List.find?_append, hnone]
  simp

end PlugInManager

namespace DrmManager

/-- C28, the code does not do what the claim says: for an engine under a new
identifier whose `getSupportInfo` is null, `installDrmEngine` dereferences the
null descriptor (`none` in this embedding); it does not complete, adds nothing
and returns nothing, where `populate` tests the descriptor and goes on. -/
theorem installDrmEngine_dereferences_absent_descriptor (s : DrmManager) (uniqueId : Int)
    (absolutePath : String8) (engine : IDrmEngine)
    (hnew : absolutePath ∉ s.mPlugInManager.getPlugInIdList)
    (hnone : engine.getSupportInfo uniqueId = none) :
    s.installDrmEngine uniqueId absolutePath (some engine) = none := by
  have hg := PlugInManager.getPlugIn_loadPlugIn_new s.mPlugInManager ⟨absolutePath, engine⟩ hnew
  unfold installDrmEngine
  simp only [hg, hnone]

/-- C28 at the initial manager and an engine that reports no descriptor:
`installDrmEngine` runs into the null descriptor, while `populate` on a
registry with the same engine completes and adds no entry. -/
theorem installDrmEngine_dereferences_absent_descriptor_witness :
    DrmManager.init.installDrmEngine 7 "accepting" (some engineAccepting.engine) = none ∧
    (populated 7 [engineAccepting]).mSupportInfoToPlugInIdMap.mVector = [] :=
  ⟨installDrmEngine_dereferences_absent_descriptor DrmManager.init 7 "accepting"
    engineAccepting.engine (by decide) rfl, by decide⟩

end DrmManager

/-! ## Threads and the decrypt lock: what every interleaving keeps -/

theorem localStep_registry (t : Nat) (shared : DrmManager) (lock : Option Nat) (th : Thread) :
    (localStep t shared lock th).1.mPlugInManager = shared.mPlugInManager := by
  obtain ⟨pc, todo, opened, closed⟩ := th
  cases pc <;> simp only [localStep] <;> (repeat' split) <;> simp [DrmManager.logCall]

theorem localStep_lock (t : Nat) (shared : DrmManager) (lock : Option Nat) (th : Thread)
    (h : holdsLock th.pc = true ↔ lock = some t) :
    (holdsLock (localStep t shared lock th).2.2.pc = true ↔
      (localStep t shared lock th).2.1 = some t) ∧
    (∀ u, u ≠ t → ((localStep t shared lock th).2.1 = some u ↔ lock = some u)) := by
  obtain ⟨pc, todo, opened, closed⟩ := th
  cases pc <;> simp only [localStep] <;> (repeat' split) <;> simp_all [holdsLock]
  all_goals (intro u hu e; exact hu e.symm)

theorem successIds_append (l : List (status_t × Option DecryptHandle))
    (x : status_t × Option DecryptHandle) :
    successIds (l ++ [x]) = successIds l ++ successIds [x] := by
  induction l with
  | nil => simp [successIds]
  | cons a rest ih =>
    obtain ⟨st, h⟩ := a
    cases h with
    | none => simpa [successIds] using ih
    | some h =>
      by_cases hs : st = DRM_NO_ERROR
      · simp [successIds, hs, ih]
      · simp [successIds, hs, ih]

theorem handleOk_of_not_holdsLock (n : Int) (pc : Pc) (h : holdsLock pc = false) :
    HandleOk n pc := by
  cases pc <;> simp_all [holdsLock, HandleOk]

theorem localStep_ids (t : Nat) (shared : DrmManager) (lock : Option Nat) (th : Thread)
    (hok : HandleOk shared.mDecryptSessionId th.pc)
    (hlo : INT_MIN ≤ shared.mDecryptSessionId) (hhi : shared.mDecryptSessionId < INT_MAX) :
    ((localStep t shared lock th).1.mDecryptSessionId = shared.mDecryptSessionId ∧
      obtainedIds (localStep t shared lock th).2.2 = obtainedIds th) ∨
    ((localStep t shared lock th).1.mDecryptSessionId = shared.mDecryptSessionId + 1 ∧
      obtainedIds (localStep t shared lock th).2.2 =
        obtainedIds th ++ [shared.mDecryptSessionId + 1] ∧
      holdsLock th.pc = true) := by
  have hw := DrmManager.wrapInt_succ shared.mDecryptSessionId hlo hhi
  obtain ⟨pc, todo, opened, closed⟩ := th
  cases pc with
  | openProbing uniqueId fd offset length rest handle result =>
    cases rest with
    | nil =>
      left
      have hr : result ≠ DRM_NO_ERROR := hok.2
      by_cases hc : DRM_ERROR_CANNOT_HANDLE = result
      · simp [localStep, obtainedIds, pendingId, successIds_append, successIds, openResult, hc]
      · simp [localStep, obtainedIds, pendingId, successIds_append, successIds, openResult, hc,
          hr]
    | cons plugInId rest =>
      left
      simp only [localStep]
      cases hg : shared.mPlugInManager.getPlugIn plugInId with
      | none => simp [obtainedIds, pendingId]
      | some p =>
        by_cases hc : DRM_NO_ERROR =
            (p.engine.openDecryptSession uniqueId handle fd offset length).1
        · simp [hc, obtainedIds, pendingId, DrmManager.logCall]
        · simp [hc, obtainedIds, pendingId, DrmManager.logCall]
  | _ =>
    simp only [localStep]
    (repeat' split) <;>
      simp_all [holdsLock, HandleOk, obtainedIds, pendingId, DrmManager.logCall,
        successIds_append, successIds, openResult]

theorem localStep_handle (t : Nat) (shared : DrmManager) (lock : Option Nat) (th : Thread)
    (hok : HandleOk shared.mDecryptSessionId th.pc)
    (hkeep : ∀ p ∈ shared.mPlugInManager.plugIns, KeepsDecryptId p)
    (hlo : INT_MIN ≤ shared.mDecryptSessionId) (hhi : shared.mDecryptSessionId < INT_MAX) :
    HandleOk (localStep t shared lock th).1.mDecryptSessionId
      (localStep t shared lock th).2.2.pc := by
  have hw := DrmManager.wrapInt_succ shared.mDecryptSessionId hlo hhi
  have hne : ¬ DRM_ERROR_CANNOT_HANDLE = DRM_NO_ERROR := by decide
  obtain ⟨pc, todo, opened, closed⟩ := th
  cases pc with
  | openProbing uniqueId fd offset length rest handle result =>
    cases rest with
    | nil => simp [localStep, HandleOk]
    | cons plugInId rest =>
      simp only [localStep]
      cases hg : shared.mPlugInManager.getPlugIn plugInId with
      | none => exact hok
      | some p =>
        have hk := hkeep p (PlugInManager.getPlugIn_mem _ _ _ hg) uniqueId handle fd offset
          length
        by_cases hc : DRM_NO_ERROR =
            (p.engine.openDecryptSession uniqueId handle fd offset length).1
        · simp only [hc, if_true, HandleOk, DrmManager.logCall]
          rw [hk]
          exact hok.1
        · simp only [hc, if_false, HandleOk, DrmManager.logCall]
          rw [hk]
          exact ⟨hok.1, fun e => hc e.symm⟩
  | _ =>
    simp only [localStep]
    (repeat' split) <;>
      simp_all [holdsLock, HandleOk, DrmManager.logCall]


/-- One step of one thread keeps what holds in every configuration, and moves
the counter up by one at most. -/
theorem stepThread_serialized (c : Config) (pm : PlugInManager) (t : Nat)
    (h : Serialized c pm) (hkeep : ∀ p ∈ pm.plugIns, KeepsDecryptId p)
    (hhi : c.shared.mDecryptSessionId < INT_MAX) :
    Serialized (stepThread c t) pm ∧
    (stepThread c t).shared.mDecryptSessionId ≤ c.shared.mDecryptSessionId + 1 := by
  have hreg := localStep_registry t c.shared c.mDecryptLock (c.threads t)
  have hlock := localStep_lock t c.shared c.mDecryptLock (c.threads t) (h.lock t)
  have hids := localStep_ids t c.shared c.mDecryptLock (c.threads t) (h.handle t) h.low hhi
  have hhandle := localStep_handle t c.shared c.mDecryptLock (c.threads t) (h.handle t)
    (by rw [h.registry]; exact hkeep) h.low hhi
  have hself : (stepThread c t).threads t =
      (localStep t c.shared c.mDecryptLock (c.threads t)).2.2 := by
    simp [stepThread]
  have hother : ∀ u, u ≠ t → (stepThread c t).threads u = c.threads u := by
    intro u hu
    simp [stepThread, hu]
  have hcounter : (stepThread c t).shared.mDecryptSessionId =
      (localStep t c.shared c.mDecryptLock (c.threads t)).1.mDecryptSessionId := rfl
  have hmono : c.shared.mDecryptSessionId ≤ (stepThread c t).shared.mDecryptSessionId ∧
      (stepThread c t).shared.mDecryptSessionId ≤ c.shared.mDecryptSessionId + 1 := by
    rw [hcounter]
    rcases hids with ⟨h1, _⟩ | ⟨h1, _, _⟩ <;> rw [h1] <;> constructor <;> omega
  have hnew : ∀ id ∈ obtainedIds ((stepThread c t).threads t),
      id ∈ obtainedIds (c.threads t) ∨
        (id = c.shared.mDecryptSessionId + 1 ∧
          (stepThread c t).shared.mDecryptSessionId = c.shared.mDecryptSessionId + 1) := by
    intro id hid
    rw [hself] at hid
    rcases hids with ⟨_, h2⟩ | ⟨h1, h2, _⟩
    · rw [h2] at hid
      exact Or.inl hid
    · rw [h2] at hid
      rcases List.mem_append.mp hid with h3 | h3
      · exact Or.inl h3
      · exact Or.inr ⟨List.mem_singleton.mp h3, by rw [hcounter, h1]⟩
  have hfresh : ∀ u, c.shared.mDecryptSessionId + 1 ∉ obtainedIds (c.threads u) := by
    intro u hmem
    have := h.bound u _ hmem
    omega
  refine ⟨⟨?_, ?_, ?_, ?_, ?_, ?_, ?_⟩, hmono.2⟩
  · exact hreg.trans h.registry
  · intro u
    by_cases hu : u = t
    · rw [hu, hself]
      exact hlock.1
    · rw [hother u hu]
      exact (h.lock u).trans (hlock.2 u hu).symm
  · exact le_trans h.low hmono.1
  · intro u
    by_cases hu : u = t
    · rw [hu, hself]
      exact hhandle
    · rw [hother u hu, hcounter]
      rcases hids with ⟨h1, _⟩ | ⟨_, _, h3⟩
      · rw [h1]
        exact h.handle u
      · apply handleOk_of_not_holdsLock
        cases hh : holdsLock (c.threads u).pc with
        | false => rfl
        | true =>
          have h4 := (h.lock t).mp h3
          have h5 := (h.lock u).mp hh
          rw [h4] at h5
          exact absurd (Option.some.inj h5).symm hu
  · intro u id hid
    by_cases hu : u = t
    · rw [hu] at hid
      rcases hnew id hid with h1 | ⟨h1, h2⟩
      · exact le_trans (h.bound t id h1) hmono.1
      · rw [h1, h2]
    · rw [hother u hu] at hid
      exact le_trans (h.bound u id hid) hmono.1
  · intro u
    by_cases hu : u = t
    · rw [hu, hself]
      rcases hids with ⟨_, h2⟩ | ⟨_, h2, _⟩
      · rw [h2]
        exact h.nodup t
      · rw [h2, List.nodup_append]
        refine ⟨h.nodup t, List.nodup_singleton _, ?_⟩
        intro a ha hb
        rw [List.mem_singleton.mp hb] at ha
        exact hfresh t ha
    · rw [hother u hu]
      exact h.nodup u
  · intro u w huw id hid
    by_cases hu : u = t
    · have hw : w ≠ t := fun e => huw (hu.trans e.symm)
      rw [hother w hw]
      rw [hu] at hid
      rcases hnew id hid with h1 | ⟨h1, _⟩
      · exact h.disjoint t w (fun e => hw e.symm) id h1
      · rw [h1]
        exact hfresh w
    · rw [hother u hu] at hid
      by_cases hw : w = t
      · rw [hw]
        intro hmem
        rcases hnew id hmem with h1 | ⟨h1, _⟩
        · exact h.disjoint u t hu id hid h1
        · rw [h1] at hid
          exact hfresh u hid
      · rw [hother w hw]
        exact h.disjoint u w huw id hid

/-- The configuration in which no call has started. -/
theorem start_serialized (s : DrmManager) (programs : Nat → List ThreadCall)
    (hlo : INT_MIN ≤ s.mDecryptSessionId) :
    Serialized (Config.start s programs) s.mPlugInManager := by
  refine ⟨rfl, ?_, hlo, ?_, ?_, ?_, ?_⟩
  · intro t
    simp [Config.start, holdsLock]
  · intro t
    simp [Config.start, HandleOk]
  · intro t id hid
    simp [Config.start, obtainedIds, successIds, pendingId] at hid
  · intro t
    simp [Config.start, obtainedIds, successIds, pendingId]
  · intro t u _ id hid
    simp [Config.start, obtainedIds, successIds, pendingId] at hid

/-- Every schedule keeps what holds in every configuration, as long as the
counter cannot reach `INT_MAX`. -/
theorem runSchedule_serialized (schedule : List Nat) (c : Config) (pm : PlugInManager)
    (h : Serialized c pm) (hkeep : ∀ p ∈ pm.plugIns, KeepsDecryptId p)
    (hhi : c.shared.mDecryptSessionId + schedule.length ≤ INT_MAX) :
    Serialized (runSchedule c schedule) pm := by
  induction schedule generalizing c with
  | nil => exact h
  | cons t rest ih =>
    rw [runSchedule]
    have hlt : c.shared.mDecryptSessionId < INT_MAX := by
      simp only [List.length_cons, Nat.cast_add, Nat.cast_one] at hhi
      omega
    have hs := stepThread_serialized c pm t h hkeep hlt
    apply ih (stepThread c t) hs.1
    simp only [List.length_cons, Nat.cast_add, Nat.cast_one] at hhi
    omega

/-! ### One thread alone is the sequential manager -/

/-- Steps of one thread in a row, seen from the configuration. -/
theorem runSchedule_replicate (t n : Nat) (c : Config) :
    (runSchedule c (List.replicate n t)).shared =
      (runAlone t n (c.shared, c.mDecryptLock, c.threads t)).1 ∧
    (runSchedule c (List.replicate n t)).mDecryptLock =
      (runAlone t n (c.shared, c.mDecryptLock, c.threads t)).2.1 ∧
    (runSchedule c (List.replicate n t)).threads t =
      (runAlone t n (c.shared, c.mDecryptLock, c.threads t)).2.2 ∧
    (∀ u, u ≠ t → (runSchedule c (List.replicate n t)).threads u = c.threads u) := by
  induction n generalizing c with
  | zero => exact ⟨rfl, rfl, rfl, fun _ _ => rfl⟩
  | succ n ih =>
    rw [List.replicate_succ, runSchedule, runAlone]
    have h := ih (stepThread c t)
    have hself : (stepThread c t).threads t =
        (localStep t c.shared c.mDecryptLock (c.threads t)).2.2 := by
      simp [stepThread]
    rw [hself] at h
    refine ⟨h.1, h.2.1, h.2.2.1, ?_⟩
    intro u hu
    rw [h.2.2.2 u hu]
    simp [stepThread, hu]

theorem runAlone_add (t m n : Nat) (x : DrmManager × Option Nat × Thread) :
    runAlone t (m + n) x = runAlone t n (runAlone t m x) := by
  induction m generalizing x with
  | zero => simp [runAlone]
  | succ m ih =>
    rw [Nat.add_right_comm, runAlone, runAlone]
    exact ih _

/-- The steps of the probing loop, taken without interruption, compute
`openDecryptLoop` and end with the release of the lock and the return. -/
theorem runAlone_probing (t : Nat) (uniqueId fd offset length : Int) (todo : List ThreadCall)
    (opened : List (status_t × Option DecryptHandle)) (closed : List (Option DrmConvertedStatus))
    (ids : List String8) (handle : DecryptHandle) (result : status_t) (s : DrmManager) :
    ∃ n, runAlone t n
        (s, some t,
          ⟨Pc.openProbing uniqueId fd offset length ids handle result, todo, opened, closed⟩) =
      ((DrmManager.openDecryptLoop uniqueId fd offset length ids handle result s).2.2, none,
        ⟨Pc.idle, todo,
          opened ++
            [openResult
              (DrmManager.openDecryptLoop uniqueId fd offset length ids handle result s).2.1
              (DrmManager.openDecryptLoop uniqueId fd offset length ids handle result s).1],
          closed⟩) := by
  induction ids generalizing handle result s with
  | nil => exact ⟨1, by simp [runAlone, localStep, DrmManager.openDecryptLoop]⟩
  | cons i rest ih =>
    cases hg : s.mPlugInManager.getPlugIn i with
    | none =>
      obtain ⟨n, hn⟩ := ih handle result s
      refine ⟨n + 1, ?_⟩
      rw [Nat.add_comm, runAlone_add]
      simp only [runAlone, localStep, DrmManager.openDecryptLoop, hg]
      exact hn
    | some e =>
      by_cases hc : DRM_NO_ERROR = (e.engine.openDecryptSession uniqueId handle fd offset length).1
      · refine ⟨4, ?_⟩
        simp only [runAlone, localStep, DrmManager.openDecryptLoop, hg, hc, if_true]
      · obtain ⟨n, hn⟩ := ih (e.engine.openDecryptSession uniqueId handle fd offset length).2
          (e.engine.openDecryptSession uniqueId handle fd offset length).1
          (s.logCall i (EngineCall.openDecryptSession uniqueId handle fd offset length))
        refine ⟨n + 1, ?_⟩
        rw [Nat.add_comm, runAlone_add]
        simp only [runAlone, localStep, DrmManager.openDecryptLoop, hg, hc, if_false]
        exact hn

/-- A thread that runs `openDecryptSession` without interruption, the lock being
free, leaves the manager as the sequential `openDecryptSession` does and
returns what it returns. -/
theorem thread_alone_is_sequential (c : Config) (t : Nat) (uniqueId fd offset length : Int)
    (todo : List ThreadCall) (opened : List (status_t × Option DecryptHandle))
    (closed : List (Option DrmConvertedStatus))
    (hlock : c.mDecryptLock = none)
    (hth : c.threads t =
      ⟨Pc.idle, ThreadCall.openDecryptSession uniqueId fd offset length :: todo, opened,
        closed⟩) :
    ∃ n,
      (runSchedule c (List.replicate n t)).shared =
        (c.shared.openDecryptSession uniqueId fd offset length).2 ∧
      (runSchedule c (List.replicate n t)).mDecryptLock = none ∧
      (runSchedule c (List.replicate n t)).threads t =
        ⟨Pc.idle, todo,
          opened ++ [((c.shared.openDecryptProbe uniqueId fd offset length).1,
            (c.shared.openDecryptSession uniqueId fd offset length).1)], closed⟩ ∧
      (∀ u, u ≠ t → (runSchedule c (List.replicate n t)).threads u = c.threads u) := by
  obtain ⟨n, hn⟩ := runAlone_probing t uniqueId fd offset length todo opened closed
    c.shared.mPlugInManager.getPlugInIdList (DrmManager.newDecryptHandle c.shared)
    DRM_ERROR_CANNOT_HANDLE c.shared
  have h3 : runAlone t 3 (c.shared, c.mDecryptLock, c.threads t) =
      (c.shared, some t,
        ⟨Pc.openProbing uniqueId fd offset length c.shared.mPlugInManager.getPlugInIdList
          (DrmManager.newDecryptHandle c.shared) DRM_ERROR_CANNOT_HANDLE, todo, opened,
          closed⟩) := by
    rw [hlock, hth]
    simp [runAlone, localStep, DrmManager.newDecryptHandle]
  have hall := runSchedule_replicate t (3 + n) c
  rw [runAlone_add, h3, hn] at hall
  refine ⟨3 + n, ?_, hall.2.1, ?_, hall.2.2.2⟩
  · rw [hall.1, DrmManager.openDecryptSession_snd]
    rfl
  · rw [hall.2.2.1]
    simp only [openResult, DrmManager.openDecryptSession, DrmManager.openDecryptProbe]
    by_cases hc : DRM_ERROR_CANNOT_HANDLE =
        (DrmManager.openDecryptLoop uniqueId fd offset length
          c.shared.mPlugInManager.getPlugInIdList (DrmManager.newDecryptHandle c.shared)
          DRM_ERROR_CANNOT_HANDLE c.shared).1
    · simp only [if_pos hc]
    · simp only [if_neg hc]

/-- A thread that runs `closeDecryptSession` without interruption leaves the
manager as the sequential `closeDecryptSession` does. -/
theorem close_alone_is_sequential (c : Config) (t : Nat) (uniqueId : Int)
    (decryptHandle : DecryptHandle) (todo : List ThreadCall)
    (opened : List (status_t × Option DecryptHandle)) (closed : List (Option DrmConvertedStatus))
    (hth : c.threads t =
      ⟨Pc.idle, ThreadCall.closeDecryptSession uniqueId decryptHandle :: todo, opened,
        closed⟩) :
    ∃ n,
      (runSchedule c (List.replicate n t)).shared =
        c.shared.closeDecryptSession uniqueId decryptHandle ∧
      (runSchedule c (List.replicate n t)).mDecryptLock = c.mDecryptLock ∧
      (runSchedule c (List.replicate n t)).threads t = ⟨Pc.idle, todo, opened, closed⟩ ∧
      (∀ u, u ≠ t → (runSchedule c (List.replicate n t)).threads u = c.threads u) := by
  have key : ∃ n, runAlone t n (c.shared, c.mDecryptLock, c.threads t) =
      (c.shared.closeDecryptSession uniqueId decryptHandle, c.mDecryptLock,
        ⟨Pc.idle, todo, opened, closed⟩) := by
    rw [hth]
    by_cases hi : c.shared.mDecryptSessionMap.indexOfKey decryptHandle.decryptId ≠ NAME_NOT_FOUND
    · cases hl : c.shared.mDecryptSessionMap.lookup decryptHandle.decryptId with
      | none =>
        exact ⟨3, by simp [runAlone, localStep, DrmManager.closeDecryptSession, hi, hl]⟩
      | some e =>
        exact ⟨4, by
          simp [runAlone, localStep, DrmManager.closeDecryptSession, hi, hl,
            DrmManager.logCall]⟩
    · exact ⟨2, by simp [runAlone, localStep, DrmManager.closeDecryptSession, hi]⟩
  obtain ⟨n, hn⟩ := key
  have hall := runSchedule_replicate t n c
  rw [hn] at hall
  exact ⟨n, hall.1, hall.2.1, hall.2.2.1, hall.2.2.2⟩

/-! ### Serialization of opens -/

/-- A step that moves the counter, changes the session map or records a probe
is a step of a thread inside the locked block, the removal at the end of
`closeDecryptSession` apart. -/
theorem localStep_effects (t : Nat) (shared : DrmManager) (lock : Option Nat) (th : Thread) :
    ((localStep t shared lock th).1.mDecryptSessionId ≠ shared.mDecryptSessionId →
      holdsLock th.pc = true) ∧
    ((localStep t shared lock th).1.mDecryptSessionMap ≠ shared.mDecryptSessionMap →
      holdsLock th.pc = true ∨ atRemoveItem th.pc = true) ∧
    (∀ (i : String8) (uniqueId : Int) (handle : DecryptHandle) (fd offset length : Int),
      (localStep t shared lock th).1.trace =
        shared.trace ++ [(i, EngineCall.openDecryptSession uniqueId handle fd offset length)] →
      holdsLock th.pc = true) := by
  obtain ⟨pc, todo, opened, closed⟩ := th
  cases pc <;> simp only [localStep] <;> (repeat' split) <;>
    simp [holdsLock, atRemoveItem, DrmManager.logCall]

/-- C24, the claim as stated fails: `closeDecryptSession` does not take the
decrypt lock.  Thread 0 opens a session and has incremented the counter to 1
but not yet inserted the binding (it holds the lock); thread 1 then runs
`closeDecryptSession` on handle 1 from start to end: it finds no binding and
calls no engine.  Thread 0 then binds handle 1 and returns it, so the close of
handle 1 observed the handle with the counter advanced and the binding
missing. -/
theorem close_observes_unbound_handle :
    (runSchedule (Config.start managerLoaded racingPrograms)
      [0, 0, 0, 0, 0]).shared.mDecryptSessionId = 1 ∧
    (runSchedule (Config.start managerLoaded racingPrograms)
      [0, 0, 0, 0, 0]).shared.mDecryptSessionMap.keys = [] ∧
    (runSchedule (Config.start managerLoaded racingPrograms)
      [0, 0, 0, 0, 0]).mDecryptLock = some 0 ∧
    ((runSchedule (Config.start managerLoaded racingPrograms)
      [0, 0, 0, 0, 0]).threads 1).todo = [ThreadCall.closeDecryptSession 7 ⟨1, "", 0, 0⟩] ∧
    ((runSchedule (Config.start managerLoaded racingPrograms)
      [0, 0, 0, 0, 0, 1, 1]).threads 1).todo = [] ∧
    isIdle ((runSchedule (Config.start managerLoaded racingPrograms)
      [0, 0, 0, 0, 0, 1, 1]).threads 1).pc = true ∧
    (runSchedule (Config.start managerLoaded racingPrograms)
      [0, 0, 0, 0, 0, 1, 1]).mDecryptLock = some 0 ∧
    ((runSchedule (Config.start managerLoaded racingPrograms)
      [0, 0, 0, 0, 0, 1, 1, 0, 0]).threads 0).opened =
        [(DRM_NO_ERROR, some ⟨1, "", 0, 0⟩)] ∧
    (runSchedule (Config.start managerLoaded racingPrograms)
      [0, 0, 0, 0, 0, 1, 1, 0, 0]).shared.mDecryptSessionMap.keys = [1] ∧
    (runSchedule (Config.start managerLoaded racingPrograms)
      [0, 0, 0, 0, 0, 1, 1, 0, 0]).shared.trace =
        managerLoaded.trace ++ [("A", EngineCall.openDecryptSession 7 ⟨1, "", 0, 0⟩ 3 0 10)] := by
  decide

/-- C24, amended: `openDecryptSession` calls are serialized against each other
by the decrypt lock.  In every interleaving of threads that call
`openDecryptSession` and `closeDecryptSession` (engines keeping the handle id,
the counter not reaching `INT_MAX`): a thread is inside the locked block
exactly when it holds the lock, so at most one thread is; a step that moves
the counter or records a probe of an engine is taken by the holder of the lock,
and the session map changes only by a step of the holder of the lock or by the
`removeItem` of a `closeDecryptSession`; and the handles returned by opens that
bound a session are pairwise distinct, within a thread and between threads. -/
theorem opens_serialized_by_decrypt_lock (s : DrmManager) (programs : Nat → List ThreadCall)
    (schedule : List Nat)
    (hkeep : ∀ p ∈ s.mPlugInManager.plugIns, KeepsDecryptId p)
    (hlo : INT_MIN ≤ s.mDecryptSessionId)
    (hhi : s.mDecryptSessionId + schedule.length ≤ INT_MAX) :
    (∀ t, holdsLock ((runSchedule (Config.start s programs) schedule).threads t).pc = true ↔
      (runSchedule (Config.start s programs) schedule).mDecryptLock = some t) ∧
    (∀ t u, t ≠ u →
      holdsLock ((runSchedule (Config.start s programs) schedule).threads t).pc = true →
      holdsLock ((runSchedule (Config.start s programs) schedule).threads u).pc = false) ∧
    (∀ t,
      ((stepThread (runSchedule (Config.start s programs) schedule) t).shared.mDecryptSessionId ≠
          (runSchedule (Config.start s programs) schedule).shared.mDecryptSessionId →
        (runSchedule (Config.start s programs) schedule).mDecryptLock = some t) ∧
      ((stepThread (runSchedule (Config.start s programs) schedule) t).shared.mDecryptSessionMap ≠
          (runSchedule (Config.start s programs) schedule).shared.mDecryptSessionMap →
        (runSchedule (Config.start s programs) schedule).mDecryptLock = some t ∨
          atRemoveItem ((runSchedule (Config.start s programs) schedule).threads t).pc = true) ∧
      (∀ (i : String8) (uniqueId : Int) (handle : DecryptHandle) (fd offset length : Int),
        (stepThread (runSchedule (Config.start s programs) schedule) t).shared.trace =
          (runSchedule (Config.start s programs) schedule).shared.trace ++
            [(i, EngineCall.openDecryptSession uniqueId handle fd offset length)] →
        (runSchedule (Config.start s programs) schedule).mDecryptLock = some t)) ∧
    (∀ t, (successIds
      ((runSchedule (Config.start s programs) schedule).threads t).opened).Nodup) ∧
    (∀ t u, t ≠ u →
      ∀ id ∈ successIds ((runSchedule (Config.start s programs) schedule).threads t).opened,
        id ∉ successIds ((runSchedule (Config.start s programs) schedule).threads u).opened) := by
  have h := runSchedule_serialized schedule (Config.start s programs) s.mPlugInManager
    (start_serialized s programs hlo) hkeep hhi
  refine ⟨h.lock, ?_, ?_, ?_, ?_⟩
  · intro t u htu ht
    cases hu : holdsLock ((runSchedule (Config.start s programs) schedule).threads u).pc with
    | false => rfl
    | true =>
      have h1 := (h.lock t).mp ht
      have h2 := (h.lock u).mp hu
      rw [h1] at h2
      exact absurd (Option.some.inj h2) htu
  · intro t
    have he := localStep_effects t (runSchedule (Config.start s programs) schedule).shared
      (runSchedule (Config.start s programs) schedule).mDecryptLock
      ((runSchedule (Config.start s programs) schedule).threads t)
    refine ⟨fun hc => (h.lock t).mp (he.1 hc), ?_, ?_⟩
    · intro hc
      rcases he.2.1 hc with h1 | h1
      · exact Or.inl ((h.lock t).mp h1)
      · exact Or.inr h1
    · intro i uniqueId handle fd offset length hc
      exact (h.lock t).mp (he.2.2 i uniqueId handle fd offset length hc)
  · intro t
    exact (List.nodup_append.mp (h.nodup t)).1
  · intro t u htu id hid hmem
    exact h.disjoint t u htu id (List.mem_append_left _ hid) (List.mem_append_left _ hmem)

/-- C24, amended, at two threads that each open a session on a manager with one
engine: thread 1 asks for the lock while thread 0 holds it and waits; thread 0
obtains handle 1, thread 1 handle 2.  A thread alone leaves the manager as the
sequential `openDecryptSession` does. -/
theorem opens_serialized_by_decrypt_lock_witness :
    ((runSchedule (Config.start managerLoaded twoOpeners)
      [0, 1, 0, 1, 0, 0, 0, 0, 0, 1, 1, 1, 1, 1, 1]).threads 0).opened =
        [(DRM_NO_ERROR, some ⟨1, "", 0, 0⟩)] ∧
    ((runSchedule (Config.start managerLoaded twoOpeners)
      [0, 1, 0, 1, 0, 0, 0, 0, 0, 1, 1, 1, 1, 1, 1]).threads 1).opened =
        [(DRM_NO_ERROR, some ⟨2, "", 0, 0⟩)] ∧
    (runSchedule (Config.start managerLoaded twoOpeners) [0, 0, 0, 0, 0, 0, 0]).shared.trace =
      (managerLoaded.openDecryptSession 7 3 0 10).2.trace ∧
    (runSchedule (Config.start managerLoaded twoOpeners)
      [0, 0, 0, 0, 0, 0, 0]).shared.mDecryptSessionMap.keys =
      (managerLoaded.openDecryptSession 7 3 0 10).2.mDecryptSessionMap.keys ∧
    ((runSchedule (Config.start managerLoaded twoOpeners) [0, 0, 0, 0, 0, 0, 0]).threads 0).opened =
      [(DRM_NO_ERROR, (managerLoaded.openDecryptSession 7 3 0 10).1)] ∧
    (∀ t u, t ≠ u →
      ∀ id ∈ successIds ((runSchedule (Config.start managerLoaded twoOpeners)
          [0, 1, 0, 1, 0, 0, 0, 0, 0, 1, 1, 1, 1, 1, 1]).threads t).opened,
        id ∉ successIds ((runSchedule (Config.start managerLoaded twoOpeners)
          [0, 1, 0, 1, 0, 0, 0, 0, 0, 1, 1, 1, 1, 1, 1]).threads u).opened) :=
  ⟨by decide, by decide, by decide, by decide, by decide,
    (opens_serialized_by_decrypt_lock managerLoaded twoOpeners
      [0, 1, 0, 1, 0, 0, 0, 0, 0, 1, 1, 1, 1, 1, 1]
      (by
        intro p hp
        have hl : managerLoaded.mPlugInManager.plugIns =
            [⟨"A", exampleEngine (some infoA) true DRM_NO_ERROR⟩] := rfl
        rw [hl] at hp
        have hp2 : p = ⟨"A", exampleEngine (some infoA) true DRM_NO_ERROR⟩ := by
          simpa using hp
        rw [hp2]
        intro uniqueId h fd offset length
        rfl)
      (by decide) (by decide)).2.2.2.2⟩

/-! ## Independence of the two handle spaces: the scenario -/

namespace DrmManager

/-- What closing does to a state in which convert handle 1 is bound to `ce` and
decrypt handle 1 is bound to `de`. -/
theorem bothBoundAtOne_of_lookups (t : DrmManager) (ce de : PlugIn)
    (hc : t.mConvertSessionMap.lookup 1 = some ce)
    (hd : t.mDecryptSessionMap.lookup 1 = some de) : BothBoundAtOne t ce de := by
  refine ⟨hc, hd, ?_, ?_⟩
  · intro uniqueId h hid
    have hf := closeDecryptSession_frame t uniqueId h
    refine ⟨by rw [hf.2.2.1]; exact hc, ?_⟩
    intro hkeep
    have hun := closeDecryptSession_unbinds t uniqueId h
      (by
        intro e he
        rw [hid] at he ⊢
        have : some de = some e := hd.symm.trans he
        cases this
        exact hkeep)
    rw [hid] at hun
    exact (KeyedVector.lookup_eq_none_iff _ _).mpr hun
  · intro uniqueId
    have hf := closeConvertSession_frame t uniqueId 1
    refine ⟨?_, by rw [hf.2.2.1]; exact hd⟩
    have hidx : t.mConvertSessionMap.indexOfKey 1 ≠ NAME_NOT_FOUND := by
      intro hnf
      rw [(KeyedVector.indexOfKey_eq_notFound _ _).mp hnf] at hc
      cases hc
    have hclose : (t.closeConvertSession uniqueId 1).2.mConvertSessionMap =
        t.mConvertSessionMap.removeItem 1 := by
      unfold closeConvertSession
      simp only [hidx, ne_eq, not_false_eq_true, if_true, hc, logCall]
    rw [hclose, KeyedVector.lookup_removeItem]
    simp

/-- The handle an accepted open returns has the id the manager gave it, and the
session is bound under that id, when the engines keep the handle id. -/
theorem openDecryptSession_accepted (s : DrmManager) (uniqueId fd offset length : Int)
    (pre post : List PlugIn) (de : PlugIn)
    (hsplit : s.mPlugInManager.plugIns = pre ++ de :: post)
    (hids : (s.mPlugInManager.plugIns.map PlugIn.plugInId).Nodup)
    (hfail : allFail uniqueId fd offset length pre (newDecryptHandle s) = true)
    (hok : (de.engine.openDecryptSession uniqueId
      (handleAfter uniqueId fd offset length pre (newDecryptHandle s)) fd offset length).1 =
        DRM_NO_ERROR)
    (hkeep : ∀ p ∈ s.mPlugInManager.plugIns, KeepsDecryptId p) :
    (∃ handle, (s.openDecryptSession uniqueId fd offset length).1 = some handle ∧
      handle.decryptId = wrapInt (s.mDecryptSessionId + 1)) ∧
    (s.openDecryptSession uniqueId fd offset length).2.mDecryptSessionMap.lookup
      (wrapInt (s.mDecryptSessionId + 1)) = some de := by
  have hp := (openDecryptSession_probes s uniqueId fd offset length pre post de hsplit hids
    hfail).2 hok
  refine ⟨⟨_, hp.1, ?_⟩, hp.2⟩
  rw [hkeep de (by rw [hsplit]; simp) uniqueId _ fd offset length,
    handleAfter_decryptId uniqueId fd offset length pre (newDecryptHandle s)
      (fun p hp h1 => hkeep p (by rw [hsplit]; exact List.mem_append_left _ hp) uniqueId h1 fd
        offset length)]
  rfl

/-- C11 (amended): the two handle spaces are independent.  `openConvertSession`,
`convertData` and `closeConvertSession` leave the decrypt counter and the decrypt
session map unchanged; `openDecryptSession` and `closeDecryptSession` leave the
convert counter and the convert session map unchanged.  Consequently, in a
state with both counters at 0 (such as the initial state once engines are
loaded), engines registered under pairwise distinct identifiers that leave the
id of the handle they are given as it is and an index with pairwise distinct
keys, when the first index entry that declares the MIME type names a loaded
engine `ce` and `de` is the first registered engine whose `openDecryptSession`
returns `DRM_NO_ERROR`, opening one session of each kind in either order
returns convert handle 1 and a decrypt handle with id 1, convert handle 1
being bound to `ce` and decrypt handle 1 to `de` at the same time; closing the
convert session leaves the decrypt session bound, and closing the decrypt
session leaves the convert session bound and unbinds the decrypt session when
`de` leaves the id of the handle as it is on close. -/
theorem handle_spaces_independent (s : DrmManager) (uniqueId : Int) :
    (∀ mimeType : String8,
      (s.openConvertSession uniqueId mimeType).2.mDecryptSessionId = s.mDecryptSessionId ∧
      (s.openConvertSession uniqueId mimeType).2.mDecryptSessionMap = s.mDecryptSessionMap) ∧
    (∀ (convertId : Int) (inputData : Option DrmBuffer),
      (s.convertData uniqueId convertId inputData).2.mDecryptSessionId = s.mDecryptSessionId ∧
      (s.convertData uniqueId convertId inputData).2.mDecryptSessionMap =
        s.mDecryptSessionMap) ∧
    (∀ convertId : Int,
      (s.closeConvertSession uniqueId convertId).2.mDecryptSessionId = s.mDecryptSessionId ∧
      (s.closeConvertSession uniqueId convertId).2.mDecryptSessionMap =
        s.mDecryptSessionMap) ∧
    (∀ fd offset length : Int,
      (s.openDecryptSession uniqueId fd offset length).2.mConvertId = s.mConvertId ∧
      (s.openDecryptSession uniqueId fd offset length).2.mConvertSessionMap =
        s.mConvertSessionMap) ∧
    (∀ decryptHandle : DecryptHandle,
      (s.closeDecryptSession uniqueId decryptHandle).mConvertId = s.mConvertId ∧
      (s.closeDecryptSession uniqueId decryptHandle).mConvertSessionMap =
        s.mConvertSessionMap) ∧
    (∀ (mimeType : String8) (fd offset length : Int) (d : DrmSupportInfo) (ce de : PlugIn)
        (pre post : List PlugIn),
      s.mDecryptSessionId = 0 → s.mConvertId = 0 →
      mimeType ≠ "" →
      s.mSupportInfoToPlugInIdMap.keys.Nodup →
      s.mSupportInfoToPlugInIdMap.mVector.find? (fun e => e.1.isSupportedMimeType mimeType) =
        some (d, ce.plugInId) →
      ce ∈ s.mPlugInManager.plugIns →
      ce.plugInId ≠ "" →
      s.mPlugInManager.plugIns = pre ++ de :: post →
      (s.mPlugInManager.plugIns.map PlugIn.plugInId).Nodup →
      allFail uniqueId fd offset length pre (newDecryptHandle s) = true →
      (de.engine.openDecryptSession uniqueId
        (handleAfter uniqueId fd offset length pre (newDecryptHandle s)) fd offset length).1 =
          DRM_NO_ERROR →
      (∀ p ∈ s.mPlugInManager.plugIns, KeepsDecryptId p) →
        ((s.openConvertSession uniqueId mimeType).1 = 1 ∧
          (∃ handle,
            ((s.openConvertSession uniqueId mimeType).2.openDecryptSession uniqueId fd offset
              length).1 = some handle ∧ handle.decryptId = 1) ∧
          BothBoundAtOne
            ((s.openConvertSession uniqueId mimeType).2.openDecryptSession uniqueId fd offset
              length).2 ce de) ∧
        ((∃ handle, (s.openDecryptSession uniqueId fd offset length).1 = some handle ∧
            handle.decryptId = 1) ∧
          ((s.openDecryptSession uniqueId fd offset length).2.openConvertSession uniqueId
            mimeType).1 = 1 ∧
          BothBoundAtOne
            ((s.openDecryptSession uniqueId fd offset length).2.openConvertSession uniqueId
              mimeType).2 ce de)) := by
  refine ⟨?_, ?_, ?_, ?_, ?_, ?_⟩
  · intro mimeType
    have hf := openConvertSession_frame s uniqueId mimeType
    exact ⟨hf.1, hf.2.1⟩
  · intro convertId inputData
    have hf := sameRegistry_convertData s uniqueId convertId inputData
    exact ⟨hf.1, hf.2.2.1⟩
  · intro convertId
    have hf := closeConvertSession_frame s uniqueId convertId
    exact ⟨hf.1, hf.2.2.1⟩
  · intro fd offset length
    have hf := openDecryptSession_frame s uniqueId fd offset length
    exact ⟨hf.1, hf.2.1⟩
  · intro decryptHandle
    have hf := closeDecryptSession_frame s uniqueId decryptHandle
    exact ⟨hf.2.1, hf.2.2.1⟩
  · intro mimeType fd offset length d ce de pre post hn hc hm hnd hfind hce hcne hsplit hids
      hfail hok hkeep
    have hone : wrapInt (0 + 1) = 1 := by decide
    have hid : s.getSupportedPlugInId mimeType = ce.plugInId := by
      rw [getSupportedPlugInId_eq_find s hnd mimeType hm, hfind]
    have hres : s.getSupportedPlugInId mimeType ≠ "" := by
      rw [hid]
      exact hcne
    have hget : s.mPlugInManager.getPlugIn (s.getSupportedPlugInId mimeType) = some ce := by
      rw [hid]
      exact PlugInManager.getPlugIn_of_nodup s.mPlugInManager.plugIns hids ce hce
    constructor
    · -- convert session first
      have hopen := openConvertSession_resolved s uniqueId mimeType ce hres hget
      rw [hc, hone] at hopen
      have hf := openDecryptSession_frame (s.openConvertSession uniqueId mimeType).2
        uniqueId fd offset length
      have hpm : (s.openConvertSession uniqueId mimeType).2.mPlugInManager =
          s.mPlugInManager := by rw [hopen]
      have hctr : (s.openConvertSession uniqueId mimeType).2.mDecryptSessionId = 0 := by
        rw [hopen]; exact hn
      have hnew : newDecryptHandle (s.openConvertSession uniqueId mimeType).2 =
          newDecryptHandle s := by
        unfold newDecryptHandle
        rw [hctr, hn]
      have hacc := openDecryptSession_accepted (s.openConvertSession uniqueId mimeType).2
        uniqueId fd offset length pre post de (by rw [hpm]; exact hsplit)
        (by rw [hpm]; exact hids) (by rw [hnew]; exact hfail) (by rw [hnew]; exact hok)
        (by rw [hpm]; exact hkeep)
      rw [hctr, hone] at hacc
      refine ⟨by rw [hopen], hacc.1, ?_⟩
      apply bothBoundAtOne_of_lookups
      · rw [hf.2.1, hopen]
        simp [KeyedVector.lookup_add]
      · exact hacc.2
    · -- decrypt session first
      have hf := openDecryptSession_frame s uniqueId fd offset length
      have hacc := openDecryptSession_accepted s uniqueId fd offset length pre post de hsplit
        hids hfail hok hkeep
      rw [hn, hone] at hacc
      have hidx := openDecryptSession_sameIndex s uniqueId fd offset length
      have hres2 := getSupportedPlugInId_congr s _ hidx mimeType
      have hopen := openConvertSession_resolved
        (s.openDecryptSession uniqueId fd offset length).2 uniqueId mimeType ce
        (by rw [hres2]; exact hres) (by rw [hres2, hf.2.2.1]; exact hget)
      rw [hf.1, hc, hone] at hopen
      refine ⟨hacc.1, by rw [hopen], ?_⟩
      apply bothBoundAtOne_of_lookups
      · rw [hopen]
        simp [KeyedVector.lookup_add]
      · rw [hopen]
        exact hacc.2

/-- C11 (amended) at the initial manager with engine A loaded, which declares
"application/x-a", accepts every decrypt session and leaves handles as they
are: in either order the convert handle is 1 and the decrypt handle returned
has id 1, both are bound to A at the same time, closing decrypt handle 1
unbinds it and leaves convert handle 1 bound, and closing convert handle 1
leaves decrypt handle 1 bound. -/
theorem handle_spaces_independent_witness :
    ((managerLoaded.openDecryptSession 7 3 0 10).1 = some ⟨1, "", 0, 0⟩ ∧
      ((managerLoaded.openDecryptSession 7 3 0 10).2.openConvertSession 7
        "application/x-a").1 = 1 ∧
      ((managerLoaded.openConvertSession 7 "application/x-a").2.openDecryptSession 7 3 0
        10).1 = some ⟨1, "", 0, 0⟩) ∧
    BothBoundAtOne
      ((managerLoaded.openDecryptSession 7 3 0 10).2.openConvertSession 7
        "application/x-a").2
      ⟨"A", exampleEngine (some infoA) true DRM_NO_ERROR⟩
      ⟨"A", exampleEngine (some infoA) true DRM_NO_ERROR⟩ ∧
    ((((managerLoaded.openDecryptSession 7 3 0 10).2.openConvertSession 7
      "application/x-a").2.closeDecryptSession 7 ⟨1, "", 0, 0⟩).mDecryptSessionMap.lookup
        1 = none ∧
      (((managerLoaded.openDecryptSession 7 3 0 10).2.openConvertSession 7
        "application/x-a").2.closeDecryptSession 7 ⟨1, "", 0, 0⟩).mConvertSessionMap.keys =
          [1]) :=
  have h := (handle_spaces_independent managerLoaded 7).2.2.2.2.2 "application/x-a" 3 0 10
    infoA ⟨"A", exampleEngine (some infoA) true DRM_NO_ERROR⟩
    ⟨"A", exampleEngine (some infoA) true DRM_NO_ERROR⟩ [] []
    (by decide) (by decide) (by decide) (by decide) (by decide)
    (List.mem_singleton.mpr rfl) (by decide) rfl (by decide) rfl rfl
    (by
      intro p hp
      have hp2 : p ∈ [(⟨"A", exampleEngine (some infoA) true DRM_NO_ERROR⟩ : PlugIn)] := hp
      rw [List.mem_singleton] at hp2
      rw [hp2]
      intro u h fd offset length
      rfl)
  ⟨⟨by decide, by decide, by decide⟩, h.2.2.2,
    (h.2.2.2.2.2.1 7 ⟨1, "", 0, 0⟩ rfl).2 rfl, by decide⟩

/-- C11, the claim as stated fails: the engine is given the handle object and
may write to it.  From the initial state with one engine loaded whose
`openDecryptSession` succeeds and sets the id of the handle to 9, opening a
convert session and a decrypt session gives convert handle 1 and a decrypt
handle with id 9, in either order, while the decrypt session is bound under
key 1: no decrypt handle 1 is returned. -/
theorem decrypt_handle_one_not_returned :
    managerScribbling.mDecryptSessionId = 0 ∧ managerScribbling.mConvertId = 0 ∧
    (managerScribbling.openConvertSession 7 "application/x-a").1 = 1 ∧
    ((managerScribbling.openConvertSession 7 "application/x-a").2.openDecryptSession 7 3 0
      10).1 = some ⟨9, "", 0, 0⟩ ∧
    ((managerScribbling.openConvertSession 7 "application/x-a").2.openDecryptSession 7 3 0
      10).2.mDecryptSessionMap.keys = [1] ∧
    (managerScribbling.openDecryptSession 7 3 0 10).1 = some ⟨9, "", 0, 0⟩ ∧
    ((managerScribbling.openDecryptSession 7 3 0 10).2.openConvertSession 7
      "application/x-a").1 = 1 := by
  decide

end DrmManager

/-! ## Closing a session: the order of the steps -/

/-- C12 (amended): close forwards first, then removes a binding.  A thread that
runs `closeDecryptSession(h)` alone in a state where the id of `h` is bound to
engine `e`: after three steps the call `e.closeDecryptSession(h)` is recorded,
exactly once, and the session map is as before, `h` still bound to `e`; the
fourth step removes the id of the handle as `e` left it and ends in the state
the sequential `closeDecryptSession` gives.  When `e` leaves the id of `h` as
it is, the id of `h` is unbound afterwards and every other key is bound as
before.  The convert map and both counters are unchanged.  For
`closeConvertSession(c)` with `c` bound to `e` the same holds on the convert
map, without a condition on `e`: the call on `e` is recorded with `c` still
bound, then `c` is removed, and the result is exactly `e`'s result. -/
theorem close_forwards_then_unbinds (s : DrmManager) (uniqueId : Int) (t : Nat)
    (lock : Option Nat) (todo : List ThreadCall)
    (opened : List (status_t × Option DecryptHandle))
    (closed : List (Option DrmConvertedStatus)) :
    (∀ (h : DecryptHandle) (e : PlugIn),
      s.mDecryptSessionMap.lookup h.decryptId = some e →
        runAlone t 3
            (s, lock, ⟨Pc.idle, ThreadCall.closeDecryptSession uniqueId h :: todo, opened,
              closed⟩) =
          ({ s with
              trace := s.trace ++ [(e.plugInId, EngineCall.closeDecryptSession uniqueId h)] },
            lock,
            ⟨Pc.closeCalled uniqueId (e.engine.closeDecryptSession uniqueId h), todo, opened,
              closed⟩) ∧
        runAlone t 4
            (s, lock, ⟨Pc.idle, ThreadCall.closeDecryptSession uniqueId h :: todo, opened,
              closed⟩) =
          (s.closeDecryptSession uniqueId h, lock, ⟨Pc.idle, todo, opened, closed⟩) ∧
        (s.closeDecryptSession uniqueId h).trace =
          s.trace ++ [(e.plugInId, EngineCall.closeDecryptSession uniqueId h)] ∧
        (s.closeDecryptSession uniqueId h).mDecryptSessionMap =
          s.mDecryptSessionMap.removeItem (e.engine.closeDecryptSession uniqueId h).decryptId ∧
        ((e.engine.closeDecryptSession uniqueId h).decryptId = h.decryptId →
          ∀ k : Int, (s.closeDecryptSession uniqueId h).mDecryptSessionMap.lookup k =
            if k = h.decryptId then none else s.mDecryptSessionMap.lookup k) ∧
        (s.closeDecryptSession uniqueId h).mConvertSessionMap = s.mConvertSessionMap ∧
        (s.closeDecryptSession uniqueId h).mDecryptSessionId = s.mDecryptSessionId ∧
        (s.closeDecryptSession uniqueId h).mConvertId = s.mConvertId) ∧
    (∀ (convertId : Int) (e : PlugIn),
      s.mConvertSessionMap.lookup convertId = some e →
        runAlone t 3
            (s, lock, ⟨Pc.idle, ThreadCall.closeConvertSession uniqueId convertId :: todo,
              opened, closed⟩) =
          ({ s with
              trace := s.trace ++
                [(e.plugInId, EngineCall.closeConvertSession uniqueId convertId)] },
            lock,
            ⟨Pc.convertCalled uniqueId convertId
              (e.engine.closeConvertSession uniqueId convertId), todo, opened, closed⟩) ∧
        runAlone t 4
            (s, lock, ⟨Pc.idle, ThreadCall.closeConvertSession uniqueId convertId :: todo,
              opened, closed⟩) =
          ((s.closeConvertSession uniqueId convertId).2, lock,
            ⟨Pc.idle, todo, opened,
              closed ++ [(s.closeConvertSession uniqueId convertId).1]⟩) ∧
        (s.closeConvertSession uniqueId convertId).1 =
          e.engine.closeConvertSession uniqueId convertId ∧
        (s.closeConvertSession uniqueId convertId).2.trace =
          s.trace ++ [(e.plugInId, EngineCall.closeConvertSession uniqueId convertId)] ∧
        (∀ k : Int, (s.closeConvertSession uniqueId convertId).2.mConvertSessionMap.lookup k =
          if k = convertId then none else s.mConvertSessionMap.lookup k) ∧
        (s.closeConvertSession uniqueId convertId).2.mDecryptSessionMap =
          s.mDecryptSessionMap ∧
        (s.closeConvertSession uniqueId convertId).2.mDecryptSessionId =
          s.mDecryptSessionId ∧
        (s.closeConvertSession uniqueId convertId).2.mConvertId = s.mConvertId) := by
  constructor
  · intro h e hb
    have hidx : s.mDecryptSessionMap.indexOfKey h.decryptId ≠ NAME_NOT_FOUND := by
      intro hnf
      rw [(KeyedVector.indexOfKey_eq_notFound _ _).mp hnf] at hb
      cases hb
    rw [DrmManager.closeDecryptSession_bound s uniqueId h e hb]
    refine ⟨?_, ?_, rfl, rfl, ?_, rfl, rfl, rfl⟩
    · simp [runAlone, localStep, hidx, hb, DrmManager.logCall]
    · simp [runAlone, localStep, hidx, hb, DrmManager.logCall]
    · intro hkeep k
      rw [hkeep]
      exact KeyedVector.lookup_removeItem s.mDecryptSessionMap h.decryptId k
  · intro convertId e hb
    have hidx : s.mConvertSessionMap.indexOfKey convertId ≠ NAME_NOT_FOUND := by
      intro hnf
      rw [(KeyedVector.indexOfKey_eq_notFound _ _).mp hnf] at hb
      cases hb
    rw [DrmManager.closeConvertSession_bound s uniqueId convertId e hb]
    refine ⟨?_, ?_, rfl, rfl, ?_, rfl, rfl, rfl⟩
    · simp [runAlone, localStep, hidx, hb, DrmManager.logCall]
    · simp [runAlone, localStep, hidx, hb, DrmManager.logCall]
    · intro k
      exact KeyedVector.lookup_removeItem s.mConvertSessionMap convertId k

/-- C12 (amended) at a manager with decrypt session 1 and convert session 1 open
on engine "A", which leaves handles as they are: after three steps of
`closeDecryptSession` with handle 1 the call on "A" is recorded and handle 1 is
still bound; after the fourth it is unbound; `closeConvertSession(1)` returns
what "A" returns. -/
theorem close_forwards_then_unbinds_witness :
    managerOneOfEach.mDecryptSessionMap.keys = [1] ∧
    (runAlone 0 3
      (managerOneOfEach, none,
        ⟨Pc.idle, [ThreadCall.closeDecryptSession 7 ⟨1, "", 0, 0⟩], [], []⟩)).1.trace =
      managerOneOfEach.trace ++ [("A", EngineCall.closeDecryptSession 7 ⟨1, "", 0, 0⟩)] ∧
    (runAlone 0 3
      (managerOneOfEach, none,
        ⟨Pc.idle, [ThreadCall.closeDecryptSession 7 ⟨1, "", 0, 0⟩], [],
          []⟩)).1.mDecryptSessionMap.keys = [1] ∧
    (managerOneOfEach.closeDecryptSession 7 ⟨1, "", 0, 0⟩).mDecryptSessionMap.lookup 1 =
      none ∧
    (managerOneOfEach.closeConvertSession 7 1).1 = none :=
  have h := close_forwards_then_unbinds managerOneOfEach 7 0 none [] [] []
  have hd := h.1 ⟨1, "", 0, 0⟩ ⟨"A", exampleEngine (some infoA) true DRM_NO_ERROR⟩ rfl
  ⟨by decide, by rw [hd.1], by rw [hd.1]; decide,
    by rw [hd.2.2.2.2.1 rfl 1]; rfl,
    (h.2 1 ⟨"A", exampleEngine (some infoA) true DRM_NO_ERROR⟩ rfl).2.2.1⟩

/-- C12, the claim as stated fails: the key `closeDecryptSession` removes is the
id read from the handle after the engine's call.  With sessions 1 and 2 bound
to an engine whose `closeDecryptSession` sets the id of the handle to 2,
`closeDecryptSession` with handle 1 calls the engine once and then removes
key 2: handle 1 is still a key of the map and the binding of handle 2, another
binding, is gone. -/
theorem close_removes_another_binding :
    managerCrossing.mDecryptSessionMap.keys = [1, 2] ∧
    (managerCrossing.closeDecryptSession 7 ⟨1, "", 0, 0⟩).trace =
      managerCrossing.trace ++
        [("crossing", EngineCall.closeDecryptSession 7 ⟨1, "", 0, 0⟩)] ∧
    (managerCrossing.closeDecryptSession 7 ⟨1, "", 0, 0⟩).mDecryptSessionMap.keys = [1] := by
  decide

end DrmFramework
